import Mathlib

deriving instance DecidableEq for Except

attribute [local semireducible] Rat.add Rat.sub Rat.mul Rat.inv Rat.ofScientific

/-!
# Verification of the smoothvoxels voxel-to-mesh library (smoothvoxels.1.1.0.js)

A shallow embedding of the data model and operations of the smoothvoxels
library, together with proofs about the embedded definitions.

Modelling conventions used throughout:
* JavaScript strings are modelled as `List Char`; only the ASCII range is
  relevant to the library's grammars.
* JavaScript numbers are modelled as exact rationals (`ℚ`); a numeric literal
  of the source is modelled as its decimal value.  Where the special values
  `NaN`, `±Infinity` or `undefined` can flow into a numeric field, a dedicated
  sum type (`JVal`) with JavaScript coercion rules is used instead.
* Thrown exceptions are modelled with `Except SvoxError`.
-/

set_option maxHeartbeats 1000000

namespace Svox

/-- An error object as thrown by the library: `{ name: ..., message: ... }`. -/
structure SvoxError where
  name : String
  message : String
deriving DecidableEq

/-- ASCII lower-casing of one character (`String.prototype.toLowerCase` on the
    character range that occurs in the library's grammars). -/
def lowerChar (c : Char) : Char :=
  if 'A' ≤ c ∧ c ≤ 'Z' then Char.ofNat (c.toNat + 32) else c

/-- JavaScript whitespace (`\s`), restricted to the characters that can occur
    in model strings: space, tab, carriage return and line feed. -/
def isSpaceChar (c : Char) : Bool :=
  c = ' ' || c = '\t' || c = '\n' || c = '\r'

/-- Does `s` start with `pat`?  (Helper for the substring test.) -/
def leadsWith : List Char → List Char → Bool
  | [], _ => true
  | _ :: _, [] => false
  | p :: ps, c :: cs => p = c && leadsWith ps cs

/-- `s.includes(pat)`: does `pat` occur as a contiguous substring of `s`? -/
def containsSub (pat : List Char) : List Char → Bool
  | [] => leadsWith pat []
  | c :: cs => leadsWith pat (c :: cs) || containsSub pat cs

/-- `String.prototype.trim`: strip leading and trailing whitespace. -/
def jsTrim (s : List Char) : List Char :=
  ((s.dropWhile isSpaceChar).reverse.dropWhile isSpaceChar).reverse

/-- Split a string into its maximal whitespace-free words. -/
def splitWordsAux : List Char → List Char → List (List Char)
  | [], acc => if acc.isEmpty then [] else [acc.reverse]
  | c :: cs, acc =>
    if isSpaceChar c then
      if acc.isEmpty then splitWordsAux cs [] else acc.reverse :: splitWordsAux cs []
    else splitWordsAux cs (c :: acc)

/-- The whitespace-separated words of a string. -/
def splitWords (s : List Char) : List (List Char) := splitWordsAux s []

/-! ## Planar (svox/planar.js)

`Planar.parse` / `Planar.toString` / `Planar.combine` over the 9-boolean planar
record `{nx, x, px, ny, y, py, nz, z, pz}`. -/

/-- The planar record produced by `Planar.parse`. -/
structure Planar where
  nx : Bool
  x : Bool
  px : Bool
  ny : Bool
  y : Bool
  py : Bool
  nz : Bool
  z : Bool
  pz : Bool
deriving DecidableEq

/-- The all-false planar record (the result of `Planar.parse('')`). -/
def Planar.none : Planar := ⟨false, false, false, false, false, false, false, false, false⟩

/-- The token alternatives of the planar grammar regex, in source order. -/
def planarTokens : List (List Char) :=
  [ "none".toList, "-x".toList, "x".toList, "+x".toList,
    "-y".toList, "y".toList, "+y".toList, "-z".toList, "z".toList, "+z".toList ]

/-- The planar grammar test.  The source tests the regex
    `^(?!$)(\s+(?:none|-x|x|\+x|-y|y|\+y|-z|z|\+z|\s))+\s*$` against the
    blank-led string.  Every token alternative is whitespace-free, each
    iteration of the group demands leading whitespace before its token, and
    after a token the next character must again be whitespace (or the end), so
    every matched token is exactly one whitespace-delimited word; the `\s`
    alternative only absorbs extra whitespace.  Hence the regex accepts exactly
    the (nonempty, blank-led) strings whose whitespace-separated words all
    belong to the token list, which is what this function tests. -/
def planarGrammarOk (value : List Char) : Bool :=
  (splitWords value).all (fun w => planarTokens.contains w)

/-- `Planar.parse`: prepend a blank, lower-case, test the grammar, then read
    each of the nine flags off the string with `includes`. -/
def Planar.parse (s : String) : Except SvoxError Planar :=
  let value : List Char := ' ' :: (s.toList.map lowerChar)
  if value ≠ [' '] ∧ ¬ planarGrammarOk value then
    .error { name := "SyntaxError",
             message := "Planar expression '" ++ String.mk value ++
               "' is only allowed to be 'none' or contain -x x +x -y y +y -z z +z." }
  else
    .ok { nx := containsSub "-x".toList value,
          x  := containsSub " x".toList value,
          px := containsSub "+x".toList value,
          ny := containsSub "-y".toList value,
          y  := containsSub " y".toList value,
          py := containsSub "+y".toList value,
          nz := containsSub "-z".toList value,
          z  := containsSub " z".toList value,
          pz := containsSub "+z".toList value }

/-- `Planar.toString`: emit the set fields in nx,x,px,ny,y,py,nz,z,pz order,
    each with a leading blank, then trim. -/
def Planar.toString (p : Planar) : List Char :=
  jsTrim ((if p.nx then " -x".toList else []) ++ (if p.x then " x".toList else []) ++
          (if p.px then " +x".toList else []) ++
          (if p.ny then " -y".toList else []) ++ (if p.y then " y".toList else []) ++
          (if p.py then " +y".toList else []) ++
          (if p.nz then " -z".toList else []) ++ (if p.z then " z".toList else []) ++
          (if p.pz then " +z".toList else []))

/-- `Planar.combine` (used by the model's tile setter and face generation). -/
def Planar.combine (planar1 planar2 : Option Planar) (defaultPlanar : Option Planar) :
    Option Planar :=
  match planar1, planar2 with
  | Option.none, Option.none => defaultPlanar
  | Option.none, some p2 => some p2
  | some p1, Option.none => some p1
  | some p1, some p2 =>
      some { nx := p1.nx || p2.nx, x := p1.x || p2.x, px := p1.px || p2.px,
             ny := p1.ny || p2.ny, y := p1.y || p2.y, py := p1.py || p2.py,
             nz := p1.nz || p2.nz, z := p1.z || p2.z, pz := p1.pz || p2.pz }

/-- Round trip for every planar record: serializing any of the 512 records and
    re-parsing recovers the record. -/
theorem planar_toString_parse (a b c d e f g h i : Bool) :
    Planar.parse (String.mk (Planar.toString ⟨a, b, c, d, e, f, g, h, i⟩)) =
      Except.ok ⟨a, b, c, d, e, f, g, h, i⟩ := by
  cases a <;> cases b <;> cases c <;> cases d <;> cases e <;> cases f <;>
    cases g <;> cases h <;> cases i <;> decide

/-- A string with a word outside the planar grammar fails to parse. -/
theorem planar_parse_badword (s : String)
    (h : ∃ w ∈ splitWords (' ' :: s.toList.map lowerChar), ¬ planarTokens.contains w) :
    ∃ e, Planar.parse s = Except.error e ∧ e.name = "SyntaxError" := by
  obtain ⟨w, hw, hbad⟩ := h
  have hgram : ¬ planarGrammarOk (' ' :: s.toList.map lowerChar) := by
    unfold planarGrammarOk
    intro hall
    exact hbad ((List.all_eq_true.mp hall) w hw)
  have hne : (' ' :: s.toList.map lowerChar) ≠ [' '] := by
    intro heq
    rw [heq] at hw
    rw [show splitWords [' '] = [] from rfl] at hw
    exact List.not_mem_nil w hw
  unfold Planar.parse
  rw [if_pos ⟨hne, hgram⟩]
  exact ⟨_, rfl, rfl⟩

/-- **C1 is settled elsewhere; this is C4.**
    C4: for every planar record `p` that `Planar.parse` accepts out of some
    string, `Planar.parse (Planar.toString p)` equals `p` field by field;
    `Planar.parse ''` yields the all-false record; and `Planar.parse` raises a
    SyntaxError-kind error whenever the (lower-cased, blank-led) string contains
    a whitespace-separated token outside the grammar
    `none / -x / x / +x / -y / y / +y / -z / z / +z`. -/
theorem c4_planar_parse_roundtrip :
    (∀ (s : String) (p : Planar), Planar.parse s = Except.ok p →
        Planar.parse (String.mk (Planar.toString p)) = Except.ok p) ∧
    Planar.parse "" = Except.ok Planar.none ∧
    (∀ s : String,
        (∃ w ∈ splitWords (' ' :: s.toList.map lowerChar), ¬ planarTokens.contains w) →
        ∃ e, Planar.parse s = Except.error e ∧ e.name = "SyntaxError") := by
  refine ⟨?_, by decide, planar_parse_badword⟩
  intro s p _
  obtain ⟨a, b, c, d, e, f, g, h, i⟩ := p
  exact planar_toString_parse a b c d e f g h i

/-- Witness for C4 at concrete inputs: the record parsed from `-x y`
    round-trips, and the out-of-grammar string `q` raises a SyntaxError. -/
theorem c4_planar_parse_roundtrip_witness :
    Planar.parse
        (String.mk (Planar.toString ⟨true, false, false, false, true, false, false, false, false⟩)) =
      Except.ok ⟨true, false, false, false, true, false, false, false, false⟩ ∧
    (∃ e, Planar.parse "q" = Except.error e ∧ e.name = "SyntaxError") :=
  ⟨c4_planar_parse_roundtrip.1 "-x y" _ (by decide),
   c4_planar_parse_roundtrip.2.2 "q" ⟨[ 'q' ], by decide, by decide⟩⟩

/-! ## Face visibility (Model._createFace, svox/model.js)

The decision whether a voxel's face toward a given neighbor is generated.
Only the materials of the voxel and of the neighbor enter the decision. -/

/-- The material fields consulted by the face-visibility branch chain of
    `Model._createFace`. -/
structure FaceMaterial where
  opacity : ℚ
  transparentFlag : Bool
  wireframe : Bool
deriving DecidableEq

/-- `BaseMaterial.isTransparent`: the transparent flag is set or opacity < 1. -/
def FaceMaterial.isTransparent (m : FaceMaterial) : Bool :=
  m.transparentFlag || decide (m.opacity < 1)

/-- The branch chain of `Model._createFace` deciding whether a face is
    generated (`true`) or the function returns `null` (`false`).  `vox` is the
    voxel's material (`none` when there is no voxel or no material), `neighbor`
    the neighbor's. -/
def createFaceVisible (vox neighbor : Option FaceMaterial) : Bool :=
  match vox with
  | Option.none => false
  | some v =>
    if v.opacity = 0 then false
    else
      match neighbor with
      | Option.none => true
      | some n =>
        if !n.isTransparent && !n.wireframe then false
        else if !v.isTransparent && !v.wireframe then true
        else if v.isTransparent && !v.wireframe && n.wireframe then true
        else false

/-- The face-visibility rule exactly as the claim states it: a face is skipped
    iff the neighbor exists with an opaque non-wireframe material AND the voxel
    itself is also opaque and non-wireframe; a voxel of opacity 0 generates no
    faces; every other combination generates a face. -/
def claimFaceRule (vox neighbor : Option FaceMaterial) : Bool :=
  match vox with
  | Option.none => false
  | some v =>
    if v.opacity = 0 then false
    else
      match neighbor with
      | Option.none => true
      | some n =>
        !((!n.isTransparent && !n.wireframe) && (!v.isTransparent && !v.wireframe))

/-- Unfolding of `createFaceVisible` on two present materials. -/
theorem createFaceVisible_some_some (v n : FaceMaterial) :
    createFaceVisible (some v) (some n) =
      if v.opacity = 0 then false
      else if !n.isTransparent && !n.wireframe then false
      else if !v.isTransparent && !v.wireframe then true
      else if v.isTransparent && !v.wireframe && n.wireframe then true
      else false := rfl

/-- Unfolding of `createFaceVisible` against an empty neighbor cell. -/
theorem createFaceVisible_some_none (v : FaceMaterial) :
    createFaceVisible (some v) Option.none =
      if v.opacity = 0 then false else true := rfl

/-- A material with opacity 0 is transparent. -/
theorem isTransparent_of_opacity_zero (m : FaceMaterial) (h : m.opacity = 0) :
    m.isTransparent = true := by
  unfold FaceMaterial.isTransparent
  rw [h]
  simp

/-- An opaque (non-transparent) material has nonzero opacity. -/
theorem opacity_ne_zero_of_not_transparent (m : FaceMaterial)
    (h : m.isTransparent = false) : m.opacity ≠ 0 := by
  intro h0
  rw [isTransparent_of_opacity_zero m h0] at h
  exact Bool.true_eq_false.mp h

/-- C3 counterexample: a transparent voxel (transparent flag set, opacity 1)
    next to an opaque non-wireframe neighbor.  The claim's rule generates the
    face (the voxel is not opaque), but `Model._createFace` skips it: the
    opaque-neighbor test fires regardless of the voxel's own transparency. -/
theorem c3_face_rule_counterexample :
    createFaceVisible (some ⟨1, true, false⟩) (some ⟨1, false, false⟩) = false ∧
    claimFaceRule (some ⟨1, true, false⟩) (some ⟨1, false, false⟩) = true := by
  constructor <;> decide

/-- C3 amended: a face of a voxel (with material of nonzero opacity) toward an
    occupied neighbor is skipped iff the neighbor's material is opaque and
    non-wireframe — regardless of the voxel's own transparency — or else, with a
    see-through or wireframe neighbor, the voxel is neither opaque-non-wireframe
    nor transparent-non-wireframe-facing-a-wireframe-neighbor.  Opacity-0 voxels
    generate no faces.  Consequently two adjacent opaque non-wireframe voxels
    generate 0 faces at the shared boundary, and an opaque non-wireframe voxel
    next to an opacity-0 voxel generates exactly 1 face there, owned by the
    opaque voxel. -/
theorem c3_face_rule_amended :
    (∀ v n : FaceMaterial, v.opacity ≠ 0 →
      (createFaceVisible (some v) (some n) = false ↔
        ((!n.isTransparent && !n.wireframe) = true ∨
         ((!v.isTransparent && !v.wireframe) = false ∧
          (v.isTransparent && !v.wireframe && n.wireframe) = false)))) ∧
    (∀ v : FaceMaterial, v.opacity = 0 → ∀ n : Option FaceMaterial,
      createFaceVisible (some v) n = false) ∧
    (∀ v n : FaceMaterial,
      v.isTransparent = false → v.wireframe = false →
      n.isTransparent = false → n.wireframe = false →
      createFaceVisible (some v) (some n) = false ∧
      createFaceVisible (some n) (some v) = false) ∧
    (∀ v z : FaceMaterial,
      v.isTransparent = false → v.wireframe = false → z.opacity = 0 →
      createFaceVisible (some v) (some z) = true ∧
      createFaceVisible (some z) (some v) = false) := by
  refine ⟨?_, ?_, ?_, ?_⟩
  · intro v n hv
    rw [createFaceVisible_some_some, if_neg hv]
    by_cases h1 : (!n.isTransparent && !n.wireframe) = true
    · simp [h1]
    · rw [Bool.not_eq_true] at h1
      by_cases h2 : (!v.isTransparent && !v.wireframe) = true
      · simp [h1, h2]
      · rw [Bool.not_eq_true] at h2
        by_cases h3 : (v.isTransparent && !v.wireframe && n.wireframe) = true
        · simp [h1, h2, h3]
        · rw [Bool.not_eq_true] at h3
          simp [h1, h2, h3]
  · intro v hv n
    cases n with
    | none => rw [createFaceVisible_some_none, if_pos hv]
    | some n => rw [createFaceVisible_some_some, if_pos hv]
  · intro v n hvt hvw hnt hnw
    have hv := opacity_ne_zero_of_not_transparent v hvt
    have hn := opacity_ne_zero_of_not_transparent n hnt
    constructor
    · rw [createFaceVisible_some_some, if_neg hv, hvt, hnt, hvw, hnw]
      rfl
    · rw [createFaceVisible_some_some, if_neg hn, hvt, hnt, hvw, hnw]
      rfl
  · intro v z hvt hvw hz
    have hzt := isTransparent_of_opacity_zero z hz
    have hv := opacity_ne_zero_of_not_transparent v hvt
    constructor
    · rw [createFaceVisible_some_some, if_neg hv, hzt, hvt, hvw]
      rfl
    · rw [createFaceVisible_some_some, if_pos hz]

/-- Witness for the amended C3 at concrete materials: an opaque voxel, an
    opaque neighbor, and an opacity-0 neighbor. -/
theorem c3_face_rule_amended_witness :
    (createFaceVisible (some ⟨1, false, false⟩) (some ⟨1, false, false⟩) = false ↔
      ((!(FaceMaterial.isTransparent ⟨1, false, false⟩) && !false) = true ∨
       ((!(FaceMaterial.isTransparent ⟨1, false, false⟩) && !false) = false ∧
        (FaceMaterial.isTransparent ⟨1, false, false⟩ && !false && false) = false))) ∧
    createFaceVisible (some ⟨0, false, false⟩) (some ⟨1, false, false⟩) = false ∧
    createFaceVisible (some ⟨1, false, false⟩) (some ⟨1, false, false⟩) = false ∧
    createFaceVisible (some ⟨1, false, false⟩) (some ⟨0, false, false⟩) = true := by
  refine ⟨?_, ?_, ?_, ?_⟩
  · exact c3_face_rule_amended.1 ⟨1, false, false⟩ ⟨1, false, false⟩ (by norm_num)
  · exact c3_face_rule_amended.2.1 ⟨0, false, false⟩ rfl (some ⟨1, false, false⟩)
  · exact (c3_face_rule_amended.2.2.1 ⟨1, false, false⟩ ⟨1, false, false⟩
      (by decide) rfl (by decide) rfl).1
  · exact (c3_face_rule_amended.2.2.2 ⟨1, false, false⟩ ⟨0, false, false⟩
      (by decide) rfl rfl).1

/-! ## JavaScript numbers with special values (svox/boundingbox.js)

`BoundingBox` fields can hold `±Infinity` (after `reset`) or `undefined` (in a
newly constructed box, since the class misspells its constructor), so they are
modelled by a sum type with JavaScript coercion rules. -/

/-- A JavaScript numeric field value. -/
inductive JVal where
  | num (q : ℚ)
  | posInf
  | negInf
  | nan
  | undef
deriving DecidableEq

/-- `ToNumber` coercion as applied by arithmetic and `Math.min`/`Math.max`:
    `undefined` becomes `NaN`. -/
def JVal.toNumber : JVal → JVal
  | JVal.undef => JVal.nan
  | v => v

/-- `Math.min(a, b)`. -/
def jmin (a b : JVal) : JVal :=
  match a.toNumber, b.toNumber with
  | JVal.nan, _ => JVal.nan
  | _, JVal.nan => JVal.nan
  | JVal.negInf, _ => JVal.negInf
  | _, JVal.negInf => JVal.negInf
  | JVal.posInf, y => y
  | x, JVal.posInf => x
  | JVal.num p, JVal.num q => JVal.num (min p q)
  | _, _ => JVal.nan

/-- `Math.max(a, b)`. -/
def jmax (a b : JVal) : JVal :=
  match a.toNumber, b.toNumber with
  | JVal.nan, _ => JVal.nan
  | _, JVal.nan => JVal.nan
  | JVal.posInf, _ => JVal.posInf
  | _, JVal.posInf => JVal.posInf
  | JVal.negInf, y => y
  | x, JVal.negInf => x
  | JVal.num p, JVal.num q => JVal.num (max p q)
  | _, _ => JVal.nan

/-- The JavaScript `>` comparison (false whenever either side is `NaN`). -/
def jgt (a b : JVal) : Bool :=
  match a.toNumber, b.toNumber with
  | JVal.nan, _ => false
  | _, JVal.nan => false
  | JVal.undef, _ => false
  | _, JVal.undef => false
  | JVal.posInf, JVal.posInf => false
  | JVal.posInf, _ => true
  | _, JVal.posInf => false
  | JVal.negInf, _ => false
  | JVal.num _, JVal.negInf => true
  | JVal.num p, JVal.num q => decide (q < p)

/-- JavaScript subtraction on field values. -/
def jsub (a b : JVal) : JVal :=
  match a.toNumber, b.toNumber with
  | JVal.nan, _ => JVal.nan
  | _, JVal.nan => JVal.nan
  | JVal.undef, _ => JVal.nan
  | _, JVal.undef => JVal.nan
  | JVal.posInf, JVal.posInf => JVal.nan
  | JVal.posInf, _ => JVal.posInf
  | JVal.negInf, JVal.negInf => JVal.nan
  | JVal.negInf, _ => JVal.negInf
  | JVal.num _, JVal.posInf => JVal.negInf
  | JVal.num _, JVal.negInf => JVal.posInf
  | JVal.num p, JVal.num q => JVal.num (p - q)

/-- JavaScript addition on field values. -/
def jadd (a b : JVal) : JVal :=
  match a.toNumber, b.toNumber with
  | JVal.nan, _ => JVal.nan
  | _, JVal.nan => JVal.nan
  | JVal.undef, _ => JVal.nan
  | _, JVal.undef => JVal.nan
  | JVal.posInf, JVal.negInf => JVal.nan
  | JVal.negInf, JVal.posInf => JVal.nan
  | JVal.posInf, _ => JVal.posInf
  | _, JVal.posInf => JVal.posInf
  | JVal.negInf, _ => JVal.negInf
  | _, JVal.negInf => JVal.negInf
  | JVal.num p, JVal.num q => JVal.num (p + q)

/-! ## BoundingBox (svox/boundingbox.js) -/

/-- The `BoundingBox` accumulator. -/
structure BoundingBox where
  minX : JVal
  minY : JVal
  minZ : JVal
  maxX : JVal
  maxY : JVal
  maxZ : JVal
deriving DecidableEq

/-- `new BoundingBox()`: the source class misspells its constructor as
    `contructor`, so no initializer runs and every field starts `undefined`. -/
def BoundingBox.new : BoundingBox :=
  ⟨JVal.undef, JVal.undef, JVal.undef, JVal.undef, JVal.undef, JVal.undef⟩

/-- `BoundingBox.reset`: minima to `+Infinity`, maxima to `-Infinity`. -/
def BoundingBox.reset (_b : BoundingBox) : BoundingBox :=
  ⟨JVal.posInf, JVal.posInf, JVal.posInf, JVal.negInf, JVal.negInf, JVal.negInf⟩

/-- `BoundingBox.set(x, y, z)`. -/
def BoundingBox.set (b : BoundingBox) (x y z : ℚ) : BoundingBox :=
  { minX := jmin b.minX (JVal.num x), minY := jmin b.minY (JVal.num y),
    minZ := jmin b.minZ (JVal.num z),
    maxX := jmax b.maxX (JVal.num x), maxY := jmax b.maxY (JVal.num y),
    maxZ := jmax b.maxZ (JVal.num z) }

/-- `BoundingBox.size`: `{0,0,0}` when `minX > maxX`, else `max − min + 1` per
    axis. -/
def BoundingBox.size (b : BoundingBox) : JVal × JVal × JVal :=
  if jgt b.minX b.maxX then (JVal.num 0, JVal.num 0, JVal.num 0)
  else (jadd (jsub b.maxX b.minX) (JVal.num 1),
        jadd (jsub b.maxY b.minY) (JVal.num 1),
        jadd (jsub b.maxZ b.minZ) (JVal.num 1))

/-- C8, evaluated at the failing input `new BoundingBox()`: because the class
    misspells `constructor` as `contructor`, a newly constructed box is **not**
    initialized to `±Infinity` — every field is `undefined`, the `min > max`
    sentinel test is false (`undefined` comparisons are false), and `size`
    returns `NaN` on every axis instead of `{0,0,0}`.  After an explicit
    `reset()` (the intended initializer) the box behaves exactly as the claim
    states: minima `+∞`, maxima `−∞`, `size = {0,0,0}` while unset, and
    `max − min + 1` per axis once set. -/
theorem c8_boundingbox_constructor_typo :
    BoundingBox.new.minX = JVal.undef ∧ BoundingBox.new.maxX = JVal.undef ∧
    BoundingBox.new.size = (JVal.nan, JVal.nan, JVal.nan) ∧
    BoundingBox.new.size ≠ (JVal.num 0, JVal.num 0, JVal.num 0) ∧
    (BoundingBox.new.reset).minX = JVal.posInf ∧
    (BoundingBox.new.reset).minY = JVal.posInf ∧
    (BoundingBox.new.reset).minZ = JVal.posInf ∧
    (BoundingBox.new.reset).maxX = JVal.negInf ∧
    (BoundingBox.new.reset).maxY = JVal.negInf ∧
    (BoundingBox.new.reset).maxZ = JVal.negInf ∧
    (BoundingBox.new.reset).size = (JVal.num 0, JVal.num 0, JVal.num 0) ∧
    ((BoundingBox.new.reset).set 2 3 5).size = (JVal.num 1, JVal.num 1, JVal.num 1) ∧
    (((BoundingBox.new.reset).set 2 3 5).set 4 3 5).size =
      (JVal.num 3, JVal.num 1, JVal.num 1) := by
  refine ⟨rfl, rfl, rfl, by decide, rfl, rfl, rfl, rfl, rfl, rfl, rfl, ?_, ?_⟩
  · have h : (BoundingBox.new.reset).set 2 3 5 =
        ⟨JVal.num 2, JVal.num 3, JVal.num 5, JVal.num 2, JVal.num 3, JVal.num 5⟩ := rfl
    rw [h]
    norm_num [BoundingBox.size, jgt, jadd, jsub, JVal.toNumber]
  · have h : ((BoundingBox.new.reset).set 2 3 5).set 4 3 5 =
        ⟨jmin (JVal.num 2) (JVal.num 4), jmin (JVal.num 3) (JVal.num 3),
         jmin (JVal.num 5) (JVal.num 5), jmax (JVal.num 2) (JVal.num 4),
         jmax (JVal.num 3) (JVal.num 3), jmax (JVal.num 5) (JVal.num 5)⟩ := rfl
    rw [h]
    norm_num [BoundingBox.size, jgt, jadd, jsub, jmin, jmax, JVal.toNumber]

/-! ## Voxel / VoxelMatrix at JavaScript array level (svox/voxelmatrix.js)

The voxel store is a triple-nested sparse JavaScript array indexed by
`coordinate + 1000000`.  `clearVoxel` is modelled including its use of
`Array.prototype.splice` at the raw (un-offset) coordinate and its `count`
update. -/

/-- A JavaScript array: a length and a sparse assignment of integer keys to
    elements.  Negative keys behave as plain object properties (they never
    affect `length` and are not moved by `splice`). -/
structure JSArray (α : Type) where
  len : ℤ
  entries : List (ℤ × α)
deriving DecidableEq

/-- The empty array `[]`. -/
def JSArray.empty {α : Type} : JSArray α := ⟨0, []⟩

/-- Property read `a[i]`. -/
def JSArray.get {α : Type} (a : JSArray α) (i : ℤ) : Option α :=
  a.entries.lookup i

/-- Property write `a[i] = v` (array indices update `length`). -/
def JSArray.set {α : Type} (a : JSArray α) (i : ℤ) (v : α) : JSArray α :=
  ⟨if 0 ≤ i then max a.len (i + 1) else a.len,
   (i, v) :: a.entries.filter (fun e => e.1 != i)⟩

/-- `a.splice(start, 1)`: remove one element at `start` (JavaScript start
    normalization), shifting the higher array indices down. -/
def JSArray.splice1 {α : Type} (a : JSArray α) (start : ℤ) : JSArray α :=
  let s : ℤ := if start < 0 then max (a.len + start) 0 else min start a.len
  if s < a.len then
    ⟨a.len - 1,
     a.entries.filterMap (fun e =>
       if e.1 < s then some e
       else if e.1 = s then Option.none
       else if e.1 < a.len then some (e.1 - 1, e.2)
       else some e)⟩
  else a

/-- A voxel's color reference: a `Color` object, or the `NaN` that
    `voxel.color--` leaves behind. -/
inductive JColor where
  | ref (id : ℕ)
  | corrupt
deriving DecidableEq

/-- One voxel as stored in the matrix (the `faces` dictionary is created empty
    and is not touched by the set/get/clear operations modelled here). -/
structure MVoxel where
  color : JColor
  matId : ℕ
  x : ℤ
  y : ℤ
  z : ℤ
  visible : Bool
deriving DecidableEq

/-- The `VoxelMatrix` state: its own bounding box, each material's bounding box
    (keyed by material id, initially `new BoundingBox()`), the triple-nested
    array and the occupied-cell counter. -/
structure VoxelMatrix where
  bounds : BoundingBox
  matBounds : List (ℕ × BoundingBox)
  voxels : JSArray (JSArray (JSArray MVoxel))
  count : ℤ
deriving DecidableEq

/-- `new VoxelMatrix()` (the constructor runs `prepareForWrite`, which resets
    the bounds and count over the empty store). -/
def VoxelMatrix.init : VoxelMatrix :=
  ⟨BoundingBox.new.reset, [], JSArray.empty, 0⟩

/-- Look up a material's bounding box (a fresh material's box is
    `new BoundingBox()`). -/
def VoxelMatrix.matBoundsOf (m : VoxelMatrix) (id : ℕ) : BoundingBox :=
  (m.matBounds.lookup id).getD BoundingBox.new

/-- Store a material's bounding box. -/
def VoxelMatrix.setMatBounds (m : VoxelMatrix) (id : ℕ) (b : BoundingBox) :
    VoxelMatrix :=
  { m with matBounds := (id, b) :: m.matBounds.filter (fun e => e.1 != id) }

/-- `VoxelMatrix.setVoxel(x, y, z, voxel)`. -/
def VoxelMatrix.setVoxel (m : VoxelMatrix) (x y z : ℤ) (voxel : MVoxel) :
    VoxelMatrix :=
  let m1 := { m with bounds := m.bounds.set (x : ℚ) (y : ℚ) (z : ℚ) }
  let m2 := m1.setMatBounds voxel.matId
              ((m1.matBoundsOf voxel.matId).set (x : ℚ) (y : ℚ) (z : ℚ))
  let v := { voxel with x := x, y := y, z := z }
  let my := (m2.voxels.get (z + 1000000)).getD JSArray.empty
  let mx := (my.get (y + 1000000)).getD JSArray.empty
  let cnt := if (mx.get (x + 1000000)).isNone then m2.count + 1 else m2.count
  let mx1 := mx.set (x + 1000000) v
  let my1 := my.set (y + 1000000) mx1
  { m2 with voxels := m2.voxels.set (z + 1000000) my1, count := cnt }

/-- `VoxelMatrix.clearVoxel(x, y, z)`: the found voxel's color is destroyed by
    `voxel.color--`, the counter is **incremented**, and the row is spliced at
    the raw coordinate `x` (not at `x + 1000000`). -/
def VoxelMatrix.clearVoxel (m : VoxelMatrix) (x y z : ℤ) : VoxelMatrix :=
  match m.voxels.get (z + 1000000) with
  | Option.none => m
  | some my =>
    match my.get (y + 1000000) with
    | Option.none => m
    | some mx =>
      match mx.get (x + 1000000) with
      | Option.none => m
      | some voxel =>
        let mx1 := mx.set (x + 1000000) { voxel with color := JColor.corrupt }
        let mx2 := mx1.splice1 x
        let my1 := my.set (y + 1000000) mx2
        { m with voxels := m.voxels.set (z + 1000000) my1, count := m.count + 1 }

/-- `VoxelMatrix.getVoxel(x, y, z)`. -/
def VoxelMatrix.getVoxel (m : VoxelMatrix) (x y z : ℤ) : Option MVoxel :=
  match m.voxels.get (z + 1000000) with
  | Option.none => Option.none
  | some my =>
    match my.get (y + 1000000) with
    | Option.none => Option.none
    | some mx => mx.get (x + 1000000)

/-- The voxel used in the C9 evaluation. -/
def mVoxelA : MVoxel := ⟨JColor.ref 0, 0, 0, 0, 0, true⟩

/-- C9, evaluated at the failing input — one `setVoxel(0,0,0)` followed by
    `clearVoxel(0,0,0)` (and, for the intact parts, a repeated `setVoxel` and
    `getVoxel` probes): `setVoxel` maintains the count and `getVoxel` answers
    at the exact cell, but `clearVoxel` **increments** the count (the source
    does `this._count++`) and splices the row at the raw coordinate instead of
    the offset index, so the stored voxel is not deleted but shifted to cell
    `x − 1` with its color destroyed. -/
theorem c9_clearVoxel_count_and_splice_bug :
    (VoxelMatrix.init.setVoxel 0 0 0 mVoxelA).count = 1 ∧
    ((VoxelMatrix.init.setVoxel 0 0 0 mVoxelA).setVoxel 0 0 0 mVoxelA).count = 1 ∧
    (VoxelMatrix.init.setVoxel 0 0 0 mVoxelA).getVoxel 0 0 0 = some mVoxelA ∧
    (VoxelMatrix.init.setVoxel 0 0 0 mVoxelA).getVoxel 1 0 0 = Option.none ∧
    ((VoxelMatrix.init.setVoxel 0 0 0 mVoxelA).clearVoxel 0 0 0).count = 2 ∧
    ((VoxelMatrix.init.setVoxel 0 0 0 mVoxelA).clearVoxel 0 0 0).getVoxel 0 0 0 =
      Option.none ∧
    ((VoxelMatrix.init.setVoxel 0 0 0 mVoxelA).clearVoxel 0 0 0).getVoxel (-1) 0 0 =
      some { mVoxelA with color := JColor.corrupt } := by
  decide

/-! ## Character classes and JavaScript numeric parsing -/

/-- Decimal digit. -/
def isDigitChar (c : Char) : Bool := '0' ≤ c && c ≤ '9'

/-- Upper-case ASCII letter. -/
def isUpperChar (c : Char) : Bool := 'A' ≤ c && c ≤ 'Z'

/-- Lower-case ASCII letter. -/
def isLowerChar (c : Char) : Bool := 'a' ≤ c && c ≤ 'z'

/-- Hexadecimal digit (`[0-9a-fA-F]`). -/
def isHexDigit (c : Char) : Bool :=
  isDigitChar c || ('A' ≤ c && c ≤ 'F') || ('a' ≤ c && c ≤ 'f')

/-- ASCII upper-casing of one character (`String.prototype.toUpperCase`). -/
def upperChar (c : Char) : Char :=
  if 'a' ≤ c ∧ c ≤ 'z' then Char.ofNat (c.toNat - 32) else c

/-- The value of a decimal digit. -/
def digitVal (c : Char) : ℕ := c.toNat - '0'.toNat

/-- The value of a hexadecimal digit. -/
def hexDigitVal (c : Char) : ℕ :=
  if isDigitChar c then c.toNat - '0'.toNat
  else if 'A' ≤ c && c ≤ 'F' then c.toNat - 'A'.toNat + 10
  else c.toNat - 'a'.toNat + 10

/-- Split off the maximal leading run satisfying `p`. -/
def spanP (p : Char → Bool) : List Char → (List Char × List Char)
  | [] => ([], [])
  | c :: cs =>
    if p c then
      let r := spanP p cs
      (c :: r.1, r.2)
    else ([], c :: cs)

/-- The rest after `spanP` is no longer than the input. -/
theorem spanP_rest_length (p : Char → Bool) (l : List Char) :
    (spanP p l).2.length ≤ l.length := by
  induction l with
  | nil => simp [spanP]
  | cons c cs ih =>
    unfold spanP
    by_cases h : p c = true
    · simp only [h, if_pos]
      exact Nat.le_succ_of_le ih
    · rw [Bool.not_eq_true] at h
      simp [h]

/-- The value of a decimal digit string. -/
def digitsToNat (ds : List Char) : ℕ :=
  ds.foldl (fun a c => 10 * a + digitVal c) 0

/-- The value of a hexadecimal digit string. -/
def hexToNat (ds : List Char) : ℕ :=
  ds.foldl (fun a c => 16 * a + hexDigitVal c) 0

/-- `parseInt(s, 16)`: maximal hexadecimal prefix, `NaN` (here `none`) when the
    first character is not a hex digit. -/
def parseIntHex (s : List Char) : Option ℕ :=
  let t := s.dropWhile isSpaceChar
  let ds := (spanP isHexDigit t).1
  if ds.isEmpty then Option.none else some (hexToNat ds)

/-- `parseInt(s, 10)` restricted to an optional sign and decimal digits. -/
def parseIntJ (s : List Char) : JVal :=
  let t := s.dropWhile isSpaceChar
  match t with
  | '-' :: r =>
    let ds := (spanP isDigitChar r).1
    if ds.isEmpty then JVal.nan else JVal.num (-(digitsToNat ds : ℚ))
  | '+' :: r =>
    let ds := (spanP isDigitChar r).1
    if ds.isEmpty then JVal.nan else JVal.num (digitsToNat ds : ℚ)
  | r =>
    let ds := (spanP isDigitChar r).1
    if ds.isEmpty then JVal.nan else JVal.num (digitsToNat ds : ℚ)

/-- The decimal mantissa part of `parseFloat`: integer digits, an optional dot
    with fraction digits, returning the exact rational value and the rest.
    `none` when no digit is present at all. -/
def parseMantissa (s : List Char) : Option (ℚ × List Char) :=
  let ip := spanP isDigitChar s
  match ip.2 with
  | '.' :: r =>
    let fp := spanP isDigitChar r
    if ip.1.isEmpty ∧ fp.1.isEmpty then Option.none
    else some ((digitsToNat ip.1 : ℚ) +
                 (digitsToNat fp.1 : ℚ) / ((10 : ℚ) ^ fp.1.length), fp.2)
  | r =>
    if ip.1.isEmpty then Option.none
    else some ((digitsToNat ip.1 : ℚ), r)

/-- The optional exponent part of `parseFloat` (`e`/`E`, optional sign,
    digits); when malformed the exponent is not consumed at all. -/
def parseExponent (s : List Char) : ℤ :=
  match s with
  | 'e' :: r | 'E' :: r =>
    match r with
    | '-' :: r2 =>
      let ds := (spanP isDigitChar r2).1
      if ds.isEmpty then 0 else -(digitsToNat ds : ℤ)
    | '+' :: r2 =>
      let ds := (spanP isDigitChar r2).1
      if ds.isEmpty then 0 else (digitsToNat ds : ℤ)
    | r2 =>
      let ds := (spanP isDigitChar r2).1
      if ds.isEmpty then 0 else (digitsToNat ds : ℤ)
  | _ => 0

/-- `parseFloat(s)`: leading whitespace, optional sign, decimal mantissa,
    optional exponent; `NaN` when no number can be read.  JavaScript binary
    floating point is modelled by the exact decimal value. -/
def parseFloatJ (s : List Char) : JVal :=
  let t := s.dropWhile isSpaceChar
  match t with
  | '-' :: r =>
    match parseMantissa r with
    | Option.none => JVal.nan
    | some (m, rest) => JVal.num (-(m * (10 : ℚ) ^ parseExponent rest))
  | '+' :: r =>
    match parseMantissa r with
    | Option.none => JVal.nan
    | some (m, rest) => JVal.num (m * (10 : ℚ) ^ parseExponent rest)
  | r =>
    match parseMantissa r with
    | Option.none => JVal.nan
    | some (m, rest) => JVal.num (m * (10 : ℚ) ^ parseExponent rest)

/-! ## Color (svox/materiallist.js) -/

/-- A `Color` object: stored display hex, float components, serialization id,
    optional external id, and the owning material's index (`_material`,
    `none` until the color is added to a material). -/
structure ColorRec where
  hex : List Char
  r : ℚ
  g : ℚ
  b : ℚ
  id : List Char
  exId : Option ℕ
  matIdx : Option ℕ
deriving DecidableEq

/-- The test of `Color._set`'s regex `^#([0-9a-fA-F]{3}|#?[0-9a-fA-F]{6})$`. -/
def colorHexOk (s : List Char) : Bool :=
  match s with
  | '#' :: rest =>
    (rest.length = 3 && rest.all isHexDigit) ||
    (rest.length = 6 && rest.all isHexDigit) ||
    (match rest with
     | '#' :: r6 => r6.length = 6 && r6.all isHexDigit
     | _ => false)
  | _ => false

/-- Remove the first `'#'` (JavaScript `replace('#', '')`). -/
def removeFirstHash : List Char → List Char
  | [] => []
  | c :: cs => if c = '#' then cs else c :: removeFirstHash cs

/-- One byte of the parsed color value: `(value >> shift) & 255`, with the
    JavaScript convention that bitwise operators turn `NaN` into 0. -/
def hexByte (v : Option ℕ) (shift : ℕ) : ℕ :=
  match v with
  | Option.none => 0
  | some n => (n / 2 ^ shift) % 256

/-- `Color.fromHex` / `Color._set`: trim and upper-case, validate against the
    hex regex, store the display string, expand 3-digit form, then read the
    three components. -/
def ColorRec.fromHex (colorValue : List Char) : Except SvoxError ColorRec :=
  let color0 := (jsTrim colorValue).map upperChar
  if colorHexOk color0 then
    let color1 := removeFirstHash color0
    let stored := '#' :: color1
    let color2 := if color1.length = 3 then
        match color1 with
        | [a, b, c] => [a, a, b, b, c, c]
        | l => l
      else color1
    let value := parseIntHex color2
    Except.ok { hex := stored,
                r := (hexByte value 16 : ℚ) / 255,
                g := (hexByte value 8 : ℚ) / 255,
                b := (hexByte value 0 : ℚ) / 255,
                id := [], exId := Option.none, matIdx := Option.none }
  else
    Except.error { name := "SyntaxError",
                   message := "Color " ++ String.mk colorValue ++
                     " is not a hexadecimal color of the form #000 or #000000." }

/-! ## Materials (svox/materiallist.js), value level

The fields of a `Material` (together with the `BaseMaterial` fields it
delegates to) as they exist after parsing.  `BaseMaterial` deduplication by
`baseId` only shares color lists and mesh grouping; it does not alter any of
the per-material parameters, so materials are modelled as flat records.
Texture-object references are modelled by the texture's id (textures live in
a dictionary keyed by id). -/

/-- A JavaScript string-or-number value (fields such as the emissive intensity
    hold the raw parsed token, which may be a string or a number). -/
inductive JSPrim where
  | str (s : List Char)
  | num (q : ℚ)
deriving DecidableEq

/-- Ambient-occlusion settings `{ color, maxDistance, strength, angle }`. -/
structure AoRec where
  color : ColorRec
  maxDistance : ℚ
  strength : ℚ
  angle : ℚ
deriving DecidableEq

/-- One shell entry `{ colorId, distance }`; the distance is kept as the raw
    token string, exactly as `_parseShell` stores it. -/
structure ShellEntry where
  colorId : List Char
  distance : List Char
deriving DecidableEq

/-- A parsed material: the `BaseMaterial` shading fields plus the
    per-`Material` state. -/
structure MatRec where
  typ : List Char
  lighting : List Char
  roughness : ℚ
  metalness : ℚ
  fade : Bool
  opacity : ℚ
  alphaTest : ℚ
  transparentFlag : Bool
  wireframe : Bool
  side : List Char
  emissive : Option (ColorRec × JSPrim)
  fog : Bool
  mapId : Option (List Char)
  normalMapId : Option (List Char)
  roughnessMapId : Option (List Char)
  metalnessMapId : Option (List Char)
  emissiveMapId : Option (List Char)
  matcapId : Option (List Char)
  uscale : ℚ
  vscale : ℚ
  uoffset : ℚ
  voffset : ℚ
  mapRotation : ℚ
  deform : Option (ℚ × ℚ × ℚ)
  warp : Option (ℚ × ℚ)
  scatter : JVal
  flatten : Planar
  clamp : Planar
  skipP : Planar
  ao : Option AoRec
  lightsFlag : Bool
  shell : Option (List ShellEntry)
  colors : List ColorRec
deriving DecidableEq

/-- The material created by `_createVoxels` for unknown color ids:
    `createMaterial(MATSTANDARD, FLAT, 0.5, 0.0, false, 1.0, false)` — a
    standard flat-lit material (roughness 0.5, all other settings at their
    constructor defaults; the `false` passed for alphaTest is not a number and
    defaults to 0). -/
def errorMaterialRec : MatRec :=
  { typ := "standard".toList, lighting := "flat".toList,
    roughness := 1/2, metalness := 0, fade := false, opacity := 1,
    alphaTest := 0, transparentFlag := false, wireframe := false,
    side := "front".toList, emissive := Option.none, fog := true,
    mapId := Option.none, normalMapId := Option.none,
    roughnessMapId := Option.none, metalnessMapId := Option.none,
    emissiveMapId := Option.none, matcapId := Option.none,
    uscale := -1, vscale := -1, uoffset := 0, voffset := 0, mapRotation := 0,
    deform := Option.none, warp := Option.none, scatter := JVal.undef,
    flatten := Planar.none, clamp := Planar.none, skipP := Planar.none,
    ao := Option.none, lightsFlag := true, shell := Option.none, colors := [] }

/-! ## The voxel matrix at integer-map level

The reader and writer use the matrix only through `setVoxel` / `getVoxel` /
`forEachInBoundary` / `prepareForWrite`, all of which act on integer
coordinates; for them the triple-nested sparse array is equivalent to a finite
map from integer coordinates, with the bounding box and count maintained as in
`setVoxel` (per-material bounding boxes are reset and rebuilt before any use
and are never read by the serializer, so they are not tracked here). -/

/-- An integer bounding box; `Option.none` is the reset (never set) state. -/
structure IBox where
  minX : ℤ
  maxX : ℤ
  minY : ℤ
  maxY : ℤ
  minZ : ℤ
  maxZ : ℤ
deriving DecidableEq

/-- Accumulate a point into a bounding box (`BoundingBox.set` on integer
    points, with `none` playing the role of the `±Infinity` reset state). -/
def IBox.grow (b : Option IBox) (x y z : ℤ) : Option IBox :=
  match b with
  | Option.none => some ⟨x, x, y, y, z, z⟩
  | some bb => some ⟨min bb.minX x, max bb.maxX x, min bb.minY y, max bb.maxY y,
                     min bb.minZ z, max bb.maxZ z⟩

/-- One stored voxel (`new Voxel(color)`; the material reference is the
    color's owning material). -/
structure GVoxel where
  color : ColorRec
deriving DecidableEq

/-- The voxel store at map level. -/
structure VoxelGrid where
  cells : List ((ℤ × ℤ × ℤ) × GVoxel)
  bounds : Option IBox
  count : ℕ
deriving DecidableEq

/-- The empty voxel matrix. -/
def VoxelGrid.empty : VoxelGrid := ⟨[], Option.none, 0⟩

/-- `getVoxel(x, y, z)`. -/
def VoxelGrid.get (g : VoxelGrid) (x y z : ℤ) : Option GVoxel :=
  g.cells.lookup (x, y, z)

/-- `setVoxel(x, y, z, voxel)`: grow the bounds, bump the count when the cell
    was free, store the voxel. -/
def VoxelGrid.set (g : VoxelGrid) (x y z : ℤ) (v : GVoxel) : VoxelGrid :=
  { cells := ((x, y, z), v) :: g.cells.filter (fun e => e.1 != (x, y, z)),
    bounds := IBox.grow g.bounds x y z,
    count := if (g.cells.lookup (x, y, z)).isSome then g.count else g.count + 1 }

/-! ## The recursive RLE voxel codec (ModelReader._createVoxels) -/

/-- One token of the voxel-matrix chunk regex `[0-9]+|[A-Z][a-z]*|-+|[()]`. -/
inductive VTok where
  | numTok (n : ℕ)
  | idTok (s : List Char)
  | dashTok (n : ℕ)
  | openTok
  | closeTok
deriving DecidableEq

/-- `matchAll` of the chunk regex: at each position emit the maximal digit run,
    color id (`[A-Z][a-z]*`), dash run or single paren; every other character
    is skipped.  Each step consumes at least one character, so fuel
    `length + 1` (supplied by `tokenizeVoxels`) never runs out. -/
def tokenizeVoxelsAux : ℕ → List Char → List VTok
  | 0, _ => []
  | _ + 1, [] => []
  | fuel + 1, c :: cs =>
    if isDigitChar c then
      let r := spanP isDigitChar cs
      VTok.numTok (digitsToNat (c :: r.1)) :: tokenizeVoxelsAux fuel r.2
    else if isUpperChar c then
      let r := spanP isLowerChar cs
      VTok.idTok (c :: r.1) :: tokenizeVoxelsAux fuel r.2
    else if c = '-' then
      let r := spanP (fun d => d = '-') cs
      VTok.dashTok (1 + r.1.length) :: tokenizeVoxelsAux fuel r.2
    else if c = '(' then VTok.openTok :: tokenizeVoxelsAux fuel cs
    else if c = ')' then VTok.closeTok :: tokenizeVoxelsAux fuel cs
    else tokenizeVoxelsAux fuel cs

/-- The tokenizer on a whole voxel string. -/
def tokenizeVoxels (l : List Char) : List VTok :=
  tokenizeVoxelsAux (l.length + 1) l

/-- A simple RLE chunk: a color id (or `none` for an empty-cell run) and its
    repeat count. -/
abbrev RleChunk := Option (List Char) × ℕ

/-- `_unpackRle`: convert the recursively run-length-encoded token stream into
    simple RLE chunks.  The recursion of the source on `(`...`)` groups is
    modelled with explicit fuel; each call along any call path consumes fuel 1,
    and the fuel passed in by `unpackRle` is an upper bound on the length of
    any call path, so the fuel-exhausted branch is never taken.  The
    doubled-letter branch of the source (`value[1] === value[0]`) is translated
    as written, although the chunk regex can never produce such an id token. -/
def unpackRleAux : ℕ → List VTok → ℕ → List RleChunk →
    (List RleChunk × List VTok)
  | 0, ts, _, acc => (acc, ts)
  | _ + 1, [], _, acc => (acc, [])
  | f + 1, t :: ts, count, acc =>
    match t with
    | VTok.numTok n => unpackRleAux f ts n acc
    | VTok.openTok =>
        let sub := unpackRleAux f ts 1 []
        unpackRleAux f sub.2 1 (acc ++ (List.range count).flatMap (fun _ => sub.1))
    | VTok.closeTok => (acc, ts)
    | VTok.idTok s =>
        match s with
        | c0 :: c1 :: _ =>
          if isUpperChar c0 && (c1 = c0) then
            if count > 1 then
              unpackRleAux f ts 1 (acc ++ [(some [c0], count), (some [c0], s.length - 1)])
            else
              unpackRleAux f ts 1 (acc ++ [(some [c0], s.length)])
          else
            unpackRleAux f ts 1 (acc ++ [(some s, count)])
        | _ => unpackRleAux f ts 1 (acc ++ [(some s, count)])
    | VTok.dashTok n =>
        if n ≥ 2 then
          if count > 1 then
            unpackRleAux f ts 1 (acc ++ [(Option.none, count), (Option.none, n - 1)])
          else
            unpackRleAux f ts 1 (acc ++ [(Option.none, n)])
        else
          unpackRleAux f ts 1 (acc ++ [(Option.none, count)])

/-- `_unpackRle` on a whole token stream. -/
def unpackRle (ts : List VTok) : List RleChunk :=
  (unpackRleAux (2 * ts.length + 2) ts 1 []).1

/-- The voxel-creation cursor (`context` of `_createVoxels`). -/
structure VCursor where
  minx : ℤ
  miny : ℤ
  minz : ℤ
  maxx : ℤ
  maxy : ℤ
  maxz : ℤ
  x : ℤ
  y : ℤ
  z : ℤ
deriving DecidableEq

/-- One cursor advance of `_setVoxels`: `x++`, wrap to `y++`, wrap to `z++`. -/
def VCursor.advance (ctx : VCursor) : VCursor :=
  let c1 := { ctx with x := ctx.x + 1 }
  let c2 := if c1.x > c1.maxx then { c1 with x := c1.minx, y := c1.y + 1 } else c1
  if c2.y > c2.maxy then { c2 with y := c2.miny, z := c2.z + 1 } else c2

/-- `_setVoxels(model, color, count, context)`: place `count` voxels of the
    given color (none for empty cells) at the cursor, advancing it. -/
def setVoxelsRun : ℕ → Option ColorRec → VCursor → VoxelGrid → (VCursor × VoxelGrid)
  | 0, _, ctx, g => (ctx, g)
  | n + 1, color, ctx, g =>
    let g1 := match color with
      | some c => g.set ctx.x ctx.y ctx.z ⟨c⟩
      | Option.none => g
    setVoxelsRun n color ctx.advance g1

/-- The magenta error color `Color.fromHex('#FF00FF')`. -/
def magentaBase : ColorRec :=
  ((ColorRec.fromHex "#FF00FF".toList).toOption).getD
    ⟨[], 0, 0, 0, [], Option.none, Option.none⟩

/-- The magenta error color created for an unknown color id, owned by the
    error material at index `i`. -/
def magColor (id : List Char) (i : ℕ) : ColorRec :=
  { magentaBase with id := id, matIdx := some i }

/-- `errorMaterial.addColor(color)`: append a magenta color to the error
    material's color list. -/
def addMagToErr (m : MatRec) (mag : ColorRec) : MatRec :=
  { m with colors := m.colors ++ [mag] }

/-- The state produced by `_createVoxels`: the voxel grid plus the (possibly
    extended) color registry and material list. -/
structure CreateVoxelsResult where
  materials : List MatRec
  colors : List (List Char × ColorRec)
  errMatIdx : Option ℕ
  grid : VoxelGrid
deriving DecidableEq

/-- The chunk loop of `_createVoxels`: resolve each chunk's color id (creating
    the error material and a magenta color for unknown ids) and place its
    run. -/
def processChunks : List RleChunk → List MatRec → List (List Char × ColorRec) →
    Option ℕ → VCursor → VoxelGrid → CreateVoxelsResult
  | [], ms, cs, e, _ctx, g => ⟨ms, cs, e, g⟩
  | (cell, cnt) :: rest, ms, cs, e, ctx, g =>
    match cell with
    | Option.none =>
      let r := setVoxelsRun cnt Option.none ctx g
      processChunks rest ms cs e r.1 r.2
    | some id =>
      match cs.lookup id with
      | some c =>
        let r := setVoxelsRun cnt (some c) ctx g
        processChunks rest ms cs e r.1 r.2
      | Option.none =>
        match e with
        | some i =>
          let mag := magColor id i
          let ms1 := match ms.get? i with
            | some m => ms.set i (addMagToErr m mag)
            | Option.none => ms
          let r := setVoxelsRun cnt (some mag) ctx g
          processChunks rest ms1 ((id, mag) :: cs) (some i) r.1 r.2
        | Option.none =>
          let i := ms.length
          let mag := magColor id i
          let ms1 := ms ++ [{ errorMaterialRec with colors := [mag] }]
          let r := setVoxelsRun cnt (some mag) ctx g
          processChunks rest ms1 ((id, mag) :: cs) (some i) r.1 r.2

/-- `ModelReader._createVoxels`: tokenize and unpack the RLE voxel string,
    check the decoded count against `size.x*size.y*size.z`, then create all
    voxels in running order. -/
def createVoxels (materials : List MatRec) (colors : List (List Char × ColorRec))
    (sizeX sizeY sizeZ : ℤ) (voxels : List Char) :
    Except SvoxError CreateVoxelsResult :=
  let rle := unpackRle (tokenizeVoxels voxels)
  let totalSize := sizeX * sizeY * sizeZ
  let voxelLength : ℤ := (rle.map (fun c => (c.2 : ℤ))).sum
  if voxelLength ≠ totalSize then
    Except.error
      { name := "SyntaxError",
        message := "The specified size is " ++ toString sizeX ++ " x " ++
          toString sizeY ++ " x " ++ toString sizeZ ++ " (= " ++ toString totalSize ++
          " voxels) but the voxel matrix contains " ++ toString voxelLength ++ " voxels." }
  else
    Except.ok (processChunks rle materials colors Option.none
      ⟨0, 0, 0, sizeX - 1, sizeY - 1, sizeZ - 1, 0, 0, 0⟩ VoxelGrid.empty)

/-- The flat cell list denoted by a simple RLE chunk list. -/
def rleFlatten (rle : List RleChunk) : List (Option (List Char)) :=
  rle.flatMap (fun c => List.replicate c.2 c.1)

/-! ### The running order of `_setVoxels`

Cell `j` (counting from 0) of the flattened RLE stream lands at coordinates
`(j % sx, (j / sx) % sy, j / sx / sy)`: x runs fastest, then y, then z. -/

/-- The grid coordinates of flat cell index `j`. -/
def coordsOf (sx sy : ℤ) (j : ℕ) : ℤ × ℤ × ℤ :=
  ((j : ℤ) % sx, ((j : ℤ) / sx) % sy, (j : ℤ) / sx / sy)

/-- The flat cell index of in-range grid coordinates. -/
def cellIndex? (sx sy : ℤ) (x y z : ℤ) : Option ℕ :=
  if 0 ≤ x ∧ x < sx ∧ 0 ≤ y ∧ y < sy ∧ 0 ≤ z then some (x + sx * (y + sy * z)).toNat
  else Option.none

/-- The cursor of `_createVoxels` after `k` cells have been consumed. -/
def cursorOfIdx (sx sy sz : ℤ) (k : ℕ) : VCursor :=
  ⟨0, 0, 0, sx - 1, sy - 1, sz - 1,
   (k : ℤ) % sx, ((k : ℤ) / sx) % sy, (k : ℤ) / sx / sy⟩

/-- Stepping past a full row: quotient and remainder of `b + 1`. -/
theorem int_div_mod_step_eq (s b : ℤ) (hs : 0 < s) (h : b % s = s - 1) :
    (b + 1) % s = 0 ∧ (b + 1) / s = b / s + 1 := by
  have key : b + 1 = s * (b / s + 1) := by
    have h1 := Int.ediv_add_emod b s
    have : b + 1 = s * (b / s) + s := by omega
    linarith [mul_add s (b / s) 1, mul_one s]
  constructor
  · rw [key]
    exact Int.mul_emod_right s _
  · rw [key]
    exact Int.mul_ediv_cancel_left _ (by omega)

/-- Stepping inside a row: quotient and remainder of `b + 1`. -/
theorem int_div_mod_step_lt (s b : ℤ) (hs : 0 < s) (h : b % s ≠ s - 1) :
    (b + 1) % s = b % s + 1 ∧ (b + 1) / s = b / s := by
  have f1 : 0 ≤ b % s := Int.emod_nonneg _ (by omega)
  have f2 : b % s < s := Int.emod_lt_of_pos _ hs
  have key : b + 1 = (b % s + 1) + s * (b / s) := by
    have h1 := Int.ediv_add_emod b s
    omega
  have hlt : b % s + 1 < s := by omega
  constructor
  · rw [key, Int.add_mul_emod_self_left]
    exact Int.emod_eq_of_lt (by omega) hlt
  · rw [key, Int.add_mul_ediv_left _ _ (show s ≠ 0 by omega)]
    rw [Int.ediv_eq_zero_of_lt (by omega) hlt]
    ring

/-- Reconstruction of an index from its remainder/quotient decomposition. -/
theorem mod_div_reconstruct (s t a : ℤ) :
    a % s + s * (a / s % t + t * (a / s / t)) = a := by
  have h2 : a / s % t + t * (a / s / t) = a / s := by
    have := Int.ediv_add_emod (a / s) t
    linarith
  rw [h2]
  have := Int.ediv_add_emod a s
  linarith

/-- Advancing the cursor realizes the successor index. -/
theorem advance_cursorOfIdx (sx sy sz : ℤ) (hx : 0 < sx) (hy : 0 < sy) (k : ℕ) :
    (cursorOfIdx sx sy sz k).advance = cursorOfIdx sx sy sz (k + 1) := by
  have f1 : 0 ≤ (k : ℤ) % sx := Int.emod_nonneg _ (by omega)
  have f2 : (k : ℤ) % sx < sx := Int.emod_lt_of_pos _ hx
  have g1 : 0 ≤ ((k : ℤ) / sx) % sy := Int.emod_nonneg _ (by omega)
  have g2 : ((k : ℤ) / sx) % sy < sy := Int.emod_lt_of_pos _ hy
  by_cases hA : (k : ℤ) % sx = sx - 1
  · obtain ⟨ea, eb⟩ := int_div_mod_step_eq sx (k : ℤ) hx hA
    by_cases hB : ((k : ℤ) / sx) % sy = sy - 1
    · obtain ⟨fa, fb⟩ := int_div_mod_step_eq sy ((k : ℤ) / sx) hy hB
      unfold VCursor.advance cursorOfIdx
      dsimp only
      have hc1 : (k : ℤ) % sx + 1 > sx - 1 := by omega
      rw [if_pos hc1]
      dsimp only
      have hc2 : ((k : ℤ) / sx) % sy + 1 > sy - 1 := by omega
      rw [if_pos hc2]
      push_cast
      rw [ea, eb, fa, fb]
    · obtain ⟨fa, fb⟩ := int_div_mod_step_lt sy ((k : ℤ) / sx) hy hB
      unfold VCursor.advance cursorOfIdx
      dsimp only
      have hc1 : (k : ℤ) % sx + 1 > sx - 1 := by omega
      rw [if_pos hc1]
      dsimp only
      have hc2 : ¬(((k : ℤ) / sx) % sy + 1 > sy - 1) := by omega
      rw [if_neg hc2]
      push_cast
      rw [ea, eb, fa, fb]
  · obtain ⟨ea, eb⟩ := int_div_mod_step_lt sx (k : ℤ) hx hA
    unfold VCursor.advance cursorOfIdx
    dsimp only
    have hc1 : ¬((k : ℤ) % sx + 1 > sx - 1) := by omega
    rw [if_neg hc1]
    dsimp only
    have hc2 : ¬(((k : ℤ) / sx) % sy > sy - 1) := by omega
    rw [if_neg hc2]
    push_cast
    rw [ea, eb]

/-- `cellIndex?` inverts `coordsOf`. -/
theorem cellIndex?_coordsOf (sx sy : ℤ) (hx : 0 < sx) (hy : 0 < sy) (j : ℕ) :
    cellIndex? sx sy (coordsOf sx sy j).1 (coordsOf sx sy j).2.1 (coordsOf sx sy j).2.2 =
      some j := by
  have f1 : 0 ≤ (j : ℤ) % sx := Int.emod_nonneg _ (by omega)
  have f2 : (j : ℤ) % sx < sx := Int.emod_lt_of_pos _ hx
  have g1 : 0 ≤ ((j : ℤ) / sx) % sy := Int.emod_nonneg _ (by omega)
  have g2 : ((j : ℤ) / sx) % sy < sy := Int.emod_lt_of_pos _ hy
  have hz : 0 ≤ (j : ℤ) / sx / sy :=
    Int.ediv_nonneg (Int.ediv_nonneg (Int.ofNat_nonneg j) (by omega)) (by omega)
  unfold cellIndex? coordsOf
  dsimp only
  rw [if_pos ⟨f1, f2, g1, g2, hz⟩]
  congr 1
  have hrec := mod_div_reconstruct sx sy (j : ℤ)
  omega

/-- `cellIndex? = some j` determines the coordinates as `coordsOf j`. -/
theorem cellIndex?_eq_some (sx sy : ℤ) (hx : 0 < sx) (hy : 0 < sy)
    (x y z : ℤ) (j : ℕ) (h : cellIndex? sx sy x y z = some j) :
    x = (coordsOf sx sy j).1 ∧ y = (coordsOf sx sy j).2.1 ∧ z = (coordsOf sx sy j).2.2 := by
  unfold cellIndex? at h
  by_cases hin : 0 ≤ x ∧ x < sx ∧ 0 ≤ y ∧ y < sy ∧ 0 ≤ z
  · rw [if_pos hin] at h
    obtain ⟨hx0, hx1, hy0, hy1, hz0⟩ := hin
    have hnn : 0 ≤ x + sx * (y + sy * z) := by
      have hyz : 0 ≤ y + sy * z := by positivity
      positivity
    have hj : (j : ℤ) = x + sx * (y + sy * z) := by
      have := Option.some.inj h
      omega
    have hmod : (x + sx * (y + sy * z)) % sx = x := by
      rw [Int.add_mul_emod_self_left]
      exact Int.emod_eq_of_lt hx0 hx1
    have hdiv : (x + sx * (y + sy * z)) / sx = y + sy * z := by
      rw [Int.add_mul_ediv_left _ _ (show sx ≠ 0 by omega),
          Int.ediv_eq_zero_of_lt hx0 hx1]
      ring
    have hmod2 : (y + sy * z) % sy = y := by
      rw [Int.add_mul_emod_self_left]
      exact Int.emod_eq_of_lt hy0 hy1
    have hdiv2 : (y + sy * z) / sy = z := by
      rw [Int.add_mul_ediv_left _ _ (show sy ≠ 0 by omega),
          Int.ediv_eq_zero_of_lt hy0 hy1]
      ring
    unfold coordsOf
    rw [hj, hmod, hdiv, hmod2, hdiv2]
    exact ⟨rfl, rfl, rfl⟩
  · rw [if_neg hin] at h
    exact absurd h (by simp)

/-- Filtering out another key does not change a lookup. -/
theorem lookup_filter_ne {α β : Type} [BEq α] [LawfulBEq α] (l : List (α × β)) (a b : α)
    (hne : b ≠ a) : (l.filter (fun e => e.1 != a)).lookup b = l.lookup b := by
  induction l with
  | nil => rfl
  | cons e t ih =>
    by_cases he : e.1 = a
    · have hf : (e.1 != a) = false := by simp [he]
      have hb : (b == e.1) = false := by
        rw [he]
        simp [hne]
      rw [List.filter_cons, hf]
      simp only [Bool.false_eq_true, if_false, List.lookup, hb, ih]
    · have hf : (e.1 != a) = true := by simp [he]
      rw [List.filter_cons, hf]
      simp only [if_true, List.lookup, ih]

/-- `getVoxel` after `setVoxel`. -/
theorem VoxelGrid.get_set (g : VoxelGrid) (x y z : ℤ) (v : GVoxel) (X Y Z : ℤ) :
    (g.set x y z v).get X Y Z =
      if (X, Y, Z) = (x, y, z) then some v else g.get X Y Z := by
  unfold VoxelGrid.get VoxelGrid.set
  dsimp only
  by_cases h : (X, Y, Z) = (x, y, z)
  · rw [if_pos h]
    have hb : ((X, Y, Z) == (x, y, z)) = true := by simp [h]
    simp only [List.lookup, hb]
  · rw [if_neg h]
    have hb : ((X, Y, Z) == (x, y, z)) = false := by simp [h]
    simp only [List.lookup, hb]
    exact lookup_filter_ne g.cells (x, y, z) (X, Y, Z) h

/-- The cursor after a `_setVoxels` run. -/
theorem setVoxelsRun_fst (sx sy sz : ℤ) (hx : 0 < sx) (hy : 0 < sy)
    (n : ℕ) (color : Option ColorRec) :
    ∀ (k : ℕ) (g : VoxelGrid),
      (setVoxelsRun n color (cursorOfIdx sx sy sz k) g).1 =
        cursorOfIdx sx sy sz (k + n) := by
  induction n with
  | zero => intro k g; rfl
  | succ n ih =>
    intro k g
    unfold setVoxelsRun
    dsimp only
    rw [advance_cursorOfIdx sx sy sz hx hy k, ih (k + 1)]
    congr 1
    omega

/-- A `_setVoxels` run with a null color writes nothing. -/
theorem setVoxelsRun_none_grid (n : ℕ) :
    ∀ (ctx : VCursor) (g : VoxelGrid),
      (setVoxelsRun n Option.none ctx g).2 = g := by
  induction n with
  | zero => intro ctx g; rfl
  | succ n ih => intro ctx g; exact ih ctx.advance g

/-- A `_setVoxels` run with a color fills exactly the index window
    `[k, k + n)` in running order. -/
theorem setVoxelsRun_some_get (sx sy sz : ℤ) (hx : 0 < sx) (hy : 0 < sy)
    (n : ℕ) (c : ColorRec) :
    ∀ (k : ℕ) (g : VoxelGrid) (X Y Z : ℤ),
      ((setVoxelsRun n (some c) (cursorOfIdx sx sy sz k) g).2).get X Y Z =
        match cellIndex? sx sy X Y Z with
        | some j => if k ≤ j ∧ j < k + n then some ⟨c⟩ else g.get X Y Z
        | Option.none => g.get X Y Z := by
  induction n with
  | zero =>
    intro k g X Y Z
    cases h : cellIndex? sx sy X Y Z with
    | none => rfl
    | some j =>
      dsimp only [setVoxelsRun]
      rw [if_neg (by omega)]
  | succ n ih =>
    intro k g X Y Z
    unfold setVoxelsRun
    dsimp only [cursorOfIdx]
    rw [show (⟨0, 0, 0, sx - 1, sy - 1, sz - 1, (k : ℤ) % sx, (k : ℤ) / sx % sy,
        (k : ℤ) / sx / sy⟩ : VCursor).advance = cursorOfIdx sx sy sz (k + 1) from
      advance_cursorOfIdx sx sy sz hx hy k]
    rw [ih (k + 1)]
    have hget := VoxelGrid.get_set g ((k : ℤ) % sx) ((k : ℤ) / sx % sy)
      ((k : ℤ) / sx / sy) ⟨c⟩ X Y Z
    cases h : cellIndex? sx sy X Y Z with
    | none =>
      dsimp only
      rw [hget, if_neg ?hne]
      case hne =>
        intro heq
        simp only [Prod.mk.injEq] at heq
        obtain ⟨h1, h2, h3⟩ := heq
        have hck := cellIndex?_coordsOf sx sy hx hy k
        unfold coordsOf at hck
        dsimp only at hck
        rw [h1, h2, h3, hck] at h
        exact Option.noConfusion h
    | some j =>
      dsimp only
      by_cases hw : k + 1 ≤ j ∧ j < k + 1 + n
      · rw [if_pos hw, if_pos (by omega)]
      · rw [if_neg hw]
        by_cases hk : j = k
        · obtain ⟨e1, e2, e3⟩ := cellIndex?_eq_some sx sy hx hy X Y Z j h
          rw [hget, if_pos (by rw [e1, e2, e3, hk]; rfl), if_pos (by omega)]
        · rw [hget, if_neg ?hne2, if_neg (by omega)]
          case hne2 =>
            intro heq
            simp only [Prod.mk.injEq] at heq
            obtain ⟨h1, h2, h3⟩ := heq
            have hck := cellIndex?_coordsOf sx sy hx hy k
            unfold coordsOf at hck
            dsimp only at hck
            rw [h1, h2, h3, hck] at h
            exact hk (Option.some.inj h).symm

/-! ### Specification of `_createVoxels` as a whole -/

/-- The color a decoded cell resolves to, relative to the color registry the
    reader built (`errI` is the index the error material gets when needed). -/
def resolveSpec (cs0 : List (List Char × ColorRec)) (errI : ℕ) :
    Option (List Char) → Option ColorRec
  | Option.none => Option.none
  | some id =>
    match cs0.lookup id with
    | some c => some c
    | Option.none => some (magColor id errI)

/-- The voxel grid contents after placing the first `P.length` decoded cells. -/
def gridSpec (cs0 : List (List Char × ColorRec)) (errI : ℕ) (sx sy : ℤ)
    (P : List (Option (List Char))) (x y z : ℤ) : Option GVoxel :=
  match cellIndex? sx sy x y z with
  | some j =>
    if j < P.length then (resolveSpec cs0 errI (P.getD j Option.none)).map
      (fun c => (⟨c⟩ : GVoxel))
    else Option.none
  | Option.none => Option.none

/-- The unknown color ids of an RLE chunk list, in first-encounter order,
    appended to the ids already encountered. -/
def collectMags (cs0 : List (List Char × ColorRec)) :
    List RleChunk → List (List Char) → List (List Char)
  | [], mags => mags
  | (cell, _) :: rest, mags =>
    match cell with
    | some id =>
      if (cs0.lookup id).isNone && !(mags.contains id) then
        collectMags cs0 rest (mags ++ [id])
      else collectMags cs0 rest mags
    | Option.none => collectMags cs0 rest mags

/-- The color registry after creating magenta colors for the ids in `mags`
    (newest first, as the reader prepends). -/
def envOfMags (cs0 : List (List Char × ColorRec)) (errI : ℕ)
    (mags : List (List Char)) : List (List Char × ColorRec) :=
  (mags.reverse.map (fun id => (id, magColor id errI))) ++ cs0

/-- The material list after creating the error material (when any unknown id
    was seen), holding one magenta color per unknown id. -/
def msOfMags (ms0 : List MatRec) (errI : ℕ) (mags : List (List Char)) :
    List MatRec :=
  if mags.isEmpty then ms0
  else ms0 ++ [{ errorMaterialRec with colors := mags.map (fun id => magColor id errI) }]

/-- The reader's `errorMaterial` variable: set once an unknown id was seen. -/
def eOfMags (ms0 : List MatRec) (mags : List (List Char)) : Option ℕ :=
  if mags.isEmpty then Option.none else some ms0.length

/-- Setting the element just past a list replaces a singleton append. -/
theorem set_length_append {α : Type} (l : List α) (a b : α) :
    (l ++ [a]).set l.length b = l ++ [b] := by
  induction l with
  | nil => rfl
  | cons x t ih =>
    show x :: (t ++ [a]).set t.length b = x :: (t ++ [b])
    rw [ih]

/-- `contains` agrees with membership. -/
theorem contains_eq_decide_mem {α : Type} [BEq α] [LawfulBEq α] (l : List α) (a : α) :
    l.contains a = decide (a ∈ l) := by
  cases h : l.contains a with
  | false =>
    have hm : ¬ a ∈ l := by
      intro hm
      rw [show l.contains a = List.elem a l from rfl, List.elem_iff.mpr hm] at h
      exact Bool.noConfusion h
    simp [hm]
  | true =>
    have hm : a ∈ l := List.elem_iff.mp h
    simp [hm]

/-- Lookup in a registry extended with self-keyed magenta entries. -/
theorem lookup_keyed (cs0 : List (List Char × ColorRec)) (errI : ℕ)
    (ml : List (List Char)) (id : List Char) :
    List.lookup id ((ml.map (fun i => (i, magColor i errI))) ++ cs0) =
      if ml.contains id then some (magColor id errI) else cs0.lookup id := by
  induction ml with
  | nil => simp
  | cons a t ih =>
    simp only [List.map_cons, List.cons_append, List.lookup]
    by_cases hb : id = a
    · have h1 : (id == a) = true := by simp [hb]
      have h2 : (a :: t).contains id = true := by
        rw [List.contains_cons, h1]
        rfl
      rw [h1, h2]
      dsimp only
      rw [hb, if_pos rfl]
    · have h1 : (id == a) = false := by simp [hb]
      have h2 : (a :: t).contains id = t.contains id := by
        rw [List.contains_cons, h1]
        rfl
      rw [h1, h2]
      exact ih

/-- Lookup in the extended registry. -/
theorem envOfMags_lookup (cs0 : List (List Char × ColorRec)) (errI : ℕ)
    (mags : List (List Char)) (id : List Char) :
    (envOfMags cs0 errI mags).lookup id =
      if mags.contains id then some (magColor id errI) else cs0.lookup id := by
  unfold envOfMags
  rw [lookup_keyed]
  have : mags.reverse.contains id = mags.contains id := by
    rw [contains_eq_decide_mem, contains_eq_decide_mem]
    simp [List.mem_reverse]
  rw [this]

/-- Appending one decoded run to the grid specification. -/
theorem gridSpec_append_run (cs0 : List (List Char × ColorRec)) (errI : ℕ)
    (sx sy : ℤ) (P : List (Option (List Char))) (cell : Option (List Char))
    (cnt : ℕ) (X Y Z : ℤ) :
    gridSpec cs0 errI sx sy (P ++ List.replicate cnt cell) X Y Z =
      match cellIndex? sx sy X Y Z with
      | some j =>
        if P.length ≤ j ∧ j < P.length + cnt
        then (resolveSpec cs0 errI cell).map (fun c => (⟨c⟩ : GVoxel))
        else gridSpec cs0 errI sx sy P X Y Z
      | Option.none => Option.none := by
  unfold gridSpec
  cases h : cellIndex? sx sy X Y Z with
  | none => rfl
  | some j =>
    dsimp only
    by_cases hw : P.length ≤ j ∧ j < P.length + cnt
    · rw [if_pos hw]
      rw [if_pos (by simp only [List.length_append, List.length_replicate]; omega)]
      have hget : (P ++ List.replicate cnt cell).getD j Option.none = cell := by
        rw [List.getD_eq_getElem?_getD, List.getElem?_append_right (by omega)]
        rw [List.getElem?_replicate]
        rw [if_pos (by omega)]
        rfl
      rw [hget]
    · rw [if_neg hw]
      by_cases hlt : j < P.length
      · rw [if_pos (by simp only [List.length_append, List.length_replicate]; omega),
            if_pos hlt]
        have hget : (P ++ List.replicate cnt cell).getD j Option.none =
            P.getD j Option.none := by
          rw [List.getD_eq_getElem?_getD, List.getD_eq_getElem?_getD,
              List.getElem?_append_left hlt]
        rw [hget]
      · rw [if_neg (by simp only [List.length_append, List.length_replicate]; omega),
            if_neg hlt]

/-- A skipped (empty-cell) run leaves the grid matching the extended spec. -/
theorem gridSpec_extend_none (cs0 : List (List Char × ColorRec)) (errI : ℕ)
    (sx sy : ℤ) (P : List (Option (List Char))) (cnt : ℕ) (g : VoxelGrid)
    (hgrid : ∀ X Y Z : ℤ, g.get X Y Z = gridSpec cs0 errI sx sy P X Y Z) :
    ∀ X Y Z : ℤ, g.get X Y Z =
      gridSpec cs0 errI sx sy (P ++ List.replicate cnt Option.none) X Y Z := by
  intro X Y Z
  rw [hgrid X Y Z, gridSpec_append_run]
  unfold gridSpec
  cases h : cellIndex? sx sy X Y Z with
  | none => rfl
  | some j =>
    dsimp only
    by_cases hw : P.length ≤ j ∧ j < P.length + cnt
    · rw [if_pos hw, if_neg (show ¬ j < P.length by omega)]
      rfl
    · rw [if_neg hw]

/-- A placed run leaves the grid matching the extended spec, provided the
    placed color is the one the cell id resolves to. -/
theorem gridSpec_extend_some (cs0 : List (List Char × ColorRec)) (errI : ℕ)
    (sx sy sz : ℤ) (hx : 0 < sx) (hy : 0 < sy)
    (P : List (Option (List Char))) (id : List Char) (c : ColorRec) (cnt : ℕ)
    (g : VoxelGrid)
    (hres : resolveSpec cs0 errI (some id) = some c)
    (hgrid : ∀ X Y Z : ℤ, g.get X Y Z = gridSpec cs0 errI sx sy P X Y Z) :
    ∀ X Y Z : ℤ,
      ((setVoxelsRun cnt (some c) (cursorOfIdx sx sy sz P.length) g).2).get X Y Z =
        gridSpec cs0 errI sx sy (P ++ List.replicate cnt (some id)) X Y Z := by
  intro X Y Z
  rw [setVoxelsRun_some_get sx sy sz hx hy cnt c P.length g X Y Z, gridSpec_append_run]
  cases h : cellIndex? sx sy X Y Z with
  | none =>
    dsimp only
    rw [hgrid X Y Z]
    unfold gridSpec
    rw [h]
  | some j =>
    dsimp only
    by_cases hw : P.length ≤ j ∧ j < P.length + cnt
    · rw [if_pos hw, if_pos hw, hres]
      rfl
    · rw [if_neg hw, if_neg hw]
      exact hgrid X Y Z

/-- The full characterization of the chunk loop of `_createVoxels`: starting
    from a state reached after placing the cells of `P` (with the unknown ids
    in `mags` already registered), processing `rle` yields the state described
    by `collectMags` and the extended grid spec. -/
theorem processChunks_spec (sx sy sz : ℤ) (hx : 0 < sx) (hy : 0 < sy)
    (ms0 : List MatRec) (cs0 : List (List Char × ColorRec)) :
    ∀ (rle : List RleChunk) (mags : List (List Char))
      (P : List (Option (List Char))) (g : VoxelGrid),
      (∀ id ∈ mags, cs0.lookup id = Option.none) →
      (∀ X Y Z : ℤ, g.get X Y Z = gridSpec cs0 ms0.length sx sy P X Y Z) →
      (processChunks rle (msOfMags ms0 ms0.length mags)
          (envOfMags cs0 ms0.length mags) (eOfMags ms0 mags)
          (cursorOfIdx sx sy sz P.length) g).materials =
        msOfMags ms0 ms0.length (collectMags cs0 rle mags) ∧
      (processChunks rle (msOfMags ms0 ms0.length mags)
          (envOfMags cs0 ms0.length mags) (eOfMags ms0 mags)
          (cursorOfIdx sx sy sz P.length) g).colors =
        envOfMags cs0 ms0.length (collectMags cs0 rle mags) ∧
      (processChunks rle (msOfMags ms0 ms0.length mags)
          (envOfMags cs0 ms0.length mags) (eOfMags ms0 mags)
          (cursorOfIdx sx sy sz P.length) g).errMatIdx =
        eOfMags ms0 (collectMags cs0 rle mags) ∧
      ∀ X Y Z : ℤ,
        (processChunks rle (msOfMags ms0 ms0.length mags)
            (envOfMags cs0 ms0.length mags) (eOfMags ms0 mags)
            (cursorOfIdx sx sy sz P.length) g).grid.get X Y Z =
          gridSpec cs0 ms0.length sx sy (P ++ rleFlatten rle) X Y Z := by
  intro rle
  induction rle with
  | nil =>
    intro mags P g hmags hgrid
    refine ⟨rfl, rfl, rfl, ?_⟩
    intro X Y Z
    rw [show P ++ rleFlatten [] = P by simp [rleFlatten]]
    exact hgrid X Y Z
  | cons chunk rest ih =>
    obtain ⟨cell, cnt⟩ := chunk
    intro mags P g hmags hgrid
    have hflat : rleFlatten ((cell, cnt) :: rest) =
        List.replicate cnt cell ++ rleFlatten rest := by
      simp [rleFlatten]
    cases cell with
    | none =>
      have hrw : processChunks ((Option.none, cnt) :: rest)
          (msOfMags ms0 ms0.length mags) (envOfMags cs0 ms0.length mags)
          (eOfMags ms0 mags) (cursorOfIdx sx sy sz P.length) g =
          processChunks rest (msOfMags ms0 ms0.length mags)
            (envOfMags cs0 ms0.length mags) (eOfMags ms0 mags)
            (cursorOfIdx sx sy sz (P ++ List.replicate cnt Option.none).length) g := by
        conv_lhs => unfold processChunks
        dsimp only
        rw [setVoxelsRun_fst sx sy sz hx hy cnt Option.none P.length g,
            setVoxelsRun_none_grid cnt (cursorOfIdx sx sy sz P.length) g]
        rw [show (P ++ List.replicate cnt (Option.none : Option (List Char))).length =
          P.length + cnt by simp]
      have hcol : collectMags cs0 ((Option.none, cnt) :: rest) mags =
          collectMags cs0 rest mags := rfl
      have hgrid2 := gridSpec_extend_none cs0 ms0.length sx sy P cnt g hgrid
      have hmain := ih mags (P ++ List.replicate cnt Option.none) g hmags hgrid2
      rw [hrw, hcol, hflat, ← List.append_assoc]
      exact hmain
    | some id =>
      have hlook := envOfMags_lookup cs0 ms0.length mags id
      by_cases hct : mags.contains id = true
      · -- earlier-registered magenta id: resolves to its magenta color
        have hmem : cs0.lookup id = Option.none :=
          hmags id (List.elem_iff.mp hct)
        have hres : resolveSpec cs0 ms0.length (some id) =
            some (magColor id ms0.length) := by
          unfold resolveSpec
          dsimp only
          rw [hmem]
        have hrw : processChunks ((some id, cnt) :: rest)
            (msOfMags ms0 ms0.length mags) (envOfMags cs0 ms0.length mags)
            (eOfMags ms0 mags) (cursorOfIdx sx sy sz P.length) g =
            processChunks rest (msOfMags ms0 ms0.length mags)
              (envOfMags cs0 ms0.length mags) (eOfMags ms0 mags)
              (cursorOfIdx sx sy sz (P ++ List.replicate cnt (some id)).length)
              (setVoxelsRun cnt (some (magColor id ms0.length))
                (cursorOfIdx sx sy sz P.length) g).2 := by
          conv_lhs => unfold processChunks
          dsimp only
          rw [hlook, if_pos hct]
          dsimp only
          rw [setVoxelsRun_fst sx sy sz hx hy cnt _ P.length g]
          rw [show (P ++ List.replicate cnt (some id)).length = P.length + cnt by simp]
        have hcol : collectMags cs0 ((some id, cnt) :: rest) mags =
            collectMags cs0 rest mags := by
          have hc : ((cs0.lookup id).isNone && !mags.contains id) = false := by
            rw [hct]
            simp
          conv_lhs => unfold collectMags
          dsimp only
          rw [hc, if_neg Bool.false_ne_true]
        have hgrid2 := gridSpec_extend_some cs0 ms0.length sx sy sz hx hy P id
          (magColor id ms0.length) cnt g hres hgrid
        have hmain := ih mags (P ++ List.replicate cnt (some id)) _ hmags hgrid2
        rw [hrw, hcol, hflat, ← List.append_assoc]
        exact hmain
      · rw [Bool.not_eq_true] at hct
        cases hcs : cs0.lookup id with
        | some c =>
          -- a registered color
          have hres : resolveSpec cs0 ms0.length (some id) = some c := by
            unfold resolveSpec
            dsimp only
            rw [hcs]
          have hrw : processChunks ((some id, cnt) :: rest)
              (msOfMags ms0 ms0.length mags) (envOfMags cs0 ms0.length mags)
              (eOfMags ms0 mags) (cursorOfIdx sx sy sz P.length) g =
              processChunks rest (msOfMags ms0 ms0.length mags)
                (envOfMags cs0 ms0.length mags) (eOfMags ms0 mags)
                (cursorOfIdx sx sy sz (P ++ List.replicate cnt (some id)).length)
                (setVoxelsRun cnt (some c) (cursorOfIdx sx sy sz P.length) g).2 := by
            conv_lhs => unfold processChunks
            dsimp only
            rw [hlook, if_neg (by rw [hct]; exact Bool.false_ne_true), hcs]
            dsimp only
            rw [setVoxelsRun_fst sx sy sz hx hy cnt _ P.length g]
            rw [show (P ++ List.replicate cnt (some id)).length = P.length + cnt by simp]
          have hcol : collectMags cs0 ((some id, cnt) :: rest) mags =
              collectMags cs0 rest mags := by
            have hc : ((cs0.lookup id).isNone && !mags.contains id) = false := by
              rw [hcs]
              rfl
            conv_lhs => unfold collectMags
            dsimp only
            rw [hc, if_neg Bool.false_ne_true]
          have hgrid2 := gridSpec_extend_some cs0 ms0.length sx sy sz hx hy P id
            c cnt g hres hgrid
          have hmain := ih mags (P ++ List.replicate cnt (some id)) _ hmags hgrid2
          rw [hrw, hcol, hflat, ← List.append_assoc]
          exact hmain
        | none =>
          -- an unknown id: the magenta color (and, first time, the error
          -- material) is created
          have hres : resolveSpec cs0 ms0.length (some id) =
              some (magColor id ms0.length) := by
            unfold resolveSpec
            dsimp only
            rw [hcs]
          have hmags2 : ∀ i ∈ mags ++ [id], cs0.lookup i = Option.none := by
            intro i hi
            rcases List.mem_append.mp hi with h1 | h2
            · exact hmags i h1
            · rw [List.mem_singleton.mp h2]
              exact hcs
          have hcol : collectMags cs0 ((some id, cnt) :: rest) mags =
              collectMags cs0 rest (mags ++ [id]) := by
            have hc : ((cs0.lookup id).isNone && !mags.contains id) = true := by
              rw [hcs, hct]
              rfl
            conv_lhs => unfold collectMags
            dsimp only
            rw [hc, if_pos rfl]
          have henv2 : ((id, magColor id ms0.length) :: envOfMags cs0 ms0.length mags) =
              envOfMags cs0 ms0.length (mags ++ [id]) := by
            unfold envOfMags
            rw [List.reverse_append]
            simp
          have hgrid2 := gridSpec_extend_some cs0 ms0.length sx sy sz hx hy P id
            (magColor id ms0.length) cnt g hres hgrid
          have hmain := ih (mags ++ [id]) (P ++ List.replicate cnt (some id)) _
            hmags2 hgrid2
          cases hemp : mags.isEmpty with
          | true =>
            have hmagsnil : mags = [] := List.isEmpty_iff.mp hemp
            have hrw : processChunks ((some id, cnt) :: rest)
                (msOfMags ms0 ms0.length mags) (envOfMags cs0 ms0.length mags)
                (eOfMags ms0 mags) (cursorOfIdx sx sy sz P.length) g =
                processChunks rest (msOfMags ms0 ms0.length (mags ++ [id]))
                  (envOfMags cs0 ms0.length (mags ++ [id]))
                  (eOfMags ms0 (mags ++ [id]))
                  (cursorOfIdx sx sy sz (P ++ List.replicate cnt (some id)).length)
                  (setVoxelsRun cnt (some (magColor id ms0.length))
                    (cursorOfIdx sx sy sz P.length) g).2 := by
              subst hmagsnil
              rw [show msOfMags ms0 ms0.length ([] : List (List Char)) = ms0 from rfl,
                  show envOfMags cs0 ms0.length ([] : List (List Char)) = cs0 from rfl,
                  show eOfMags ms0 ([] : List (List Char)) = Option.none from rfl,
                  List.nil_append]
              conv_lhs => unfold processChunks
              dsimp only
              rw [hcs]
              dsimp only
              rw [setVoxelsRun_fst sx sy sz hx hy cnt _ P.length g]
              rw [show (P ++ List.replicate cnt (some id)).length = P.length + cnt by simp]
              rfl
            rw [hrw, hcol, hflat, ← List.append_assoc]
            exact hmain
          | false =>
            have hmagsne : ¬ mags.isEmpty = true := by rw [hemp]; exact Bool.false_ne_true
            have hms : msOfMags ms0 ms0.length mags =
                ms0 ++ [{ errorMaterialRec with
                  colors := mags.map (fun i => magColor i ms0.length) }] := by
              unfold msOfMags
              rw [if_neg hmagsne]
            have he : eOfMags ms0 mags = some ms0.length := by
              unfold eOfMags
              rw [if_neg hmagsne]
            have hget : (msOfMags ms0 ms0.length mags).get? ms0.length =
                some { errorMaterialRec with
                  colors := mags.map (fun i => magColor i ms0.length) } := by
              rw [hms]
              rw [List.get?_eq_getElem?]
              exact List.getElem?_concat_length _ _
            have hset : (msOfMags ms0 ms0.length mags).set ms0.length
                (addMagToErr { errorMaterialRec with
                    colors := List.map (fun i => magColor i ms0.length) mags }
                  (magColor id ms0.length)) =
                msOfMags ms0 ms0.length (mags ++ [id]) := by
              rw [hms, set_length_append]
              unfold addMagToErr msOfMags
              rw [if_neg (by simp)]
              dsimp only
              rw [List.map_append]
              rfl
            have hrw : processChunks ((some id, cnt) :: rest)
                (msOfMags ms0 ms0.length mags) (envOfMags cs0 ms0.length mags)
                (eOfMags ms0 mags) (cursorOfIdx sx sy sz P.length) g =
                processChunks rest (msOfMags ms0 ms0.length (mags ++ [id]))
                  (envOfMags cs0 ms0.length (mags ++ [id]))
                  (eOfMags ms0 (mags ++ [id]))
                  (cursorOfIdx sx sy sz (P ++ List.replicate cnt (some id)).length)
                  (setVoxelsRun cnt (some (magColor id ms0.length))
                    (cursorOfIdx sx sy sz P.length) g).2 := by
              conv_lhs => unfold processChunks
              dsimp only
              rw [hlook, if_neg (by rw [hct]; exact Bool.false_ne_true), hcs, he]
              dsimp only
              rw [hget]
              dsimp only
              rw [hset, henv2]
              rw [setVoxelsRun_fst sx sy sz hx hy cnt _ P.length g]
              have hl : (P ++ List.replicate cnt (some id)).length = P.length + cnt := by
                simp [List.length_append, List.length_replicate]
              rw [hl]
              have he2 : eOfMags ms0 (mags ++ [id]) = some ms0.length := by
                unfold eOfMags
                rw [if_neg (by simp)]
              rw [he2]
            rw [hrw, hcol, hflat, ← List.append_assoc]
            exact hmain

/-! ### `_createVoxels` end to end -/

/-- The length of the flattened cell list is the summed run length. -/
theorem rleFlatten_length (rle : List RleChunk) :
    ((rleFlatten rle).length : ℤ) = (rle.map (fun c => (c.2 : ℤ))).sum := by
  induction rle with
  | nil => rfl
  | cons c rest ih =>
    unfold rleFlatten at ih ⊢
    rw [List.flatMap_cons]
    simp only [List.length_append, List.length_replicate, List.map_cons, List.sum_cons]
    push_cast
    omega

/-- The empty grid matches the empty-prefix grid specification. -/
theorem empty_gridSpec (cs0 : List (List Char × ColorRec)) (errI : ℕ) (sx sy : ℤ) :
    ∀ X Y Z : ℤ, VoxelGrid.empty.get X Y Z = gridSpec cs0 errI sx sy [] X Y Z := by
  intro X Y Z
  unfold gridSpec
  cases h : cellIndex? sx sy X Y Z with
  | none => rfl
  | some j =>
    dsimp only
    rw [if_neg (by simp)]
    rfl

/-- The initial cursor of `_createVoxels`. -/
theorem cursorOfIdx_zero (sx sy sz : ℤ) :
    cursorOfIdx sx sy sz 0 = ⟨0, 0, 0, sx - 1, sy - 1, sz - 1, 0, 0, 0⟩ := by
  unfold cursorOfIdx
  simp

/-- `getD` returning a value implies the index is in range. -/
theorem getD_some_lt {α : Type} (l : List (Option α)) (j : ℕ) (a : α)
    (h : l.getD j Option.none = some a) : j < l.length := by
  by_contra hc
  rw [List.getD_eq_getElem?_getD, List.getElem?_eq_none (by omega)] at h
  simp at h

/-- Unknown-id collection only collects ids absent from the registry. -/
theorem collectMags_unknown (cs0 : List (List Char × ColorRec)) :
    ∀ (rle : List RleChunk) (mags0 : List (List Char)),
      (∀ id ∈ mags0, cs0.lookup id = Option.none) →
      ∀ id ∈ collectMags cs0 rle mags0, cs0.lookup id = Option.none := by
  intro rle
  induction rle with
  | nil =>
    intro mags0 h id hm
    exact h id hm
  | cons c rest ih =>
    intro mags0 h id hm
    obtain ⟨cell, cnt⟩ := c
    cases cell with
    | none =>
      exact ih mags0 h id hm
    | some cid =>
      by_cases hc : ((cs0.lookup cid).isNone && !(mags0.contains cid)) = true
      · rw [show collectMags cs0 ((some cid, cnt) :: rest) mags0 =
            collectMags cs0 rest (mags0 ++ [cid]) from by
              conv_lhs => unfold collectMags
              dsimp only
              rw [if_pos hc]] at hm
        refine ih (mags0 ++ [cid]) ?_ id hm
        intro i hi
        rcases List.mem_append.mp hi with h1 | h2
        · exact h i h1
        · rw [List.mem_singleton.mp h2]
          have hc1 := (Bool.and_eq_true _ _).mp hc
          exact Option.isNone_iff_eq_none.mp hc1.1
      · rw [show collectMags cs0 ((some cid, cnt) :: rest) mags0 =
            collectMags cs0 rest mags0 from by
              conv_lhs => unfold collectMags
              dsimp only
              rw [if_neg hc]] at hm
        exact ih mags0 h id hm

/-- `_createVoxels` on a count-matching stream succeeds, and the result is
    fully described by `collectMags` and `gridSpec`. -/
theorem createVoxels_ok (ms0 : List MatRec) (cs0 : List (List Char × ColorRec))
    (sx sy sz : ℤ) (hx : 0 < sx) (hy : 0 < sy) (voxels : List Char)
    (hsum : ((unpackRle (tokenizeVoxels voxels)).map (fun c => (c.2 : ℤ))).sum
      = sx * sy * sz) :
    ∃ out, createVoxels ms0 cs0 sx sy sz voxels = Except.ok out ∧
      out.materials = msOfMags ms0 ms0.length
        (collectMags cs0 (unpackRle (tokenizeVoxels voxels)) []) ∧
      out.colors = envOfMags cs0 ms0.length
        (collectMags cs0 (unpackRle (tokenizeVoxels voxels)) []) ∧
      out.errMatIdx = eOfMags ms0
        (collectMags cs0 (unpackRle (tokenizeVoxels voxels)) []) ∧
      ∀ X Y Z : ℤ, out.grid.get X Y Z =
        gridSpec cs0 ms0.length sx sy
          (rleFlatten (unpackRle (tokenizeVoxels voxels))) X Y Z := by
  have hmain := processChunks_spec sx sy sz hx hy ms0 cs0
    (unpackRle (tokenizeVoxels voxels)) [] [] VoxelGrid.empty
    (fun id h => absurd h (List.not_mem_nil id))
    (empty_gridSpec cs0 ms0.length sx sy)
  rw [show msOfMags ms0 ms0.length [] = ms0 from rfl,
      show envOfMags cs0 ms0.length [] = cs0 from rfl,
      show eOfMags ms0 [] = Option.none from rfl,
      show (([] : List (Option (List Char))).length) = 0 from rfl,
      cursorOfIdx_zero sx sy sz,
      show ([] : List (Option (List Char))) ++
        rleFlatten (unpackRle (tokenizeVoxels voxels)) =
        rleFlatten (unpackRle (tokenizeVoxels voxels)) from List.nil_append _] at hmain
  refine ⟨processChunks (unpackRle (tokenizeVoxels voxels)) ms0 cs0 Option.none
      ⟨0, 0, 0, sx - 1, sy - 1, sz - 1, 0, 0, 0⟩ VoxelGrid.empty,
    ?_, hmain.1, hmain.2.1, hmain.2.2.1, hmain.2.2.2⟩
  unfold createVoxels
  dsimp only
  rw [if_neg (not_not_intro hsum)]

/-- C2: a decoded voxel count differing from `size.x*size.y*size.z` always
    fails with a SyntaxError carrying the descriptive size message (no grid is
    produced); when the counts match, parsing succeeds, the flattened stream
    has exactly `size.x*size.y*size.z` cells, and cell `j` of that stream lands
    at `(j % sx, (j / sx) % sy, j / sx / sy)` — x-then-y-then-z running order —
    as captured by `gridSpec`. -/
theorem c2_rle_count_checked (ms0 : List MatRec) (cs0 : List (List Char × ColorRec))
    (sx sy sz : ℤ) (voxels : List Char) (hx : 0 < sx) (hy : 0 < sy) :
    (((unpackRle (tokenizeVoxels voxels)).map (fun c => (c.2 : ℤ))).sum ≠ sx * sy * sz →
      createVoxels ms0 cs0 sx sy sz voxels = Except.error
        { name := "SyntaxError",
          message := "The specified size is " ++ toString sx ++ " x " ++
            toString sy ++ " x " ++ toString sz ++ " (= " ++
            toString (sx * sy * sz) ++ " voxels) but the voxel matrix contains " ++
            toString ((unpackRle (tokenizeVoxels voxels)).map (fun c => (c.2 : ℤ))).sum ++
            " voxels." }) ∧
    (((unpackRle (tokenizeVoxels voxels)).map (fun c => (c.2 : ℤ))).sum = sx * sy * sz →
      ∃ out, createVoxels ms0 cs0 sx sy sz voxels = Except.ok out ∧
        ((rleFlatten (unpackRle (tokenizeVoxels voxels))).length : ℤ) = sx * sy * sz ∧
        ∀ X Y Z : ℤ, out.grid.get X Y Z =
          gridSpec cs0 ms0.length sx sy
            (rleFlatten (unpackRle (tokenizeVoxels voxels))) X Y Z) := by
  constructor
  · intro hne
    unfold createVoxels
    dsimp only
    rw [if_pos hne]
  · intro hsum
    obtain ⟨out, hok, _, _, _, hgrid⟩ := createVoxels_ok ms0 cs0 sx sy sz hx hy voxels hsum
    exact ⟨out, hok, by rw [rleFlatten_length]; exact hsum, hgrid⟩

theorem c2_rle_count_checked_witness :
    createVoxels [] [] 2 1 1 "A".toList = Except.error
      { name := "SyntaxError",
        message := "The specified size is " ++ toString (2 : ℤ) ++ " x " ++
          toString (1 : ℤ) ++ " x " ++ toString (1 : ℤ) ++ " (= " ++
          toString ((2 : ℤ) * 1 * 1) ++ " voxels) but the voxel matrix contains " ++
          toString ((unpackRle (tokenizeVoxels "A".toList)).map (fun c => (c.2 : ℤ))).sum ++
          " voxels." } :=
  (c2_rle_count_checked [] [] 2 1 1 "A".toList (by decide) (by decide)).1 (by decide)

/-- C10: when the counts match, an unknown color id never makes parsing fail:
    the reader completes with `ok`, every unknown id gets a magenta color
    (`#FF00FF`, hex preserved) registered under that id, a single standard
    flat-lit error material owning those colors is appended to the material
    list, and every grid cell whose decoded id is unknown holds that magenta
    color. -/
theorem c10_unknown_id_magenta (ms0 : List MatRec) (cs0 : List (List Char × ColorRec))
    (sx sy sz : ℤ) (voxels : List Char) (hx : 0 < sx) (hy : 0 < sy)
    (hsum : ((unpackRle (tokenizeVoxels voxels)).map (fun c => (c.2 : ℤ))).sum
      = sx * sy * sz) :
    ∃ out, createVoxels ms0 cs0 sx sy sz voxels = Except.ok out ∧
      (∀ id ∈ collectMags cs0 (unpackRle (tokenizeVoxels voxels)) [],
        cs0.lookup id = Option.none ∧
        out.colors.lookup id = some (magColor id ms0.length)) ∧
      (collectMags cs0 (unpackRle (tokenizeVoxels voxels)) [] ≠ [] →
        out.materials = ms0 ++ [{ errorMaterialRec with
          colors := (collectMags cs0 (unpackRle (tokenizeVoxels voxels)) []).map
            (fun i => magColor i ms0.length) }] ∧
        out.errMatIdx = some ms0.length) ∧
      errorMaterialRec.typ = "standard".toList ∧
      errorMaterialRec.lighting = "flat".toList ∧
      magentaBase.hex = "#FF00FF".toList ∧
      ∀ X Y Z : ℤ, ∀ j : ℕ, ∀ id : List Char,
        cellIndex? sx sy X Y Z = some j →
        (rleFlatten (unpackRle (tokenizeVoxels voxels))).getD j Option.none = some id →
        cs0.lookup id = Option.none →
        out.grid.get X Y Z = some ⟨magColor id ms0.length⟩ := by
  obtain ⟨out, hok, hms, hcs, he, hgrid⟩ :=
    createVoxels_ok ms0 cs0 sx sy sz hx hy voxels hsum
  have hunk : ∀ id ∈ collectMags cs0 (unpackRle (tokenizeVoxels voxels)) [],
      cs0.lookup id = Option.none :=
    collectMags_unknown cs0 (unpackRle (tokenizeVoxels voxels)) []
      (fun id h => absurd h (List.not_mem_nil id))
  refine ⟨out, hok, ?_, ?_, rfl, rfl, rfl, ?_⟩
  · intro id hid
    refine ⟨hunk id hid, ?_⟩
    rw [hcs, envOfMags_lookup]
    rw [show (collectMags cs0 (unpackRle (tokenizeVoxels voxels)) []).contains id =
        true from by rw [contains_eq_decide_mem]; simp [hid]]
    rw [if_pos rfl]
  · intro hne
    have hne' : ¬ (collectMags cs0 (unpackRle (tokenizeVoxels voxels)) []).isEmpty
        = true := by
      rw [List.isEmpty_iff]
      exact hne
    constructor
    · rw [hms]
      unfold msOfMags
      rw [if_neg hne']
    · rw [he]
      unfold eOfMags
      rw [if_neg hne']
  · intro X Y Z j id hcell hgetd hlookup
    have hj : j < (rleFlatten (unpackRle (tokenizeVoxels voxels))).length :=
      getD_some_lt _ j id hgetd
    rw [hgrid X Y Z]
    unfold gridSpec
    rw [hcell]
    dsimp only
    rw [if_pos hj, hgetd]
    unfold resolveSpec
    dsimp only
    rw [hlookup]
    rfl

theorem c10_unknown_id_magenta_witness :
    ∃ out, createVoxels [] [] 1 1 1 "A".toList = Except.ok out ∧
      out.grid.get 0 0 0 = some ⟨magColor "A".toList 0⟩ ∧
      out.materials = [] ++ [{ errorMaterialRec with
        colors := (collectMags [] (unpackRle (tokenizeVoxels "A".toList)) []).map
          (fun i => magColor i 0) }] ∧
      out.colors.lookup "A".toList = some (magColor "A".toList 0) ∧
      out.errMatIdx = some 0 := by
  obtain ⟨out, hok, hids, hmat, _, _, _, hgrid⟩ :=
    c10_unknown_id_magenta [] [] 1 1 1 "A".toList (by decide) (by decide) (by decide)
  exact ⟨out, hok, hgrid 0 0 0 0 "A".toList (by decide) (by decide) rfl,
    (hmat (by decide)).1, (hids "A".toList (by decide)).2, (hmat (by decide)).2⟩

/-! ## The iterative relaxation deformer (Material.setDeform, Deformer.deform) -/

/-- A material's stored `_deform` record. -/
structure DeformSetting where
  count : ℚ
  strength : ℚ
  damping : ℚ
deriving DecidableEq

/-- `Material.setDeform(count, strength, damping)`: `null`/`undefined` default
    to 1 (count clamped at 0); the record is stored only when
    `count > 0 && strength !== 0`. -/
def Material.setDeform (count strength damping : Option ℚ) : Option DeformSetting :=
  let c := max (count.getD 1) 0
  let s := strength.getD 1
  let d := damping.getD 1
  if 0 < c ∧ s ≠ 0 then some ⟨c, s, d⟩ else Option.none

/-- `Deformer.maximumDeformCount(model)`: the running `Math.max` of the deform
    counts of all materials that have a deform. -/
def maximumDeformCount (mats : List (Option DeformSetting)) : ℚ :=
  mats.foldl (fun acc od => match od with
    | some d => max acc d.count
    | Option.none => acc) 0

/-- A vertex as the deformer sees it: position, per-vertex deform record,
    links (indices of the connected vertices in the vertex arena), the
    flatten/clamp locks, and the staged `newPos`. -/
structure DVertex where
  x : ℚ
  y : ℚ
  z : ℚ
  deform : Option DeformSetting
  links : List ℕ
  flattenX : Bool
  clampX : Bool
  flattenY : Bool
  clampY : Bool
  flattenZ : Bool
  clampZ : Bool
  newPosX : ℚ
  newPosY : ℚ
  newPosZ : ℚ
  newPosSet : Bool
deriving DecidableEq, Inhabited

/-- The loop body of one deform step for one vertex: average the linked
    vertices (read from the pre-step arena), stage `newPos` when the damped
    strength is nonzero. -/
def vertexStage (arena : List DVertex) (step : ℕ) (v : DVertex) : DVertex :=
  match v.deform with
  | Option.none => v
  | some d =>
    if (step : ℚ) < d.count then
      if 0 < v.links.length then
        let lx := (v.links.map (fun l => (arena.getD l default).x)).sum
        let ly := (v.links.map (fun l => (arena.getD l default).y)).sum
        let lz := (v.links.map (fun l => (arena.getD l default).z)).sum
        let ox := lx / (v.links.length : ℚ) - v.x
        let oy := ly / (v.links.length : ℚ) - v.y
        let oz := lz / (v.links.length : ℚ) - v.z
        let strength := d.damping ^ step * d.strength
        if strength ≠ 0 then
          { v with newPosX := v.x + ox * strength, newPosY := v.y + oy * strength,
                   newPosZ := v.z + oz * strength, newPosSet := true }
        else v
      else v
    else v

/-- `Deformer._repositionChangedVertices(model)` (the clamping branch, as the
    deformer calls it): vertices whose `newPos` is staged move there unless
    flattened or clamped on that axis; the staged flag is cleared. -/
def repositionChanged (arena : List DVertex) : List DVertex :=
  arena.map (fun v =>
    if v.newPosSet then
      { v with
        x := if v.flattenX || v.clampX then v.x else v.newPosX,
        y := if v.flattenY || v.clampY then v.y else v.newPosY,
        z := if v.flattenZ || v.clampZ then v.z else v.newPosZ,
        newPosSet := false }
    else v)

/-- The `for (let step = 0; step < maximumDeformCount; step++)` loop, with the
    iteration count supplied as fuel (`⌈maxC⌉` iterations run the loop dry). -/
def deformSteps : ℕ → ℕ → ℚ → List DVertex → List DVertex
  | 0, _, _, arena => arena
  | fuel + 1, step, maxC, arena =>
    if (step : ℚ) < maxC then
      deformSteps fuel (step + 1) maxC (repositionChanged (arena.map (vertexStage arena step)))
    else arena

/-- `Deformer.deform(model, maximumDeformCount)`. -/
def Deformer.deform (arena : List DVertex) (maxC : ℚ) : List DVertex :=
  deformSteps (⌈maxC⌉.toNat) 0 maxC arena

/-- An all-`none` deform list contributes no deform count. -/
theorem maximumDeformCount_none :
    ∀ (l : List (Option DeformSetting)), (∀ x ∈ l, x = Option.none) →
      maximumDeformCount l = 0 := by
  intro l
  induction l with
  | nil => intro _; rfl
  | cons a t ih =>
    intro h
    have ha : a = Option.none := h a (List.mem_cons_self a t)
    have ht := ih (fun x hx => h x (List.mem_cons_of_mem a hx))
    unfold maximumDeformCount at ht ⊢
    rw [List.foldl_cons, ha]
    exact ht

/-- C5: when every material's deform was set with count 0 or strength 0,
    `setDeform` stores no deform record at all, `maximumDeformCount` is 0, and
    the deform stage returns the vertex arena unchanged — every vertex position
    is identical to its pre-deform position. -/
theorem c5_degenerate_deform_identity
    (args : List (Option ℚ × Option ℚ × Option ℚ))
    (hdeg : ∀ t ∈ args, t.1 = some 0 ∨ t.2.1 = some 0) :
    (∀ t ∈ args, Material.setDeform t.1 t.2.1 t.2.2 = Option.none) ∧
    maximumDeformCount (args.map (fun t => Material.setDeform t.1 t.2.1 t.2.2)) = 0 ∧
    ∀ arena : List DVertex,
      Deformer.deform arena
        (maximumDeformCount (args.map (fun t => Material.setDeform t.1 t.2.1 t.2.2)))
        = arena := by
  have h1 : ∀ t ∈ args, Material.setDeform t.1 t.2.1 t.2.2 = Option.none := by
    intro t ht
    rcases hdeg t ht with h | h
    · unfold Material.setDeform
      dsimp only
      rw [h]
      rw [if_neg (by simp)]
    · unfold Material.setDeform
      dsimp only
      rw [h]
      rw [if_neg (by simp)]
  have h2 : maximumDeformCount (args.map (fun t => Material.setDeform t.1 t.2.1 t.2.2))
      = 0 := by
    refine maximumDeformCount_none _ ?_
    intro x hx
    obtain ⟨t, ht, hxt⟩ := List.mem_map.mp hx
    rw [← hxt]
    exact h1 t ht
  refine ⟨h1, h2, ?_⟩
  intro arena
  rw [h2]
  unfold Deformer.deform
  rw [show (⌈(0 : ℚ)⌉.toNat) = 0 by simp]
  rfl

theorem c5_degenerate_deform_identity_witness :
    Material.setDeform (some 0) (some 5) (some 2) = Option.none ∧
    Deformer.deform
      [⟨1, 2, 3, Option.none, [], false, false, false, false, false, false, 0, 0, 0, false⟩]
      (maximumDeformCount
        ([(some 0, some 5, some 2), (some 3, some 0, some 1)].map
          (fun t => Material.setDeform t.1 t.2.1 t.2.2)))
      = [⟨1, 2, 3, Option.none, [], false, false, false, false, false, false, 0, 0, 0, false⟩]
    := by
  have H := c5_degenerate_deform_identity
    [(some 0, some 5, some 2), (some 3, some 0, some 1)] (by decide)
  exact ⟨H.1 (some 0, some 5, some 2) (by decide), H.2.2 _⟩

/-! ## The ambient-occlusion pass (AOCalculator.calculateAmbientOcclusion)

The pass is embedded with its real-number primitives abstracted: `cosDeg`
stands for `Math.cos(angle / 180 * Math.PI)`, `powF` for `Math.pow`, and
`dist` for `AOCalculator._distanceToOctree` over the prebuilt octree
(returning `none` when the ray hits nothing, as the source returns
`undefined`).  Faces carry the `ao` quadruple that `Model._createFace`
initializes to `[0, 0, 0, 0]`. -/

/-- An `ao` settings record (`{maxDistance, strength, angle}`). -/
structure AOSettings where
  maxDistance : ℚ
  strength : ℚ
  angle : ℚ
deriving DecidableEq

/-- A 3-component vector. -/
abbrev Vec3 := ℚ × ℚ × ℚ

/-- A face as the AO pass sees it. -/
structure AFace where
  skipped : Bool
  vertices : List Vec3
  normals : List Vec3
  ao : ℚ × ℚ × ℚ × ℚ
deriving DecidableEq

/-- A (visible) voxel as the AO pass sees it: its material's `ao` record (if
    any), the material opacity, and its faces. -/
structure AVoxel where
  matAo : Option AOSettings
  opacity : ℚ
  faces : List AFace
deriving DecidableEq, Inhabited

/-- The AO cache, keyed by the vertex and normal (the source keys the cache by
    the string `x|y|z|nx|ny|nz` of those six numbers). -/
abbrev AOCache := List ((Vec3 × Vec3) × ℚ)

/-- `voxel.material.ao || model.ao`. -/
def effectiveAo (modelAo : Option AOSettings) (v : AVoxel) : Option AOSettings :=
  match v.matAo with
  | some a => some a
  | Option.none => modelAo

/-- The sample loop of one corner: total relative ray distance and hit count
    over the samples within the cone (`dot > angle`); `distance || max`
    replaces a missing or zero distance by `max`. -/
def sampleLoop (samples : List Vec3) (dist : Vec3 → Vec3 → ℚ → Option ℚ)
    (normal : Vec3) (angle : ℚ) (origin : Vec3) (maxd : ℚ) : ℚ × ℕ :=
  samples.foldl (fun tc s =>
    let dot := s.1 * normal.1 + s.2.1 * normal.2.1 + s.2.2 * normal.2.2
    if dot ≤ angle then tc
    else
      let d := (match dist origin s maxd with
        | some d0 => if d0 = 0 then maxd else d0
        | Option.none => maxd) / maxd
      (tc.1 + d, tc.2 + 1)) ((0 : ℚ), (0 : ℕ))

/-- One corner of one face: consult the cache (a cached 0 is falsy and is
    recomputed), else shoot the samples from the origin nudged off the corner
    and out of the plane, and store the result. -/
def cornerAO (samples : List Vec3) (powF : ℚ → ℚ → ℚ)
    (dist : Vec3 → Vec3 → ℚ → Option ℚ) (angle maxd strength : ℚ)
    (f : AFace) (i : ℕ) (cache : AOCache) : ℚ × AOCache :=
  let vertex := f.vertices.getD i (0, 0, 0)
  let normal := f.normals.getD i (0, 0, 0)
  let key := (vertex, normal)
  let opposite := f.vertices.getD ((i + 2) % 4) (0, 0, 0)
  let origin : Vec3 :=
    (vertex.1 * (99999 / 100000) + opposite.1 * (1 / 100000) + normal.1 / 10000,
     vertex.2.1 * (99999 / 100000) + opposite.2.1 * (1 / 100000) + normal.2.1 / 10000,
     vertex.2.2 * (99999 / 100000) + opposite.2.2 * (1 / 100000) + normal.2.2 / 10000)
  let tc := sampleLoop samples dist normal angle origin maxd
  let computed : ℚ :=
    if tc.2 = 0 then 0
    else 1 - powF (max (min (tc.1 / (tc.2 : ℚ)) 1) 0) strength
  match cache.lookup key with
  | some a => if a = 0 then (computed, (key, computed) :: cache) else (a, cache)
  | Option.none => (computed, (key, computed) :: cache)

/-- One face: reset `ao` and compute the four corners in order, threading the
    cache. -/
def faceAO (samples : List Vec3) (powF : ℚ → ℚ → ℚ)
    (dist : Vec3 → Vec3 → ℚ → Option ℚ) (angle maxd strength : ℚ)
    (f : AFace) (cache : AOCache) : AFace × AOCache :=
  let r0 := cornerAO samples powF dist angle maxd strength f 0 cache
  let r1 := cornerAO samples powF dist angle maxd strength f 1 r0.2
  let r2 := cornerAO samples powF dist angle maxd strength f 2 r1.2
  let r3 := cornerAO samples powF dist angle maxd strength f 3 r2.2
  ({ f with ao := (r0.1, r1.1, r2.1, r3.1) }, r3.2)

/-- One voxel of the AO pass: resolve the effective `ao` record, return
    untouched when it is missing or degenerate (`maxDistance === 0`,
    `strength === 0`, `angle < 1`) or the voxel is air, else recompute the
    `ao` of every non-skipped face. -/
def voxelAO (modelAo : Option AOSettings) (scaleMax : ℚ) (samples : List Vec3)
    (cosDeg : ℚ → ℚ) (powF : ℚ → ℚ → ℚ) (dist : Vec3 → Vec3 → ℚ → Option ℚ)
    (v : AVoxel) (cache : AOCache) : AVoxel × AOCache :=
  match effectiveAo modelAo v with
  | Option.none => (v, cache)
  | some a =>
    if a.maxDistance = 0 ∨ a.strength = 0 ∨ a.angle < 1 ∨ v.opacity = 0 then
      (v, cache)
    else
      let maxd := a.maxDistance * scaleMax
      let angle := cosDeg a.angle
      let r := v.faces.foldl (fun (acc : List AFace × AOCache) f =>
        if f.skipped then (acc.1 ++ [f], acc.2)
        else
          let fc := faceAO samples powF dist angle maxd a.strength f acc.2
          (acc.1 ++ [fc.1], fc.2)) ([], cache)
      ({ v with faces := r.1 }, r.2)

/-- The voxel loop, threading the shared AO cache. -/
def voxelsAO (modelAo : Option AOSettings) (scaleMax : ℚ) (samples : List Vec3)
    (cosDeg : ℚ → ℚ) (powF : ℚ → ℚ → ℚ) (dist : Vec3 → Vec3 → ℚ → Option ℚ) :
    List AVoxel → AOCache → List AVoxel
  | [], _ => []
  | v :: rest, cache =>
    let r := voxelAO modelAo scaleMax samples cosDeg powF dist v cache
    r.1 :: voxelsAO modelAo scaleMax samples cosDeg powF dist rest r.2

/-- `AOCalculator.calculateAmbientOcclusion(model)`: nothing happens unless
    the model or some material has an `ao` record; otherwise every (visible)
    voxel is processed with a fresh cache. -/
def calculateAmbientOcclusion (modelAo : Option AOSettings)
    (materialsAo : List (Option AOSettings)) (scaleMax : ℚ) (samples : List Vec3)
    (cosDeg : ℚ → ℚ) (powF : ℚ → ℚ → ℚ) (dist : Vec3 → Vec3 → ℚ → Option ℚ)
    (voxels : List AVoxel) : List AVoxel :=
  if modelAo.isSome || materialsAo.any Option.isSome then
    voxelsAO modelAo scaleMax samples cosDeg powF dist voxels []
  else voxels

/-- A voxel whose effective AO settings are missing or degenerate. -/
def aoDegenerate (modelAo : Option AOSettings) (v : AVoxel) : Bool :=
  match effectiveAo modelAo v with
  | Option.none => true
  | some a =>
    decide (a.maxDistance = 0) || decide (a.strength = 0) || decide (a.angle < 1)

/-- A degenerate voxel passes through `voxelAO` untouched (cache included). -/
theorem voxelAO_degenerate (modelAo : Option AOSettings) (scaleMax : ℚ)
    (samples : List Vec3) (cosDeg : ℚ → ℚ) (powF : ℚ → ℚ → ℚ)
    (dist : Vec3 → Vec3 → ℚ → Option ℚ) (v : AVoxel) (cache : AOCache)
    (hdeg : aoDegenerate modelAo v = true) :
    voxelAO modelAo scaleMax samples cosDeg powF dist v cache = (v, cache) := by
  unfold aoDegenerate at hdeg
  unfold voxelAO
  cases h : effectiveAo modelAo v with
  | none => rfl
  | some a =>
    rw [h] at hdeg
    dsimp only at hdeg ⊢
    have hcond : a.maxDistance = 0 ∨ a.strength = 0 ∨ a.angle < 1 ∨ v.opacity = 0 := by
      rcases Bool.or_eq_true_iff.mp hdeg with h1 | h2
      · rcases Bool.or_eq_true_iff.mp h1 with h3 | h4
        · exact Or.inl (of_decide_eq_true h3)
        · exact Or.inr (Or.inl (of_decide_eq_true h4))
      · exact Or.inr (Or.inr (Or.inl (of_decide_eq_true h2)))
    rw [if_pos hcond]

/-- The voxel loop: lengths are preserved and degenerate voxels are returned
    unchanged at their position, whatever the cache holds. -/
theorem voxelsAO_degenerate (modelAo : Option AOSettings) (scaleMax : ℚ)
    (samples : List Vec3) (cosDeg : ℚ → ℚ) (powF : ℚ → ℚ → ℚ)
    (dist : Vec3 → Vec3 → ℚ → Option ℚ) :
    ∀ (voxels : List AVoxel) (cache : AOCache),
      (voxelsAO modelAo scaleMax samples cosDeg powF dist voxels cache).length
        = voxels.length ∧
      ∀ i : ℕ, aoDegenerate modelAo (voxels.getD i default) = true →
        (voxelsAO modelAo scaleMax samples cosDeg powF dist voxels cache).getD i default
          = voxels.getD i default := by
  intro voxels
  induction voxels with
  | nil =>
    intro cache
    exact ⟨rfl, fun i _ => rfl⟩
  | cons v rest ih =>
    intro cache
    constructor
    · show ((voxelAO modelAo scaleMax samples cosDeg powF dist v cache).1 ::
        voxelsAO modelAo scaleMax samples cosDeg powF dist rest
          (voxelAO modelAo scaleMax samples cosDeg powF dist v cache).2).length
        = (v :: rest).length
      rw [List.length_cons, List.length_cons,
        (ih (voxelAO modelAo scaleMax samples cosDeg powF dist v cache).2).1]
    · intro i hdeg
      cases i with
      | zero =>
        show ((voxelAO modelAo scaleMax samples cosDeg powF dist v cache).1 ::
          voxelsAO modelAo scaleMax samples cosDeg powF dist rest
            (voxelAO modelAo scaleMax samples cosDeg powF dist v cache).2).getD 0 default
          = v
        have := voxelAO_degenerate modelAo scaleMax samples cosDeg powF dist v cache hdeg
        show (voxelAO modelAo scaleMax samples cosDeg powF dist v cache).1 = v
        rw [this]
      | succ n =>
        show ((voxelAO modelAo scaleMax samples cosDeg powF dist v cache).1 ::
          voxelsAO modelAo scaleMax samples cosDeg powF dist rest
            (voxelAO modelAo scaleMax samples cosDeg powF dist v cache).2).getD (n + 1)
            default = (v :: rest).getD (n + 1) default
        show (voxelsAO modelAo scaleMax samples cosDeg powF dist rest
          (voxelAO modelAo scaleMax samples cosDeg powF dist v cache).2).getD n default
          = rest.getD n default
        exact (ih (voxelAO modelAo scaleMax samples cosDeg powF dist v cache).2).2 n hdeg

/-- C6: the AO pass preserves the number of voxels, and every voxel whose
    effective AO settings (material `ao`, falling back to the model `ao`) are
    missing or have `maxDistance = 0`, `strength = 0` or `angle < 1` comes out
    of the pass completely untouched; in particular all its faces keep the
    `ao = [0, 0, 0, 0]` that `Model._createFace` initialized. -/
theorem c6_degenerate_ao_untouched (modelAo : Option AOSettings)
    (materialsAo : List (Option AOSettings)) (scaleMax : ℚ) (samples : List Vec3)
    (cosDeg : ℚ → ℚ) (powF : ℚ → ℚ → ℚ) (dist : Vec3 → Vec3 → ℚ → Option ℚ)
    (voxels : List AVoxel) :
    (calculateAmbientOcclusion modelAo materialsAo scaleMax samples cosDeg powF dist
      voxels).length = voxels.length ∧
    ∀ i : ℕ, aoDegenerate modelAo (voxels.getD i default) = true →
      (calculateAmbientOcclusion modelAo materialsAo scaleMax samples cosDeg powF dist
        voxels).getD i default = voxels.getD i default ∧
      ((∀ f ∈ (voxels.getD i default).faces, f.ao = (0, 0, 0, 0)) →
        ∀ f ∈ ((calculateAmbientOcclusion modelAo materialsAo scaleMax samples cosDeg
          powF dist voxels).getD i default).faces, f.ao = (0, 0, 0, 0)) := by
  unfold calculateAmbientOcclusion
  by_cases hdo : (modelAo.isSome || materialsAo.any Option.isSome) = true
  · rw [if_pos hdo]
    have H := voxelsAO_degenerate modelAo scaleMax samples cosDeg powF dist voxels []
    refine ⟨H.1, ?_⟩
    intro i hdeg
    refine ⟨H.2 i hdeg, ?_⟩
    intro hinit f hf
    rw [H.2 i hdeg] at hf
    exact hinit f hf
  · rw [if_neg hdo]
    exact ⟨rfl, fun i _ => ⟨rfl, fun hinit f hf => hinit f hf⟩⟩

theorem c6_degenerate_ao_untouched_witness :
    (calculateAmbientOcclusion (some ⟨0, 1, 90⟩) [] 1 [(0, 0, 1)]
      (fun _ => 0) (fun _ _ => 0) (fun _ _ _ => Option.none)
      [⟨Option.none, 1, [⟨false, [(0, 0, 0)], [(0, 0, 1)], (0, 0, 0, 0)⟩]⟩]).getD 0 default
    = ⟨Option.none, 1, [⟨false, [(0, 0, 0)], [(0, 0, 1)], (0, 0, 0, 0)⟩]⟩ :=
  ((c6_degenerate_ao_untouched (some ⟨0, 1, 90⟩) [] 1 [(0, 0, 1)]
    (fun _ => 0) (fun _ _ => 0) (fun _ _ _ => Option.none)
    [⟨Option.none, 1, [⟨false, [(0, 0, 0)], [(0, 0, 1)], (0, 0, 0, 0)⟩]⟩]).2
    0 (by decide)).1

/-! ## The face simplifier (Simplifier._mergeFaces)

`simplify` runs `_mergeFaces` over straight runs of cells (one context per
face direction, cleared at an empty cell), with an axis permutation per run
direction.  A run is embedded as a fold over the cell list: the state is the
list of already-processed cells plus the context, held as the index of
`lastVoxel` in that list (the source keeps object references; the reference
is into the processed prefix because a merge mutates the last face in place
and deletes the current one *without* updating the context).  `Math.sqrt` is
abstracted as `sqrtF`; a voxel's `color` object identity is a number. -/

/-- An axis name (`'x'`/`'y'`/`'z'` passed to `_mergeFaces`). -/
inductive Axis where
  | x
  | y
  | z
deriving DecidableEq

/-- `v[axis]`. -/
def axisGet (v : Vec3) : Axis → ℚ
  | Axis.x => v.1
  | Axis.y => v.2.1
  | Axis.z => v.2.2

/-- A face as the simplifier sees it. -/
structure SFace where
  skipped : Bool
  vertices : List Vec3
  normals : List Vec3
  vertexColors : Option (List (ℚ × ℚ × ℚ))
  ao : List ℚ
  uv : List (Option (ℚ × ℚ))
deriving DecidableEq

/-- A voxel of a merge run: its color (object identity), its coordinates and
    its face for the run's direction. -/
structure SVoxel where
  color : ℕ
  pos : Vec3
  face : Option SFace
deriving DecidableEq

/-- `Simplifier._normalEquals`: per-axis distance below 0.01. -/
def normalEquals (a b : Vec3) : Bool :=
  decide (|a.1 - b.1| < 1 / 100) && decide (|a.2.1 - b.2.1| < 1 / 100) &&
    decide (|a.2.2 - b.2.2| < 1 / 100)

/-- `Simplifier._colorEquals` on vertex colors (r, g, b). -/
def colorEquals (a b : ℚ × ℚ × ℚ) : Bool :=
  decide (a.1 = b.1) && decide (a.2.1 = b.2.1) && decide (a.2.2 = b.2.2)

/-- The vertex-color clause: both faces without vertex colors, or all four
    corner colors equal.  (With one side missing and the other present the
    source would throw a TypeError on `undefined[0]`; it certainly does not
    merge, so that case is modelled as `false`.) -/
def vcolorsOk : Option (List (ℚ × ℚ × ℚ)) → Option (List (ℚ × ℚ × ℚ)) → Bool
  | Option.none, Option.none => true
  | some a, some b =>
    colorEquals (a.getD 0 (0, 0, 0)) (b.getD 0 (0, 0, 0)) &&
    colorEquals (a.getD 1 (0, 0, 0)) (b.getD 1 (0, 0, 0)) &&
    colorEquals (a.getD 2 (0, 0, 0)) (b.getD 2 (0, 0, 0)) &&
    colorEquals (a.getD 3 (0, 0, 0)) (b.getD 3 (0, 0, 0))
  | _, _ => false

/-- `Number.EPSILON * 10`. -/
def EPS10 : ℚ := 10 / 4503599627370496

/-- The collinearity test of `_mergeFaces`: the last face's `v1`/`v2` corners
    must interpolate (ratio of the face length to the combined length) between
    the current face's corners and the last face's `v0`/`v3` corners on all
    three axes. -/
def geomOk (axis1 axis2 axis3 : Axis) (v0 v1 v2 v3 : ℕ) (sqrtF : ℚ → ℚ)
    (fv lfv : List Vec3) : Bool :=
  let z : Vec3 := (0, 0, 0)
  let faceLength := sqrtF (
    ((fv.getD v1 z).1 - (fv.getD v0 z).1) * ((fv.getD v1 z).1 - (fv.getD v0 z).1) +
    ((fv.getD v1 z).2.1 - (fv.getD v0 z).2.1) * ((fv.getD v1 z).2.1 - (fv.getD v0 z).2.1) +
    ((fv.getD v1 z).2.2 - (fv.getD v0 z).2.2) * ((fv.getD v1 z).2.2 - (fv.getD v0 z).2.2))
  let totalLength := sqrtF (
    ((fv.getD v1 z).1 - (lfv.getD v0 z).1) * ((fv.getD v1 z).1 - (lfv.getD v0 z).1) +
    ((fv.getD v1 z).2.1 - (lfv.getD v0 z).2.1) * ((fv.getD v1 z).2.1 - (lfv.getD v0 z).2.1) +
    ((fv.getD v1 z).2.2 - (lfv.getD v0 z).2.2) * ((fv.getD v1 z).2.2 - (lfv.getD v0 z).2.2))
  let ratio := faceLength / totalLength
  decide (|axisGet (lfv.getD v1 z) axis1 - (1 - ratio) * axisGet (fv.getD v1 z) axis1 -
    ratio * axisGet (lfv.getD v0 z) axis1| ≤ EPS10) &&
  decide (|axisGet (lfv.getD v1 z) axis2 - (1 - ratio) * axisGet (fv.getD v1 z) axis2 -
    ratio * axisGet (lfv.getD v0 z) axis2| ≤ EPS10) &&
  decide (|axisGet (lfv.getD v1 z) axis3 - (1 - ratio) * axisGet (fv.getD v1 z) axis3 -
    ratio * axisGet (lfv.getD v0 z) axis3| ≤ EPS10) &&
  decide (|axisGet (lfv.getD v2 z) axis1 - (1 - ratio) * axisGet (fv.getD v2 z) axis1 -
    ratio * axisGet (lfv.getD v3 z) axis1| ≤ EPS10) &&
  decide (|axisGet (lfv.getD v2 z) axis2 - (1 - ratio) * axisGet (fv.getD v2 z) axis2 -
    ratio * axisGet (lfv.getD v3 z) axis2| ≤ EPS10) &&
  decide (|axisGet (lfv.getD v2 z) axis3 - (1 - ratio) * axisGet (fv.getD v2 z) axis3 -
    ratio * axisGet (lfv.getD v3 z) axis3| ≤ EPS10)

/-- The full merge condition of `_mergeFaces` (the current face must not be
    skipped; same color object; same `axis1`/`axis2` coordinates; all four
    corner normals equal within tolerance; vertex colors equal or absent; all
    four AO values identical; and the collinearity test). -/
def mergeCond (axis1 axis2 axis3 : Axis) (v0 v1 v2 v3 : ℕ) (sqrtF : ℚ → ℚ)
    (face lastFace : SFace) (vox lv : SVoxel) : Bool :=
  !face.skipped &&
  decide (vox.color = lv.color) &&
  decide (axisGet vox.pos axis1 = axisGet lv.pos axis1) &&
  decide (axisGet vox.pos axis2 = axisGet lv.pos axis2) &&
  normalEquals (face.normals.getD 0 (0, 0, 0)) (lastFace.normals.getD 0 (0, 0, 0)) &&
  normalEquals (face.normals.getD 1 (0, 0, 0)) (lastFace.normals.getD 1 (0, 0, 0)) &&
  normalEquals (face.normals.getD 2 (0, 0, 0)) (lastFace.normals.getD 2 (0, 0, 0)) &&
  normalEquals (face.normals.getD 3 (0, 0, 0)) (lastFace.normals.getD 3 (0, 0, 0)) &&
  vcolorsOk face.vertexColors lastFace.vertexColors &&
  decide (face.ao.getD 0 0 = lastFace.ao.getD 0 0) &&
  decide (face.ao.getD 1 0 = lastFace.ao.getD 1 0) &&
  decide (face.ao.getD 2 0 = lastFace.ao.getD 2 0) &&
  decide (face.ao.getD 3 0 = lastFace.ao.getD 3 0) &&
  geomOk axis1 axis2 axis3 v0 v1 v2 v3 sqrtF face.vertices lastFace.vertices

/-- The in-place extension of the last face by the merged face: the `v1` and
    `v2` corners (vertices and uv) are taken from the current face. -/
def mergeApply (v1 v2 : ℕ) (face lastFace : SFace) : SFace :=
  { lastFace with
    vertices := (lastFace.vertices.set v1 (face.vertices.getD v1 (0, 0, 0))).set v2
      (face.vertices.getD v2 (0, 0, 0)),
    uv := (lastFace.uv.set v1 (face.uv.getD v1 Option.none)).set v2
      (face.uv.getD v2 Option.none) }

/-- One `_mergeFaces` call (including the `clearContexts` on an empty cell of
    the surrounding loop): on a merge, the last face is extended in place, the
    current face is deleted and the context is left unchanged; otherwise the
    context becomes the current cell. -/
def mergeStep (axis1 axis2 axis3 : Axis) (v0 v1 v2 v3 : ℕ) (sqrtF : ℚ → ℚ)
    (st : List (Option SVoxel) × Option ℕ) (cell : Option SVoxel) :
    List (Option SVoxel) × Option ℕ :=
  match cell with
  | Option.none => (st.1 ++ [Option.none], Option.none)
  | some vox =>
    let st1 := (st.1 ++ [some vox], some st.1.length)
    match st.2 with
    | Option.none => st1
    | some li =>
      match st.1.getD li Option.none with
      | Option.none => st1
      | some lv =>
        match vox.face, lv.face with
        | some face, some lastFace =>
          if mergeCond axis1 axis2 axis3 v0 v1 v2 v3 sqrtF face lastFace vox lv then
            (st.1.set li (some { lv with face := some (mergeApply v1 v2 face lastFace) })
              ++ [some { vox with face := Option.none }], some li)
          else st1
        | _, _ => st1

/-- One merge run: a straight line of cells processed with a fresh context. -/
def mergeRun (axis1 axis2 axis3 : Axis) (v0 v1 v2 v3 : ℕ) (sqrtF : ℚ → ℚ)
    (cells : List (Option SVoxel)) : List (Option SVoxel) :=
  (cells.foldl (mergeStep axis1 axis2 axis3 v0 v1 v2 v3 sqrtF) ([], Option.none)).1

/-- The face contribution of one cell. -/
def cellFaces : Option SVoxel → ℕ
  | some v => match v.face with
    | some _ => 1
    | Option.none => 0
  | Option.none => 0

/-- The total face count of a cell list. -/
def faceCount : List (Option SVoxel) → ℕ
  | [] => 0
  | c :: rest => cellFaces c + faceCount rest

/-- The element just appended. -/
theorem getD_concat_self {α : Type} (l : List α) (a d : α) :
    (l ++ [a]).getD l.length d = a := by
  rw [List.getD_eq_getElem?_getD, List.getElem?_concat_length]
  rfl

/-- The element just appended, after a `set` on the prefix. -/
theorem getD_concat_set {α : Type} (l : List α) (i : ℕ) (x a d : α) :
    (l.set i x ++ [a]).getD l.length d = a := by
  rw [show l.length = (l.set i x).length from (List.length_set l i x).symm]
  exact getD_concat_self _ _ _

/-- `faceCount` is additive. -/
theorem faceCount_append (l1 l2 : List (Option SVoxel)) :
    faceCount (l1 ++ l2) = faceCount l1 + faceCount l2 := by
  induction l1 with
  | nil =>
    rw [List.nil_append, show faceCount [] = 0 from rfl]
    omega
  | cons a t ih =>
    show cellFaces a + faceCount (t ++ l2) = cellFaces a + faceCount t + faceCount l2
    rw [ih, Nat.add_assoc]

/-- Replacing a cell by one with the same face contribution keeps the count. -/
theorem faceCount_set_eq : ∀ (l : List (Option SVoxel)) (i : ℕ) (x : Option SVoxel),
    cellFaces x = cellFaces (l.getD i Option.none) →
    faceCount (l.set i x) = faceCount l := by
  intro l
  induction l with
  | nil => intro i x _; rfl
  | cons a t ih =>
    intro i x h
    cases i with
    | zero =>
      show cellFaces x + faceCount t = cellFaces a + faceCount t
      rw [show (a :: t).getD 0 Option.none = a from rfl] at h
      rw [h]
    | succ n =>
      show cellFaces a + faceCount (t.set n x) = cellFaces a + faceCount t
      rw [ih n x h]

/-- One merge step never increases the face count beyond the incoming cell's
    contribution. -/
theorem mergeStep_le (axis1 axis2 axis3 : Axis) (v0 v1 v2 v3 : ℕ) (sqrtF : ℚ → ℚ)
    (st : List (Option SVoxel) × Option ℕ) (c : Option SVoxel) :
    faceCount (mergeStep axis1 axis2 axis3 v0 v1 v2 v3 sqrtF st c).1 ≤
      faceCount st.1 + cellFaces c := by
  unfold mergeStep
  cases c with
  | none =>
    dsimp only
    rw [faceCount_append]
    exact Nat.le_refl _
  | some vox =>
    dsimp only
    cases h2 : st.2 with
    | none =>
      dsimp only
      rw [faceCount_append]
      exact Nat.le_refl _
    | some li =>
      dsimp only
      cases hg : st.1.getD li Option.none with
      | none =>
        dsimp only
        rw [faceCount_append]
        exact Nat.le_refl _
      | some lv =>
        dsimp only
        cases hface : vox.face with
        | none =>
          cases hlf : lv.face <;>
            (dsimp only; rw [faceCount_append]; exact Nat.le_refl _)
        | some face =>
          cases hlf : lv.face with
          | none =>
            dsimp only
            rw [faceCount_append]
            exact Nat.le_refl _
          | some lastFace =>
            dsimp only
            by_cases hc : mergeCond axis1 axis2 axis3 v0 v1 v2 v3 sqrtF
                face lastFace vox lv = true
            · rw [if_pos hc, faceCount_append]
              rw [faceCount_set_eq st.1 li
                (some { lv with face := some (mergeApply v1 v2 face lastFace) })
                (by rw [hg]
                    show (1 : ℕ) = cellFaces (some lv)
                    unfold cellFaces
                    dsimp only
                    rw [hlf])]
              rw [show faceCount [some { vox with face := Option.none }] = 0 from rfl]
              exact Nat.le_add_right _ _
            · rw [if_neg hc]
              dsimp only
              rw [faceCount_append]
              exact Nat.le_refl _

/-- A whole fold of merge steps never increases the total face count. -/
theorem mergeFold_le (axis1 axis2 axis3 : Axis) (v0 v1 v2 v3 : ℕ) (sqrtF : ℚ → ℚ) :
    ∀ (cells : List (Option SVoxel)) (st : List (Option SVoxel) × Option ℕ),
      faceCount (cells.foldl (mergeStep axis1 axis2 axis3 v0 v1 v2 v3 sqrtF) st).1 ≤
        faceCount st.1 + faceCount cells := by
  intro cells
  induction cells with
  | nil =>
    intro st
    rw [List.foldl_nil, show faceCount [] = 0 from rfl]
    omega
  | cons c rest ih =>
    intro st
    rw [List.foldl_cons]
    refine Nat.le_trans (ih _) ?_
    have h := mergeStep_le axis1 axis2 axis3 v0 v1 v2 v3 sqrtF st c
    rw [show faceCount (c :: rest) = cellFaces c + faceCount rest from rfl]
    omega

/-- C7: (a) a `_mergeFaces` step removes a face only when the entire merge
    condition holds between it and the context face — in particular the two
    voxel colors are identical, all four corner normals agree within 0.01 on
    every axis, all four AO values are identical, and the vertex colors are
    equal or absent on both; `normalEquals` and the vertex-color clause are
    characterized exactly.  (b) A run over a straight region beginning with
    two voxels whose faces satisfy the merge condition strictly decreases the
    total face count. -/
theorem c7_merge_conditions_and_decrease (axis1 axis2 axis3 : Axis)
    (v0 v1 v2 v3 : ℕ) (sqrtF : ℚ → ℚ) :
    (∀ (st : List (Option SVoxel) × Option ℕ) (vox : SVoxel) (face : SFace),
      vox.face = some face →
      (mergeStep axis1 axis2 axis3 v0 v1 v2 v3 sqrtF st (some vox)).1.getD
        st.1.length Option.none ≠ some vox →
      ∃ li lv lastFace, st.2 = some li ∧ st.1.getD li Option.none = some lv ∧
        lv.face = some lastFace ∧
        mergeCond axis1 axis2 axis3 v0 v1 v2 v3 sqrtF face lastFace vox lv = true ∧
        vox.color = lv.color ∧
        (∀ i, i < 4 → normalEquals (face.normals.getD i (0, 0, 0))
          (lastFace.normals.getD i (0, 0, 0)) = true) ∧
        (∀ i, i < 4 → face.ao.getD i 0 = lastFace.ao.getD i 0) ∧
        vcolorsOk face.vertexColors lastFace.vertexColors = true) ∧
    (∀ a b : Vec3, normalEquals a b = true ↔
      |a.1 - b.1| < 1 / 100 ∧ |a.2.1 - b.2.1| < 1 / 100 ∧ |a.2.2 - b.2.2| < 1 / 100) ∧
    (∀ oa ob : Option (List (ℚ × ℚ × ℚ)), vcolorsOk oa ob = true ↔
      (oa = Option.none ∧ ob = Option.none) ∨
      (∃ a b, oa = some a ∧ ob = some b ∧
        ∀ i, i < 4 → a.getD i (0, 0, 0) = b.getD i (0, 0, 0))) ∧
    (∀ (A B : SVoxel) (fA fB : SFace) (rest : List (Option SVoxel)),
      A.face = some fA → B.face = some fB →
      mergeCond axis1 axis2 axis3 v0 v1 v2 v3 sqrtF fB fA B A = true →
      faceCount (mergeRun axis1 axis2 axis3 v0 v1 v2 v3 sqrtF
        (some A :: some B :: rest)) <
        faceCount (some A :: some B :: rest)) := by
  refine ⟨?_, ?_, ?_, ?_⟩
  · intro st vox face hface hne
    unfold mergeStep at hne
    dsimp only at hne
    cases h2 : st.2 with
    | none =>
      rw [h2] at hne
      dsimp only at hne
      exact absurd (getD_concat_self st.1 (some vox) Option.none) hne
    | some li =>
      rw [h2] at hne
      dsimp only at hne
      cases hg : st.1.getD li Option.none with
      | none =>
        rw [hg] at hne
        dsimp only at hne
        exact absurd (getD_concat_self st.1 (some vox) Option.none) hne
      | some lv =>
        rw [hg] at hne
        dsimp only at hne
        rw [hface] at hne
        cases hlf : lv.face with
        | none =>
          rw [hlf] at hne
          dsimp only at hne
          exact absurd (getD_concat_self st.1 (some vox) Option.none) hne
        | some lastFace =>
          rw [hlf] at hne
          dsimp only at hne
          by_cases hc : mergeCond axis1 axis2 axis3 v0 v1 v2 v3 sqrtF
              face lastFace vox lv = true
          · have hc2 := hc
            simp only [mergeCond, Bool.and_eq_true, decide_eq_true_eq] at hc2
            obtain ⟨⟨⟨⟨⟨⟨⟨⟨⟨⟨⟨⟨⟨hsk, hcol⟩, hax1⟩, hax2⟩, hn0⟩, hn1⟩, hn2⟩,
              hn3⟩, hvc⟩, hao0⟩, hao1⟩, hao2⟩, hao3⟩, hgeom⟩ := hc2
            refine ⟨li, lv, lastFace, rfl, hg, hlf, hc, hcol, ?_, ?_, hvc⟩
            · intro i hi
              interval_cases i
              · exact hn0
              · exact hn1
              · exact hn2
              · exact hn3
            · intro i hi
              interval_cases i
              · exact hao0
              · exact hao1
              · exact hao2
              · exact hao3
          · rw [if_neg hc] at hne
            dsimp only at hne
            exact absurd (getD_concat_self st.1 (some vox) Option.none) hne
  · intro a b
    simp [normalEquals, Bool.and_eq_true, decide_eq_true_eq, and_assoc]
  · intro oa ob
    cases oa with
    | none =>
      cases ob with
      | none => simp [vcolorsOk]
      | some b => simp [vcolorsOk]
    | some a =>
      cases ob with
      | none => simp [vcolorsOk]
      | some b =>
        simp only [vcolorsOk, Bool.and_eq_true, colorEquals, decide_eq_true_eq]
        constructor
        · intro h
          refine Or.inr ⟨a, b, rfl, rfl, ?_⟩
          intro i hi
          interval_cases i <;> (simp only [Prod.ext_iff]; tauto)
        · rintro (⟨ha2, _⟩ | ⟨a2, b2, ha2, hb2, h⟩)
          · exact absurd ha2 (by simp)
          · obtain rfl := Option.some.inj ha2
            obtain rfl := Option.some.inj hb2
            have h0 := h 0 (by omega)
            have h1 := h 1 (by omega)
            have h2 := h 2 (by omega)
            have h3 := h 3 (by omega)
            simp only [Prod.ext_iff] at h0 h1 h2 h3
            tauto
  · intro A B fA fB rest hA hB hcond
    unfold mergeRun
    rw [List.foldl_cons, List.foldl_cons]
    have h1 : mergeStep axis1 axis2 axis3 v0 v1 v2 v3 sqrtF ([], Option.none) (some A)
        = ([some A], some 0) := rfl
    rw [h1]
    have h2 : mergeStep axis1 axis2 axis3 v0 v1 v2 v3 sqrtF ([some A], some 0) (some B)
        = ([some { A with face := some (mergeApply v1 v2 fB fA) },
            some { B with face := Option.none }], some 0) := by
      unfold mergeStep
      dsimp only
      rw [show ([some A] : List (Option SVoxel)).getD 0 Option.none = some A from rfl]
      dsimp only
      rw [hB, hA]
      dsimp only
      rw [hcond]
      rw [if_pos rfl]
      rfl
    rw [h2]
    have h3 := mergeFold_le axis1 axis2 axis3 v0 v1 v2 v3 sqrtF rest
      ([some { A with face := some (mergeApply v1 v2 fB fA) },
        some { B with face := Option.none }], some 0)
    rw [show faceCount [some { A with face := some (mergeApply v1 v2 fB fA) },
        some { B with face := Option.none }] = 1 from rfl] at h3
    have h5 : faceCount (some A :: some B :: rest) = 2 + faceCount rest := by
      show cellFaces (some A) + (cellFaces (some B) + faceCount rest)
        = 2 + faceCount rest
      rw [show cellFaces (some A) = 1 from by unfold cellFaces; dsimp only; rw [hA],
          show cellFaces (some B) = 1 from by unfold cellFaces; dsimp only; rw [hB]]
      omega
    rw [h5]
    omega

theorem c7_merge_conditions_and_decrease_witness :
    faceCount (mergeRun Axis.x Axis.z Axis.y 0 1 2 3
      (fun q => if q = 1 then 1 else if q = 4 then 2 else 0)
      [some ⟨7, (0, 0, 0),
        some ⟨false, [(0, 0, 0), (0, 1, 0), (0, 1, 1), (0, 0, 1)],
          [(-1, 0, 0), (-1, 0, 0), (-1, 0, 0), (-1, 0, 0)], Option.none,
          [0, 0, 0, 0], [Option.none, Option.none, Option.none, Option.none]⟩⟩,
       some ⟨7, (0, 1, 0),
        some ⟨false, [(0, 1, 0), (0, 2, 0), (0, 2, 1), (0, 1, 1)],
          [(-1, 0, 0), (-1, 0, 0), (-1, 0, 0), (-1, 0, 0)], Option.none,
          [0, 0, 0, 0], [Option.none, Option.none, Option.none, Option.none]⟩⟩]) <
    faceCount
      [some ⟨7, (0, 0, 0),
        some ⟨false, [(0, 0, 0), (0, 1, 0), (0, 1, 1), (0, 0, 1)],
          [(-1, 0, 0), (-1, 0, 0), (-1, 0, 0), (-1, 0, 0)], Option.none,
          [0, 0, 0, 0], [Option.none, Option.none, Option.none, Option.none]⟩⟩,
       some ⟨7, (0, 1, 0),
        some ⟨false, [(0, 1, 0), (0, 2, 0), (0, 2, 1), (0, 1, 1)],
          [(-1, 0, 0), (-1, 0, 0), (-1, 0, 0), (-1, 0, 0)], Option.none,
          [0, 0, 0, 0], [Option.none, Option.none, Option.none, Option.none]⟩⟩] :=
  (c7_merge_conditions_and_decrease Axis.x Axis.z Axis.y 0 1 2 3
    (fun q => if q = 1 then 1 else if q = 4 then 2 else 0)).2.2.2
    ⟨7, (0, 0, 0),
      some ⟨false, [(0, 0, 0), (0, 1, 0), (0, 1, 1), (0, 0, 1)],
        [(-1, 0, 0), (-1, 0, 0), (-1, 0, 0), (-1, 0, 0)], Option.none,
        [0, 0, 0, 0], [Option.none, Option.none, Option.none, Option.none]⟩⟩
    ⟨7, (0, 1, 0),
      some ⟨false, [(0, 1, 0), (0, 2, 0), (0, 2, 1), (0, 1, 1)],
        [(-1, 0, 0), (-1, 0, 0), (-1, 0, 0), (-1, 0, 0)], Option.none,
        [0, 0, 0, 0], [Option.none, Option.none, Option.none, Option.none]⟩⟩
    _ _ [] rfl rfl (by decide)

/-! ## The uncompressed voxel serializer (ModelWriter._serializeVoxels) and
its round trip through the reader's voxel codec

The writer emits, per cell of the *occupied* bounding box in x-then-y-then-z
order, the cell's color id or `-`, with a space after every x-row and `\r\n`
after every y-plane; the size line it writes is the occupied-bounds extent.
The emitted text is modelled as a list of atoms (ids, dashes, separator
characters) rendered to characters. -/

/-- Fuel irrelevance of the tokenizer: any fuel above the input length gives
    the same tokens. -/
theorem tokAux_fuel : ∀ (f1 f2 : ℕ) (l : List Char), l.length < f1 → l.length < f2 →
    tokenizeVoxelsAux f1 l = tokenizeVoxelsAux f2 l := by
  intro f1
  induction f1 with
  | zero => intro f2 l h1 _; omega
  | succ f ih =>
    intro f2 l h1 h2
    cases f2 with
    | zero => omega
    | succ f2' =>
      cases l with
      | nil => rfl
      | cons c cs =>
        have hcs1 : cs.length < f := by
          simp only [List.length_cons] at h1; omega
        have hcs2 : cs.length < f2' := by
          simp only [List.length_cons] at h2; omega
        show tokenizeVoxelsAux (f + 1) (c :: cs) = tokenizeVoxelsAux (f2' + 1) (c :: cs)
        unfold tokenizeVoxelsAux
        dsimp only
        by_cases hd : isDigitChar c = true
        · rw [hd, if_pos rfl, if_pos rfl,
            ih f2' (spanP isDigitChar cs).2
              (Nat.lt_of_le_of_lt (spanP_rest_length _ _) hcs1)
              (Nat.lt_of_le_of_lt (spanP_rest_length _ _) hcs2)]
        · rw [Bool.eq_false_iff.mpr hd, if_neg Bool.false_ne_true,
              if_neg Bool.false_ne_true]
          by_cases hu : isUpperChar c = true
          · rw [hu, if_pos rfl, if_pos rfl,
              ih f2' (spanP isLowerChar cs).2
                (Nat.lt_of_le_of_lt (spanP_rest_length _ _) hcs1)
                (Nat.lt_of_le_of_lt (spanP_rest_length _ _) hcs2)]
          · rw [Bool.eq_false_iff.mpr hu, if_neg Bool.false_ne_true,
                if_neg Bool.false_ne_true]
            by_cases hm : c = '-'
            · rw [if_pos hm, if_pos hm,
                ih f2' (spanP (fun d => d = '-') cs).2
                  (Nat.lt_of_le_of_lt (spanP_rest_length _ _) hcs1)
                  (Nat.lt_of_le_of_lt (spanP_rest_length _ _) hcs2)]
            · rw [if_neg hm, if_neg hm]
              by_cases ho : c = '('
              · rw [if_pos ho, if_pos ho, ih f2' cs hcs1 hcs2]
              · rw [if_neg ho, if_neg ho]
                by_cases he : c = ')'
                · rw [if_pos he, if_pos he, ih f2' cs hcs1 hcs2]
                · rw [if_neg he, if_neg he, ih f2' cs hcs1 hcs2]

/-- `spanP` over a satisfying prefix followed by a non-satisfying (or empty)
    rest. -/
theorem spanP_all_append (p : Char → Bool) :
    ∀ (tl rest : List Char), (∀ d ∈ tl, p d = true) →
      (match rest with | [] => True | r :: _ => p r = false) →
      spanP p (tl ++ rest) = (tl, rest) := by
  intro tl
  induction tl with
  | nil =>
    intro rest _ hr
    cases rest with
    | nil => rfl
    | cons r rs =>
      show spanP p (r :: rs) = ([], r :: rs)
      unfold spanP
      rw [hr, if_neg Bool.false_ne_true]
  | cons d tl ih =>
    intro rest hall hr
    show spanP p (d :: (tl ++ rest)) = (d :: tl, rest)
    unfold spanP
    rw [hall d (List.mem_cons_self d tl), if_pos rfl,
        ih rest (fun x hx => hall x (List.mem_cons_of_mem d hx)) hr]

/-- An upper-case letter is not a digit. -/
theorem upper_not_digit (c : Char) (h : isUpperChar c = true) : isDigitChar c = false := by
  simp only [isUpperChar, Bool.and_eq_true, decide_eq_true_eq] at h
  simp only [isDigitChar, Bool.and_eq_true, decide_eq_true_eq,
    Bool.eq_false_iff, ne_eq, not_and]
  intro _ h9
  exact absurd (le_trans h.1 h9) (by decide)

/-- An upper-case letter is not lower case. -/
theorem upper_not_lower (c : Char) (h : isUpperChar c = true) : isLowerChar c = false := by
  simp only [isUpperChar, Bool.and_eq_true, decide_eq_true_eq] at h
  simp only [isLowerChar, Bool.and_eq_true, decide_eq_true_eq,
    Bool.eq_false_iff, ne_eq, not_and]
  intro ha _
  exact absurd (le_trans ha h.2) (by decide)

/-- An upper-case letter is not the dash. -/
theorem upper_ne_dash (c : Char) (h : isUpperChar c = true) : decide (c = '-') = false := by
  by_cases hc : c = '-'
  · rw [hc] at h
    exact absurd h (by decide)
  · simp [hc]

/-- A lower-case letter differs from any upper-case letter. -/
theorem lower_ne_upper (c1 c0 : Char) (h1 : isLowerChar c1 = true)
    (h0 : isUpperChar c0 = true) : ¬ c1 = c0 := by
  intro he
  rw [he] at h1
  simp only [isLowerChar, Bool.and_eq_true, decide_eq_true_eq] at h1
  simp only [isUpperChar, Bool.and_eq_true, decide_eq_true_eq] at h0
  exact absurd (le_trans h1.1 h0.2) (by decide)

/-- The tokenizer skips a character of no token class. -/
theorem tok_sep (c : Char) (l : List Char)
    (h1 : isDigitChar c = false) (h2 : isUpperChar c = false)
    (h3 : ¬ c = '-') (h4 : ¬ c = '(') (h5 : ¬ c = ')') :
    tokenizeVoxels (c :: l) = tokenizeVoxels l := by
  show tokenizeVoxelsAux ((c :: l).length + 1) (c :: l) = tokenizeVoxelsAux (l.length + 1) l
  rw [show (c :: l).length + 1 = l.length + 1 + 1 from by simp]
  conv_lhs => unfold tokenizeVoxelsAux
  dsimp only
  rw [h1, if_neg Bool.false_ne_true, h2, if_neg Bool.false_ne_true,
      if_neg h3, if_neg h4, if_neg h5]

/-- The tokenizer takes a maximal `[A-Z][a-z]*` id when the rest does not
    start with a lower-case letter. -/
theorem tok_id (c : Char) (tl rest : List Char)
    (hc : isUpperChar c = true)
    (htl : ∀ d ∈ tl, isLowerChar d = true)
    (hrest : match rest with | [] => True | r :: _ => isLowerChar r = false) :
    tokenizeVoxels (c :: (tl ++ rest)) = VTok.idTok (c :: tl) :: tokenizeVoxels rest := by
  show tokenizeVoxelsAux ((c :: (tl ++ rest)).length + 1) (c :: (tl ++ rest)) = _
  rw [show (c :: (tl ++ rest)).length + 1 = (tl ++ rest).length + 1 + 1 from by simp]
  conv_lhs => unfold tokenizeVoxelsAux
  dsimp only
  rw [upper_not_digit c hc, if_neg Bool.false_ne_true, hc, if_pos rfl,
      spanP_all_append isLowerChar tl rest htl hrest]
  dsimp only
  rw [tokAux_fuel ((tl ++ rest).length + 1) (rest.length + 1) rest
    (by simp only [List.length_append]; omega) (by omega)]
  rfl

/-- The tokenizer takes a maximal dash run when the rest does not start with a
    dash. -/
theorem tok_dash (k : ℕ) (rest : List Char) (hk : 1 ≤ k)
    (hrest : match rest with | [] => True | r :: _ => decide (r = '-') = false) :
    tokenizeVoxels (List.replicate k '-' ++ rest) =
      VTok.dashTok k :: tokenizeVoxels rest := by
  obtain ⟨k', rfl⟩ : ∃ k2, k = k2 + 1 := ⟨k - 1, by omega⟩
  rw [List.replicate_succ, List.cons_append]
  show tokenizeVoxelsAux (('-' :: (List.replicate k' '-' ++ rest)).length + 1) _ = _
  rw [show ('-' :: (List.replicate k' '-' ++ rest)).length + 1
    = (List.replicate k' '-' ++ rest).length + 1 + 1 from by simp]
  conv_lhs => unfold tokenizeVoxelsAux
  dsimp only
  rw [show isDigitChar '-' = false from rfl, if_neg Bool.false_ne_true,
      show isUpperChar '-' = false from rfl, if_neg Bool.false_ne_true,
      if_pos rfl,
      spanP_all_append (fun d => decide (d = '-')) (List.replicate k' '-') rest
        (fun d hd => by rw [List.eq_of_mem_replicate hd]; rfl) hrest]
  dsimp only
  rw [List.length_replicate]
  congr 1
  · rw [Nat.add_comm 1 k']
  · rw [tokAux_fuel _ (rest.length + 1) rest
      (by simp only [List.length_append]; omega) (by omega)]
    rfl

/-- One atom of the writer's voxel text: a color id, a `-` for an empty cell,
    or a separator character (space, `\r`, `\n`). -/
inductive Atom where
  | id (s : List Char)
  | dash
  | sep (c : Char)
deriving DecidableEq

/-- The characters of an atom list. -/
def render : List Atom → List Char
  | [] => []
  | Atom.id s :: E => s ++ render E
  | Atom.dash :: E => '-' :: render E
  | Atom.sep c :: E => c :: render E

/-- The cell sequence an atom list denotes (separators carry no cell). -/
def cellsOf : List Atom → List (Option (List Char))
  | [] => []
  | Atom.id s :: E => some s :: cellsOf E
  | Atom.dash :: E => Option.none :: cellsOf E
  | Atom.sep _ :: E => cellsOf E

/-- Well-formed atoms: ids match `[A-Z][a-z]*`, separators are outside every
    token class (and not lower case, so they cannot extend an id). -/
def wfAtom : Atom → Bool
  | Atom.id s => match s with
    | [] => false
    | c :: tl => isUpperChar c && tl.all isLowerChar
  | Atom.dash => true
  | Atom.sep c => !(isDigitChar c || isUpperChar c || isLowerChar c ||
      decide (c = '-') || decide (c = '(') || decide (c = ')'))

/-- The tokens the writer's text can contain. -/
def flatTok : VTok → Bool
  | VTok.idTok s => match s with
    | [] => false
    | c :: tl => isUpperChar c && tl.all isLowerChar
  | VTok.dashTok n => decide (1 ≤ n)
  | _ => false

/-- The chunks of a paren- and digit-free token stream. -/
def chunksOf : List VTok → List RleChunk
  | [] => []
  | VTok.idTok s :: ts => (some s, 1) :: chunksOf ts
  | VTok.dashTok n :: ts => (Option.none, n) :: chunksOf ts
  | _ :: ts => chunksOf ts

/-- On a stream of id and dash tokens, the RLE unpacker appends one chunk per
    token. -/
theorem unpackAux_flat : ∀ (ts : List VTok), ts.all flatTok = true →
    ∀ (fuel : ℕ), ts.length < fuel → ∀ (acc : List RleChunk),
      unpackRleAux fuel ts 1 acc = (acc ++ chunksOf ts, []) := by
  intro ts
  induction ts with
  | nil =>
    intro _ fuel hf acc
    cases fuel with
    | zero => omega
    | succ f =>
      show (acc, ([] : List VTok)) = (acc ++ chunksOf [], [])
      rw [show chunksOf [] = [] from rfl, List.append_nil]
  | cons t ts ih =>
    intro hall fuel hf acc
    cases fuel with
    | zero => omega
    | succ f =>
      rw [List.all_cons, Bool.and_eq_true] at hall
      have hlen : ts.length < f := by simp only [List.length_cons] at hf; omega
      cases t with
      | numTok n => exact absurd hall.1 (by simp [flatTok])
      | openTok => exact absurd hall.1 (by simp [flatTok])
      | closeTok => exact absurd hall.1 (by simp [flatTok])
      | idTok s =>
        show unpackRleAux (f + 1) (VTok.idTok s :: ts) 1 acc = _
        conv_lhs => unfold unpackRleAux
        dsimp only
        cases s with
        | nil => exact absurd hall.1 (by simp [flatTok])
        | cons c0 stl =>
          cases stl with
          | nil =>
            rw [ih hall.2 f hlen (acc ++ [(some [c0], 1)])]
            rw [show chunksOf (VTok.idTok [c0] :: ts) = (some [c0], 1) :: chunksOf ts
              from rfl, List.append_assoc]
            rfl
          | cons c1 stl2 =>
            have hwf := hall.1
            simp only [flatTok, Bool.and_eq_true, List.all_cons] at hwf
            have hcond : (isUpperChar c0 && decide (c1 = c0)) = false := by
              have hne : ¬ c1 = c0 := lower_ne_upper c1 c0 hwf.2.1 hwf.1
              simp [hne]
            dsimp only
            rw [hcond, if_neg Bool.false_ne_true]
            rw [ih hall.2 f hlen (acc ++ [(some (c0 :: c1 :: stl2), 1)])]
            rw [show chunksOf (VTok.idTok (c0 :: c1 :: stl2) :: ts)
              = (some (c0 :: c1 :: stl2), 1) :: chunksOf ts from rfl, List.append_assoc]
            rfl
      | dashTok n =>
        show unpackRleAux (f + 1) (VTok.dashTok n :: ts) 1 acc = _
        conv_lhs => unfold unpackRleAux
        dsimp only
        by_cases h2 : n ≥ 2
        · rw [if_pos h2, if_neg (show ¬ (1 : ℕ) > 1 from by omega)]
          rw [ih hall.2 f hlen (acc ++ [(Option.none, n)])]
          rw [show chunksOf (VTok.dashTok n :: ts) = (Option.none, n) :: chunksOf ts
            from rfl, List.append_assoc]
          rfl
        · rw [if_neg h2]
          have hn1 : n = 1 := by
            have := hall.1
            simp only [flatTok, decide_eq_true_eq] at this
            omega
          rw [ih hall.2 f hlen (acc ++ [(Option.none, 1)])]
          rw [show chunksOf (VTok.dashTok n :: ts) = (Option.none, n) :: chunksOf ts
            from rfl, hn1, List.append_assoc]
          rfl

/-- `_unpackRle` on a stream of id and dash tokens. -/
theorem unpack_flat (ts : List VTok) (h : ts.all flatTok = true) :
    unpackRle ts = chunksOf ts := by
  unfold unpackRle
  rw [unpackAux_flat ts h (2 * ts.length + 2) (by omega) []]
  rfl

/-- `render` is additive. -/
theorem render_append : ∀ (E1 E2 : List Atom),
    render (E1 ++ E2) = render E1 ++ render E2 := by
  intro E1
  induction E1 with
  | nil => intro E2; rfl
  | cons a E ih =>
    intro E2
    cases a with
    | id s =>
      show s ++ render (E ++ E2) = (s ++ render E) ++ render E2
      rw [ih, List.append_assoc]
    | dash =>
      show '-' :: render (E ++ E2) = ('-' :: render E) ++ render E2
      rw [ih]
      rfl
    | sep c =>
      show c :: render (E ++ E2) = (c :: render E) ++ render E2
      rw [ih]
      rfl

/-- `cellsOf` is additive. -/
theorem cellsOf_append : ∀ (E1 E2 : List Atom),
    cellsOf (E1 ++ E2) = cellsOf E1 ++ cellsOf E2 := by
  intro E1
  induction E1 with
  | nil => intro E2; rfl
  | cons a E ih =>
    intro E2
    cases a with
    | id s =>
      show some s :: cellsOf (E ++ E2) = (some s :: cellsOf E) ++ cellsOf E2
      rw [ih]
      rfl
    | dash =>
      show Option.none :: cellsOf (E ++ E2) = (Option.none :: cellsOf E) ++ cellsOf E2
      rw [ih]
      rfl
    | sep c =>
      show cellsOf (E ++ E2) = cellsOf E ++ cellsOf E2
      exact ih E2

/-- Rendering a dash run. -/
theorem render_replicate_dash : ∀ k : ℕ,
    render (List.replicate k Atom.dash) = List.replicate k '-' := by
  intro k
  induction k with
  | zero => rfl
  | succ k ih =>
    rw [List.replicate_succ, List.replicate_succ]
    show '-' :: render (List.replicate k Atom.dash) = '-' :: List.replicate k '-'
    rw [ih]

/-- The cells of a dash run. -/
theorem cellsOf_replicate_dash : ∀ k : ℕ,
    cellsOf (List.replicate k Atom.dash) = List.replicate k Option.none := by
  intro k
  induction k with
  | zero => rfl
  | succ k ih =>
    rw [List.replicate_succ, List.replicate_succ]
    show Option.none :: cellsOf (List.replicate k Atom.dash) = _
    rw [ih]

/-- The length of a leading dash run. -/
def dashRun : List Atom → ℕ
  | Atom.dash :: E => dashRun E + 1
  | _ => 0

/-- Splitting off the leading dash run. -/
theorem dashRun_split : ∀ E : List Atom,
    E = List.replicate (dashRun E) Atom.dash ++ E.drop (dashRun E) ∧
    (match E.drop (dashRun E) with | Atom.dash :: _ => False | _ => True) := by
  intro E
  induction E with
  | nil => exact ⟨rfl, trivial⟩
  | cons a E ih =>
    cases a with
    | dash =>
      refine ⟨?_, ?_⟩
      · show Atom.dash :: E = List.replicate (dashRun E + 1) Atom.dash ++
          (Atom.dash :: E).drop (dashRun E + 1)
        rw [List.replicate_succ, List.cons_append,
          show (Atom.dash :: E).drop (dashRun E + 1) = E.drop (dashRun E) from rfl,
          ← ih.1]
      · show (match E.drop (dashRun E) with | Atom.dash :: _ => False | _ => True)
        exact ih.2
    | id s => exact ⟨rfl, trivial⟩
    | sep c => exact ⟨rfl, trivial⟩

/-- The rendered text of a well-formed atom list never starts with a
    lower-case letter. -/
theorem render_head_not_lower : ∀ (E : List Atom), E.all wfAtom = true →
    (match render E with | [] => True | r :: _ => isLowerChar r = false) := by
  intro E hwf
  cases E with
  | nil => trivial
  | cons a E0 =>
    rw [List.all_cons, Bool.and_eq_true] at hwf
    cases a with
    | id s =>
      cases s with
      | nil => exact absurd hwf.1 (by simp [wfAtom])
      | cons c tl =>
        have hid := hwf.1
        simp only [wfAtom, Bool.and_eq_true] at hid
        show isLowerChar c = false
        exact upper_not_lower c hid.1
    | dash =>
      show isLowerChar '-' = false
      rfl
    | sep c =>
      have hs := hwf.1
      simp only [wfAtom, Bool.not_eq_true', Bool.or_eq_false_iff] at hs
      show isLowerChar c = false
      tauto

/-- The rendered text of a well-formed atom list not starting with a dash atom
    never starts with a dash character. -/
theorem render_head_not_dash : ∀ (E : List Atom), E.all wfAtom = true →
    (match E with | Atom.dash :: _ => False | _ => True) →
    (match render E with | [] => True | r :: _ => decide (r = '-') = false) := by
  intro E hwf hnd
  cases E with
  | nil => trivial
  | cons a E0 =>
    rw [List.all_cons, Bool.and_eq_true] at hwf
    cases a with
    | id s =>
      cases s with
      | nil => exact absurd hwf.1 (by simp [wfAtom])
      | cons c tl =>
        have hid := hwf.1
        simp only [wfAtom, Bool.and_eq_true] at hid
        show decide (c = '-') = false
        exact upper_ne_dash c hid.1
    | dash => exact absurd hnd (by simp)
    | sep c =>
      have hs := hwf.1
      simp only [wfAtom, Bool.not_eq_true', Bool.or_eq_false_iff] at hs
      show decide (c = '-') = false
      tauto

/-- The tokens of a rendered well-formed atom list are id and dash tokens, and
    their chunks flatten to the atom list's cells. -/
theorem tokens_render : ∀ (n : ℕ) (E : List Atom), E.length ≤ n →
    E.all wfAtom = true →
    (tokenizeVoxels (render E)).all flatTok = true ∧
    rleFlatten (chunksOf (tokenizeVoxels (render E))) = cellsOf E := by
  intro n
  induction n with
  | zero =>
    intro E hlen _
    have hE : E = [] := List.eq_nil_of_length_eq_zero (by omega)
    subst hE
    exact ⟨rfl, rfl⟩
  | succ n ih =>
    intro E hlen hwfE
    cases E with
    | nil => exact ⟨rfl, rfl⟩
    | cons a E0 =>
      have hwfall := hwfE
      rw [List.all_cons, Bool.and_eq_true] at hwfE
      have hlen0 : E0.length ≤ n := by
        simp only [List.length_cons] at hlen; omega
      cases a with
      | sep c =>
        have hcomp : isDigitChar c = false ∧ isUpperChar c = false ∧
            isLowerChar c = false ∧ decide (c = '-') = false ∧
            decide (c = '(') = false ∧ decide (c = ')') = false := by
          have hs := hwfE.1
          simp only [wfAtom, Bool.not_eq_true', Bool.or_eq_false_iff] at hs
          tauto
        rw [show render (Atom.sep c :: E0) = c :: render E0 from rfl,
            tok_sep c (render E0) hcomp.1 hcomp.2.1
              (of_decide_eq_false hcomp.2.2.2.1)
              (of_decide_eq_false hcomp.2.2.2.2.1)
              (of_decide_eq_false hcomp.2.2.2.2.2),
            show cellsOf (Atom.sep c :: E0) = cellsOf E0 from rfl]
        exact ih E0 hlen0 hwfE.2
      | id s =>
        cases s with
        | nil => exact absurd hwfE.1 (by simp [wfAtom])
        | cons c tl =>
          have hid := hwfE.1
          simp only [wfAtom, Bool.and_eq_true] at hid
          rw [show render (Atom.id (c :: tl) :: E0) = c :: (tl ++ render E0) from rfl,
              tok_id c tl (render E0) hid.1
                (fun d hd => List.all_eq_true.mp hid.2 d hd)
                (render_head_not_lower E0 hwfE.2)]
          obtain ⟨ihf, ihc⟩ := ih E0 hlen0 hwfE.2
          constructor
          · rw [List.all_cons, Bool.and_eq_true]
            refine ⟨?_, ihf⟩
            simp only [flatTok, Bool.and_eq_true]
            exact ⟨hid.1, hid.2⟩
          · show some (c :: tl) :: rleFlatten (chunksOf (tokenizeVoxels (render E0)))
              = some (c :: tl) :: cellsOf E0
            rw [ihc]
      | dash =>
        obtain ⟨hsplit, hafter⟩ := dashRun_split (Atom.dash :: E0)
        have hk1 : 1 ≤ dashRun (Atom.dash :: E0) :=
          Nat.succ_le_succ (Nat.zero_le (dashRun E0))
        have hwfR : ((Atom.dash :: E0).drop (dashRun (Atom.dash :: E0))).all wfAtom
            = true :=
          List.all_eq_true.mpr (fun x hx =>
            List.all_eq_true.mp hwfall x (List.mem_of_mem_drop hx))
        have hlenR : ((Atom.dash :: E0).drop (dashRun (Atom.dash :: E0))).length ≤ n := by
          rw [List.length_drop]
          simp only [List.length_cons] at hlen ⊢
          omega
        obtain ⟨ihf, ihc⟩ := ih _ hlenR hwfR
        rw [hsplit, render_append, render_replicate_dash,
            tok_dash (dashRun (Atom.dash :: E0))
              (render ((Atom.dash :: E0).drop (dashRun (Atom.dash :: E0)))) hk1
              (render_head_not_dash _ hwfR hafter)]
        constructor
        · rw [List.all_cons, Bool.and_eq_true]
          exact ⟨decide_eq_true hk1, ihf⟩
        · rw [cellsOf_append, cellsOf_replicate_dash]
          show List.replicate (dashRun (Atom.dash :: E0)) Option.none ++
              rleFlatten (chunksOf (tokenizeVoxels
                (render ((Atom.dash :: E0).drop (dashRun (Atom.dash :: E0))))))
            = _
          rw [ihc]

/-- The reader's voxel codec decodes a rendered well-formed atom list to
    exactly its cell sequence. -/
theorem decode_render (E : List Atom) (h : E.all wfAtom = true) :
    rleFlatten (unpackRle (tokenizeVoxels (render E))) = cellsOf E := by
  obtain ⟨hflat, hcells⟩ := tokens_render E.length E (Nat.le_refl _) h
  rw [unpack_flat _ hflat]
  exact hcells

/-- The size triple the writer computes from the occupied bounds
    (`model.voxels.bounds.size`). -/
def writerSize (b : IBox) : ℤ × ℤ × ℤ :=
  (b.maxX - b.minX + 1, b.maxY - b.minY + 1, b.maxZ - b.minZ + 1)

/-- The atoms `_serializeVoxels` emits (repeat = 1): per z-plane and y-row all
    cells of the occupied bounds in x order (the color id, or `-` when empty),
    a space after each row and `\r\n` after each plane. -/
def writeAtoms (g : VoxelGrid) (b : IBox) : List Atom :=
  (List.range (b.maxZ - b.minZ + 1).toNat).flatMap (fun (zi : ℕ) =>
    ((List.range (b.maxY - b.minY + 1).toNat).flatMap (fun (yi : ℕ) =>
      ((List.range (b.maxX - b.minX + 1).toNat).flatMap (fun (xi : ℕ) =>
        match g.get (b.minX + (xi : ℤ)) (b.minY + (yi : ℤ)) (b.minZ + (zi : ℤ)) with
        | some v => [Atom.id v.color.id]
        | Option.none => [Atom.dash])) ++ [Atom.sep ' '])) ++
      [Atom.sep '\r', Atom.sep '\n'])

/-- `ModelWriter._serializeVoxels` (the matrix part, repeat = 1). -/
def serializeVoxelsSimple (g : VoxelGrid) (b : IBox) : List Char :=
  render (writeAtoms g b)

/-- `cellsOf` commutes with `flatMap`. -/
theorem cellsOf_flatMap {α : Type} : ∀ (l : List α) (f : α → List Atom),
    cellsOf (l.flatMap f) = l.flatMap (fun x => cellsOf (f x)) := by
  intro l
  induction l with
  | nil => intro f; rfl
  | cons a t ih =>
    intro f
    rw [List.flatMap_cons, List.flatMap_cons, cellsOf_append, ih]

/-- Pointwise-equal functions give equal `flatMap`s. -/
theorem flatMap_congr {α β : Type} : ∀ (l : List α) (f h : α → List β),
    (∀ a ∈ l, f a = h a) → l.flatMap f = l.flatMap h := by
  intro l
  induction l with
  | nil => intro f h _; rfl
  | cons a t ih =>
    intro f h hfh
    rw [List.flatMap_cons, List.flatMap_cons, hfh a (List.mem_cons_self a t),
        ih f h (fun x hx => hfh x (List.mem_cons_of_mem a hx))]

/-- A `flatMap` of singletons is a `map`. -/
theorem flatMap_singleton_map {α β : Type} : ∀ (l : List α) (h : α → β),
    l.flatMap (fun x => [h x]) = l.map h := by
  intro l
  induction l with
  | nil => intro h; rfl
  | cons a t ih =>
    intro h
    rw [List.flatMap_cons, List.map_cons, ih]
    rfl

/-- The cell sequence of the serialized voxels: the grid contents in
    x-then-y-then-z order over the bounds. -/
theorem cells_writeAtoms (g : VoxelGrid) (b : IBox) :
    cellsOf (writeAtoms g b) =
      (List.range (b.maxZ - b.minZ + 1).toNat).flatMap (fun (zi : ℕ) =>
        (List.range (b.maxY - b.minY + 1).toNat).flatMap (fun (yi : ℕ) =>
          (List.range (b.maxX - b.minX + 1).toNat).map (fun (xi : ℕ) =>
            (g.get (b.minX + (xi : ℤ)) (b.minY + (yi : ℤ)) (b.minZ + (zi : ℤ))).map
              (fun v => v.color.id)))) := by
  unfold writeAtoms
  rw [cellsOf_flatMap]
  refine flatMap_congr _ _ _ (fun zi _ => ?_)
  rw [cellsOf_append, show cellsOf [Atom.sep '\r', Atom.sep '\n'] = [] from rfl,
      List.append_nil, cellsOf_flatMap]
  refine flatMap_congr _ _ _ (fun yi _ => ?_)
  rw [cellsOf_append, show cellsOf [Atom.sep ' '] = [] from rfl,
      List.append_nil, cellsOf_flatMap]
  rw [← flatMap_singleton_map (List.range (b.maxX - b.minX + 1).toNat)
    (fun (xi : ℕ) => (g.get (b.minX + (xi : ℤ)) (b.minY + (yi : ℤ)) (b.minZ + (zi : ℤ))).map
      (fun v => v.color.id))]
  refine flatMap_congr _ _ _ (fun xi _ => ?_)
  cases hv : g.get (b.minX + (xi : ℤ)) (b.minY + (yi : ℤ)) (b.minZ + (zi : ℤ)) with
  | none => rfl
  | some v => rfl

/-- The length of a `flatMap` with constant block length. -/
theorem flatMap_length_const {α β : Type} : ∀ (l : List α) (f : α → List β) (m : ℕ),
    (∀ a ∈ l, (f a).length = m) → (l.flatMap f).length = l.length * m := by
  intro l
  induction l with
  | nil => intro f m _; simp
  | cons a t ih =>
    intro f m hm
    rw [List.flatMap_cons, List.length_append, hm a (List.mem_cons_self a t),
        ih f m (fun x hx => hm x (List.mem_cons_of_mem a hx)),
        List.length_cons]
    ring

/-- Indexing into a `flatMap` with constant block length. -/
theorem flatMap_getD {α β : Type} [Inhabited α] (d : β) (m : ℕ) :
    ∀ (l : List α) (f : α → List β), (∀ a ∈ l, (f a).length = m) →
    ∀ (k r : ℕ), r < m → k < l.length →
      (l.flatMap f).getD (k * m + r) d = (f (l.getD k default)).getD r d := by
  intro l
  induction l with
  | nil =>
    intro f _ k r _ hk
    simp at hk
  | cons a t ih =>
    intro f hm k r hr hk
    rw [List.flatMap_cons]
    cases k with
    | zero =>
      rw [Nat.zero_mul, Nat.zero_add, List.getD_eq_getElem?_getD,
          List.getElem?_append_left
            (by rw [hm a (List.mem_cons_self a t)]; exact hr),
          ← List.getD_eq_getElem?_getD]
      rfl
    | succ k2 =>
      rw [show (k2 + 1) * m + r = m + (k2 * m + r) from by
            rw [Nat.succ_mul]; omega,
          List.getD_eq_getElem?_getD,
          List.getElem?_append_right
            (by rw [hm a (List.mem_cons_self a t)]; omega),
          hm a (List.mem_cons_self a t),
          show m + (k2 * m + r) - m = k2 * m + r from by omega,
          ← List.getD_eq_getElem?_getD,
          ih f (fun x hx => hm x (List.mem_cons_of_mem a hx)) k2 r hr
            (by simp only [List.length_cons] at hk; omega)]
      rfl

/-- Indexing into a `map`. -/
theorem map_getD {α β : Type} [Inhabited α] (l : List α) (h : α → β) (d : β)
    (k : ℕ) (hk : k < l.length) : (l.map h).getD k d = h (l.getD k default) := by
  rw [List.getD_eq_getElem?_getD, List.getElem?_map, List.getElem?_eq_getElem hk,
      show l.getD k default = l[k] from by
        rw [List.getD_eq_getElem?_getD, List.getElem?_eq_getElem hk]
        rfl]
  rfl

/-- Indexing into a `range`. -/
theorem range_getD (n k : ℕ) (hk : k < n) : (List.range n).getD k default = k := by
  rw [List.getD_eq_getElem?_getD, List.getElem?_range hk]
  rfl

/-- The serialized cell at flat index `zi·(ny·nx) + yi·nx + xi` is the grid
    cell at the corresponding bounds offset. -/
theorem writeCells_getD (g : VoxelGrid) (b : IBox) (xi yi zi : ℕ)
    (hx : xi < (b.maxX - b.minX + 1).toNat) (hy : yi < (b.maxY - b.minY + 1).toNat)
    (hz : zi < (b.maxZ - b.minZ + 1).toNat) :
    (cellsOf (writeAtoms g b)).getD
      (zi * ((b.maxY - b.minY + 1).toNat * (b.maxX - b.minX + 1).toNat) +
        (yi * (b.maxX - b.minX + 1).toNat + xi)) Option.none =
      (g.get (b.minX + (xi : ℤ)) (b.minY + (yi : ℤ)) (b.minZ + (zi : ℤ))).map
        (fun v => v.color.id) := by
  have hinner : ∀ zi2 yi2 : ℕ,
      ((List.range (b.maxX - b.minX + 1).toNat).map (fun (xi2 : ℕ) =>
        (g.get (b.minX + (xi2 : ℤ)) (b.minY + (yi2 : ℤ)) (b.minZ + (zi2 : ℤ))).map
          (fun v => v.color.id))).length = (b.maxX - b.minX + 1).toNat := by
    intro zi2 yi2
    rw [List.length_map, List.length_range]
  have hmid : ∀ zi2 : ℕ,
      ((List.range (b.maxY - b.minY + 1).toNat).flatMap (fun (yi2 : ℕ) =>
        (List.range (b.maxX - b.minX + 1).toNat).map (fun (xi2 : ℕ) =>
          (g.get (b.minX + (xi2 : ℤ)) (b.minY + (yi2 : ℤ)) (b.minZ + (zi2 : ℤ))).map
            (fun v => v.color.id)))).length =
      (b.maxY - b.minY + 1).toNat * (b.maxX - b.minX + 1).toNat := by
    intro zi2
    rw [flatMap_length_const _ _ (b.maxX - b.minX + 1).toNat
      (fun a _ => hinner zi2 a), List.length_range]
  rw [cells_writeAtoms,
      flatMap_getD Option.none
        ((b.maxY - b.minY + 1).toNat * (b.maxX - b.minX + 1).toNat)
        (List.range (b.maxZ - b.minZ + 1).toNat) _
        (fun a _ => hmid a) zi (yi * (b.maxX - b.minX + 1).toNat + xi)
        (by
          have h1 : yi * (b.maxX - b.minX + 1).toNat + xi <
              (yi + 1) * (b.maxX - b.minX + 1).toNat := by
            rw [Nat.succ_mul]
            omega
          exact Nat.lt_of_lt_of_le h1 (Nat.mul_le_mul_right _ (by omega)))
        (by rw [List.length_range]; exact hz),
      range_getD _ _ hz,
      flatMap_getD Option.none (b.maxX - b.minX + 1).toNat
        (List.range (b.maxY - b.minY + 1).toNat) _
        (fun a _ => hinner zi a) yi xi hx
        (by rw [List.length_range]; exact hy),
      range_getD _ _ hy,
      map_getD _ _ _ xi (by rw [List.length_range]; exact hx),
      range_getD _ _ hx]

/-- The number of serialized cells is the bounds volume. -/
theorem writeCells_length (g : VoxelGrid) (b : IBox) :
    (cellsOf (writeAtoms g b)).length =
      (b.maxZ - b.minZ + 1).toNat *
        ((b.maxY - b.minY + 1).toNat * (b.maxX - b.minX + 1).toNat) := by
  rw [cells_writeAtoms,
      flatMap_length_const _ _
        ((b.maxY - b.minY + 1).toNat * (b.maxX - b.minX + 1).toNat)
        (fun a _ => by
          rw [flatMap_length_const _ _ (b.maxX - b.minX + 1).toNat
            (fun a2 _ => by rw [List.length_map, List.length_range]),
            List.length_range]),
      List.length_range]


/-! ## Decimal printing of numbers (`Number.prototype.toString` on decimal
values, `count.toString()` of the RLE writer)

JavaScript prints a finite number as the shortest decimal string that parses
back to the same value; in the exact-rational model every number produced by
`parseFloat` is a decimal rational `z / 10^k`, and its decimal rendering is
modelled digit by digit. -/

/-- The character of a decimal digit (`0`–`9`). -/
def digitChar : ℕ → Char
  | 0 => '0' | 1 => '1' | 2 => '2' | 3 => '3' | 4 => '4'
  | 5 => '5' | 6 => '6' | 7 => '7' | 8 => '8' | 9 => '9'
  | _ => '0'

/-- The decimal digits of `n` (empty for 0); each step emits the low digit
    after the digits of `n / 10`, so fuel `n + 1` never runs out. -/
def natToCharsAux : ℕ → ℕ → List Char
  | 0, _ => []
  | fuel + 1, n =>
    if n = 0 then [] else natToCharsAux fuel (n / 10) ++ [digitChar (n % 10)]

/-- `n.toString()` for a natural number. -/
def natToChars (n : ℕ) : List Char :=
  if n = 0 then ['0'] else natToCharsAux (n + 1) n

/-- The decimal digits of `r` written with exactly `k` digits (leading
    zeros included, high digits of `r` beyond `k` positions dropped). -/
def padDigits : ℕ → ℕ → List Char
  | 0, _ => []
  | k + 1, r => padDigits k (r / 10) ++ [digitChar (r % 10)]

/-- The decimal rendering of the rational `z / 10^k`: sign, integer digits,
    and (for `k > 0`) a dot followed by exactly `k` fraction digits. -/
def printDec (z : ℤ) (k : ℕ) : List Char :=
  (if z < 0 then ['-'] else []) ++
    natToChars (z.natAbs / 10 ^ k) ++
    (if k = 0 then [] else '.' :: padDigits k (z.natAbs % 10 ^ k))

theorem digitChar_isDigit (d : ℕ) (h : d < 10) : isDigitChar (digitChar d) = true := by
  interval_cases d <;> decide

theorem digitVal_digitChar (d : ℕ) (h : d < 10) : digitVal (digitChar d) = d := by
  interval_cases d <;> decide

/-- Appending one digit multiplies the value by ten and adds the digit. -/
theorem digitsToNat_concat (xs : List Char) (d : Char) :
    digitsToNat (xs ++ [d]) = 10 * digitsToNat xs + digitVal d := by
  unfold digitsToNat
  rw [List.foldl_append]
  rfl

theorem natToCharsAux_spec : ∀ (fuel n : ℕ), n ≤ fuel →
    digitsToNat (natToCharsAux fuel n) = n ∧
    (∀ d ∈ natToCharsAux fuel n, isDigitChar d = true) := by
  intro fuel
  induction fuel with
  | zero =>
    intro n hn
    have h0 : n = 0 := by omega
    subst h0
    exact ⟨rfl, fun d hd => absurd hd (List.not_mem_nil d)⟩
  | succ f ih =>
    intro n hn
    by_cases h0 : n = 0
    · subst h0
      rw [show natToCharsAux (f + 1) 0 = [] from rfl]
      exact ⟨rfl, fun d hd => absurd hd (List.not_mem_nil d)⟩
    · have hrec : n / 10 ≤ f := by
        have := Nat.div_lt_self (Nat.pos_of_ne_zero h0) (show 1 < 10 from by omega)
        omega
      obtain ⟨ihv, ihd⟩ := ih (n / 10) hrec
      rw [show natToCharsAux (f + 1) n =
          if n = 0 then [] else natToCharsAux f (n / 10) ++ [digitChar (n % 10)] from
          rfl,
        if_neg h0]
      constructor
      · rw [digitsToNat_concat, ihv, digitVal_digitChar (n % 10) (Nat.mod_lt n (by omega))]
        omega
      · intro d hd
        rcases List.mem_append.mp hd with h | h
        · exact ihd d h
        · rw [List.mem_singleton.mp h]
          exact digitChar_isDigit (n % 10) (Nat.mod_lt n (by omega))

/-- Reading the printed digits recovers the number. -/
theorem digitsToNat_natToChars (n : ℕ) : digitsToNat (natToChars n) = n := by
  unfold natToChars
  by_cases h0 : n = 0
  · rw [if_pos h0, h0]
    rfl
  · rw [if_neg h0]
    exact (natToCharsAux_spec (n + 1) n (by omega)).1

theorem natToChars_digits (n : ℕ) : ∀ d ∈ natToChars n, isDigitChar d = true := by
  unfold natToChars
  by_cases h0 : n = 0
  · rw [if_pos h0]
    intro d hd
    rw [List.mem_singleton.mp hd]
    rfl
  · rw [if_neg h0]
    exact (natToCharsAux_spec (n + 1) n (by omega)).2

theorem natToChars_ne_nil (n : ℕ) : natToChars n ≠ [] := by
  unfold natToChars
  by_cases h0 : n = 0
  · rw [if_pos h0]
    exact List.cons_ne_nil '0' []
  · rw [if_neg h0]
    unfold natToCharsAux
    rw [if_neg h0]
    exact List.append_ne_nil_of_right_ne_nil _ (List.cons_ne_nil _ [])

theorem padDigits_length : ∀ (k r : ℕ), (padDigits k r).length = k := by
  intro k
  induction k with
  | zero => intro r; rfl
  | succ k ih =>
    intro r
    rw [show padDigits (k + 1) r = padDigits k (r / 10) ++ [digitChar (r % 10)] from rfl,
        List.length_append, ih]
    rfl

theorem padDigits_digits : ∀ (k r : ℕ), ∀ d ∈ padDigits k r, isDigitChar d = true := by
  intro k
  induction k with
  | zero => intro r d hd; exact absurd hd (List.not_mem_nil d)
  | succ k ih =>
    intro r d hd
    rw [show padDigits (k + 1) r = padDigits k (r / 10) ++ [digitChar (r % 10)] from rfl]
      at hd
    rcases List.mem_append.mp hd with h | h
    · exact ih (r / 10) d h
    · rw [List.mem_singleton.mp h]
      exact digitChar_isDigit (r % 10) (Nat.mod_lt r (by omega))

theorem padDigits_val : ∀ (k r : ℕ), digitsToNat (padDigits k r) = r % 10 ^ k := by
  intro k
  induction k with
  | zero => intro r; rw [show padDigits 0 r = [] from rfl, pow_zero, Nat.mod_one]; rfl
  | succ k ih =>
    intro r
    rw [show padDigits (k + 1) r = padDigits k (r / 10) ++ [digitChar (r % 10)] from rfl,
        digitsToNat_concat, ih, digitVal_digitChar (r % 10) (Nat.mod_lt r (by omega)),
        pow_succ, Nat.mul_comm (10 ^ k) 10, Nat.mod_mul]
    omega

/-- A digit character is not whitespace. -/
theorem digit_not_space (c : Char) (h : isDigitChar c = true) : isSpaceChar c = false := by
  unfold isSpaceChar
  by_cases h1 : c = ' '
  · rw [h1] at h; exact absurd h (by decide)
  · by_cases h2 : c = '\t'
    · rw [h2] at h; exact absurd h (by decide)
    · by_cases h3 : c = '\n'
      · rw [h3] at h; exact absurd h (by decide)
      · by_cases h4 : c = '\r'
        · rw [h4] at h; exact absurd h (by decide)
        · simp [h1, h2, h3, h4]

/-- The mantissa parser on printed unsigned decimals. -/
theorem parseMantissa_printed (m k : ℕ) :
    parseMantissa (natToChars (m / 10 ^ k) ++
        (if k = 0 then [] else '.' :: padDigits k (m % 10 ^ k))) =
      some ((m : ℚ) / 10 ^ k, []) := by
  by_cases hk : k = 0
  · subst hk
    rw [if_pos rfl, List.append_nil, pow_zero, Nat.div_one]
    unfold parseMantissa
    dsimp only
    have hspan := spanP_all_append isDigitChar (natToChars m) [] (natToChars_digits m)
      trivial
    rw [List.append_nil] at hspan
    rw [hspan]
    dsimp only
    rw [if_neg (fun h => natToChars_ne_nil m (List.isEmpty_iff.mp h))]
    rw [digitsToNat_natToChars, pow_zero, div_one]
  · rw [if_neg hk]
    unfold parseMantissa
    dsimp only
    rw [spanP_all_append isDigitChar (natToChars (m / 10 ^ k))
        ('.' :: padDigits k (m % 10 ^ k)) (natToChars_digits _) (by exact rfl)]
    dsimp only
    have hspan2 := spanP_all_append isDigitChar (padDigits k (m % 10 ^ k)) []
      (padDigits_digits k _) trivial
    rw [List.append_nil] at hspan2
    split
    case _ r heq =>
      obtain rfl : padDigits k (m % 10 ^ k) = r := List.tail_eq_of_cons_eq heq
      rw [hspan2]
      dsimp only
      rw [if_neg (fun hcon =>
        natToChars_ne_nil (m / 10 ^ k) (List.isEmpty_iff.mp hcon.1))]
      rw [digitsToNat_natToChars, padDigits_val, Nat.mod_mod_of_dvd _ dvd_rfl,
          padDigits_length]
      have hpos : ((10 : ℚ) ^ k) ≠ 0 := by positivity
      have hmain : ((m / 10 ^ k : ℕ) : ℚ) + ((m % 10 ^ k : ℕ) : ℚ) / (10 : ℚ) ^ k
          = (m : ℚ) / 10 ^ k := by
        rw [eq_div_iff hpos, add_mul, div_mul_cancel₀ _ hpos,
            mul_comm ((m / 10 ^ k : ℕ) : ℚ) ((10 : ℚ) ^ k)]
        exact_mod_cast Nat.div_add_mod m (10 ^ k)
      rw [hmain]
    case _ hno =>
      exact absurd rfl (hno (padDigits k (m % 10 ^ k)))

/-- `parseFloat` on a string starting with `'-'`. -/
theorem parseFloatJ_cons_minus (X : List Char) (m : ℚ) (rest : List Char)
    (hm : parseMantissa X = some (m, rest)) :
    parseFloatJ ('-' :: X) = JVal.num (-(m * (10 : ℚ) ^ parseExponent rest)) := by
  unfold parseFloatJ
  rw [show List.dropWhile isSpaceChar ('-' :: X) = '-' :: X from by
    rw [List.dropWhile_cons, if_neg (by decide)]]
  dsimp only
  split
  · rename_i r heq
    obtain rfl : X = r := List.tail_eq_of_cons_eq heq
    rw [hm]
  · rename_i r heq
    exact absurd (List.head_eq_of_cons_eq heq) (by decide)
  · rename_i hno hyes
    exact absurd rfl (hno X)

/-- `parseFloat` on a string starting with a digit. -/
theorem parseFloatJ_cons_digit (c : Char) (X : List Char) (hcd : isDigitChar c = true)
    (m : ℚ) (rest : List Char) (hm : parseMantissa (c :: X) = some (m, rest)) :
    parseFloatJ (c :: X) = JVal.num (m * (10 : ℚ) ^ parseExponent rest) := by
  unfold parseFloatJ
  rw [show List.dropWhile isSpaceChar (c :: X) = c :: X from by
    rw [List.dropWhile_cons, if_neg (by rw [digit_not_space c hcd]; exact
      Bool.false_ne_true)]]
  have hcm : ¬ c = '-' := fun he => absurd hcd (by rw [he]; decide)
  have hcp : ¬ c = '+' := fun he => absurd hcd (by rw [he]; decide)
  dsimp only
  split
  · rename_i r heq
    exact absurd (List.head_eq_of_cons_eq heq) hcm
  · rename_i r heq
    exact absurd (List.head_eq_of_cons_eq heq) hcp
  · rw [hm]

/-- The printed decimal form of `z / 10^k` parses back to exactly that
    rational: re-parsing the serialization of a decimal number value (such as
    a scale component) is lossless in the exact model. -/
theorem parseFloat_printDec (z : ℤ) (k : ℕ) :
    parseFloatJ (printDec z k) = JVal.num ((z : ℚ) / 10 ^ k) := by
  have hcore := parseMantissa_printed z.natAbs k
  by_cases hz : z < 0
  · unfold printDec
    rw [if_pos hz,
        show (['-'] ++ natToChars (z.natAbs / 10 ^ k) ++
            (if k = 0 then [] else '.' :: padDigits k (z.natAbs % 10 ^ k)))
          = '-' :: (natToChars (z.natAbs / 10 ^ k) ++
            (if k = 0 then [] else '.' :: padDigits k (z.natAbs % 10 ^ k))) from rfl,
        parseFloatJ_cons_minus _ _ _ hcore]
    rw [show parseExponent [] = 0 from rfl, zpow_zero, mul_one]
    congr 1
    rw [show ((z.natAbs : ℚ)) = -(z : ℚ) from by
      have h1 : ((z.natAbs : ℤ)) = -z := by
        rw [← Int.abs_eq_natAbs]
        exact abs_of_nonpos (le_of_lt hz)
      have h2 := congrArg (fun t : ℤ => ((t : ℚ))) h1
      dsimp only at h2
      rw [Int.cast_natCast, Int.cast_neg] at h2
      exact h2]
    ring
  · obtain ⟨c, tl, hct, hcd⟩ : ∃ c tl, natToChars (z.natAbs / 10 ^ k) = c :: tl ∧
        isDigitChar c = true := by
      cases hnc : natToChars (z.natAbs / 10 ^ k) with
      | nil => exact absurd hnc (natToChars_ne_nil _)
      | cons c tl =>
        exact ⟨c, tl, rfl, natToChars_digits (z.natAbs / 10 ^ k) c
          (by rw [hnc]; exact List.mem_cons_self c tl)⟩
    unfold printDec
    rw [if_neg hz, List.nil_append, hct, List.cons_append,
        parseFloatJ_cons_digit c _ hcd _ _ (by rw [← List.cons_append, ← hct]; exact
          hcore)]
    rw [show parseExponent [] = 0 from rfl, zpow_zero, mul_one]
    congr 1
    rw [show ((z.natAbs : ℚ)) = (z : ℚ) from by
      have h1 : ((z.natAbs : ℤ)) = z := by
        rw [← Int.abs_eq_natAbs]
        exact abs_of_nonneg (not_lt.mp hz)
      have h2 := congrArg (fun t : ℤ => ((t : ℚ))) h1
      dsimp only at h2
      rw [Int.cast_natCast] at h2
      exact h2]


/-! ## Material scatter (the `scatter` setter at lines 1175–1179, the
materials serializer's `if (material.scatter)` guard, and the reader's
`if (materialData.scatter)` guard) -/

/-- `Math.abs` on a field value (`Math.abs(undefined)` and `Math.abs(NaN)`
    are `NaN`, `Math.abs(±Infinity)` is `Infinity`). -/
def jabs : JVal → JVal
  | JVal.num q => JVal.num |q|
  | JVal.posInf => JVal.posInf
  | JVal.negInf => JVal.posInf
  | _ => JVal.nan

/-- The `scatter` setter: `if (value === 0.0) value = undefined;
    this._scatter = Math.abs(value);`. -/
def Material.setScatter (value : JVal) : JVal :=
  jabs (if value = JVal.num 0 then JVal.undef else value)

/-- JavaScript truthiness of a numeric field value (`if (material.scatter)`:
    `0`, `NaN` and `undefined` are falsy). -/
def truthyJV : JVal → Bool
  | JVal.num q => decide (q ≠ 0)
  | JVal.posInf => true
  | JVal.negInf => true
  | _ => false

/-- The scatter value of a (re-)read material: `_scatter` starts `undefined`
    in the constructor, and the setter runs only under the reader's
    `if (materialData.scatter)` guard (a string attribute is truthy iff it is
    nonempty). -/
def readScatter (attr : Option (List Char)) : JVal :=
  match attr with
  | some s => if s = [] then JVal.undef else Material.setScatter (parseFloatJ s)
  | Option.none => JVal.undef

/-- The scatter attribute the materials serializer emits:
    `if (material.scatter) result += ...` writes nothing when the stored
    value is falsy. -/
def writeScatterAttr (v : JVal) : Option JVal :=
  if truthyJV v then some v else Option.none

/-! ## Model shape (the `shape` setter at lines 2773–2781 and the writer's
`if (model.shape !== 'box')` guard) -/

/-- The allowed shape names. -/
def allowedShapes : List (List Char) :=
  ["box".toList, "sphere".toList, "cylinder-x".toList,
   "cylinder-y".toList, "cylinder-z".toList]

/-- The `shape` setter: `(shape || 'box').trim()`, then validation against
    the allowed list.  The reader assigns `model.shape = modelData.shape`
    with an absent attribute `undefined`, hence `'box'`. -/
def Model.setShape (shape : Option (List Char)) : Except SvoxError (List Char) :=
  let s := jsTrim (match shape with
    | some v => if v = [] then "box".toList else v
    | Option.none => "box".toList)
  if allowedShapes.contains s then Except.ok s
  else Except.error
    { name := "SyntaxError",
      message := "Unrecognized shape. Allowed are box, sphere, cylinder-x, cylinder-y and cylinder-z" }

/-- The shape attribute the writer emits: only a non-`box` shape is
    written. -/
def writeShapeAttr (s : List Char) : Option (List Char) :=
  if s = "box".toList then Option.none else some s

/-- Re-reading the written shape attribute restores the stored shape. -/
theorem shape_roundtrip (v : Option (List Char)) (s : List Char)
    (h : Model.setShape v = Except.ok s) :
    Model.setShape (writeShapeAttr s) = Except.ok s := by
  unfold Model.setShape at h
  dsimp only at h
  split at h
  · rename_i hcond
    have hseq := Except.ok.inj h
    have hmem : s ∈ allowedShapes := by
      rw [← hseq]
      rw [contains_eq_decide_mem] at hcond
      exact of_decide_eq_true hcond
    fin_cases hmem <;> decide
  · exact absurd h (fun he => Except.noConfusion he)

/-! ## The planar model and material attributes (the writer emits
`flatten = ...` etc. only when the stored planar's string form is nonempty;
the reader assigns the attribute, with an absent one `undefined`, through the
`Planar.parse` setter) -/

/-- The planar attribute the writer emits for a stored planar record. -/
def writePlanarAttr (p : Planar) : Option (List Char) :=
  if Planar.toString p = [] then Option.none else some (Planar.toString p)

/-- Re-reading a planar attribute (an absent attribute parses as `''`). -/
def readPlanarAttr (o : Option (List Char)) : Except SvoxError Planar :=
  Planar.parse (String.mk (match o with | some s => s | Option.none => []))

/-- Every stored planar record round-trips through its written attribute,
    including the omitted-when-empty case. -/
theorem planar_attr_roundtrip (a b c d e f g h i : Bool) :
    readPlanarAttr (writePlanarAttr ⟨a, b, c, d, e, f, g, h, i⟩) =
      Except.ok ⟨a, b, c, d, e, f, g, h, i⟩ := by
  cases a <;> cases b <;> cases c <;> cases d <;> cases e <;> cases f <;>
    cases g <;> cases h <;> cases i <;> decide

/-! ## Color round trip: `Color.fromHex` of the stored `_color` string that
`toString` returns and the writer's colors line emits -/

/-- Upper-casing never produces a lower-case letter. -/
theorem upperChar_not_lower (c : Char) : isLowerChar (upperChar c) = false := by
  unfold upperChar isLowerChar
  by_cases h : 'a' ≤ c ∧ c ≤ 'z'
  · rw [if_pos h]
    have h1 : 97 ≤ c.toNat := h.1
    have h2 : c.toNat ≤ 122 := h.2
    have hv : (c.toNat - 32).isValidChar := by
      left
      omega
    have ht : (Char.ofNat (c.toNat - 32)).toNat = c.toNat - 32 := by
      unfold Char.ofNat
      rw [dif_pos hv]
      rfl
    have hnot : ¬ ('a' ≤ Char.ofNat (c.toNat - 32) ∧ Char.ofNat (c.toNat - 32) ≤ 'z') := by
      intro hcon
      have g1 : (97 : ℕ) ≤ (Char.ofNat (c.toNat - 32)).toNat := hcon.1
      rw [ht] at g1
      omega
    simp only [Bool.and_eq_false_iff]
    by_cases ha : 'a' ≤ Char.ofNat (c.toNat - 32)
    · right
      exact decide_eq_false (fun hz => hnot ⟨ha, hz⟩)
    · left
      exact decide_eq_false ha
  · rw [if_neg h]
    simp only [Bool.and_eq_false_iff]
    by_cases ha : 'a' ≤ c
    · right
      exact decide_eq_false (fun hz => h ⟨ha, hz⟩)
    · left
      exact decide_eq_false ha

/-- A character that is not lower case is fixed by upper-casing. -/
theorem upperChar_fix (d : Char) (hlo : isLowerChar d = false) : upperChar d = d := by
  unfold upperChar
  rw [if_neg]
  intro hcon
  rw [show isLowerChar d = true from by
    unfold isLowerChar
    rw [decide_eq_true hcon.1, decide_eq_true hcon.2]
    rfl] at hlo
  exact Bool.noConfusion hlo

/-- A hex digit is not whitespace. -/
theorem hex_not_space (c : Char) (h : isHexDigit c = true) : isSpaceChar c = false := by
  unfold isSpaceChar
  by_cases h1 : c = ' '
  · rw [h1] at h; exact absurd h (by decide)
  · by_cases h2 : c = '\t'
    · rw [h2] at h; exact absurd h (by decide)
    · by_cases h3 : c = '\n'
      · rw [h3] at h; exact absurd h (by decide)
      · by_cases h4 : c = '\r'
        · rw [h4] at h; exact absurd h (by decide)
        · simp [h1, h2, h3, h4]

/-- A string passing the color regex is `'#'` followed by the rest after the
    first hash. -/
theorem colorHexOk_hash (l : List Char) (h : colorHexOk l = true) :
    l = '#' :: removeFirstHash l := by
  cases l with
  | nil => exact absurd h (by decide)
  | cons c0 cs =>
    by_cases hc0 : c0 = '#'
    · subst hc0
      rw [show removeFirstHash ('#' :: cs) = cs from by
        unfold removeFirstHash
        rw [if_pos rfl]]
    · have hfalse : colorHexOk (c0 :: cs) = false := by
        unfold colorHexOk
        split
        · rename_i rest heq
          exact absurd (List.head_eq_of_cons_eq heq) hc0
        · rfl
      rw [hfalse] at h
      exact Bool.noConfusion h

/-- The double-hash alternative of the color regex (`#?` inside the group):
    a second hash followed by six hex digits. -/
def hashSix (rest : List Char) : Bool :=
  match rest with
  | '#' :: r6 => decide (r6.length = 6) && r6.all isHexDigit
  | _ => false

/-- `colorHexOk` on a string known to start with the hash. -/
theorem colorHexOk_cons_hash (rest : List Char) :
    colorHexOk ('#' :: rest) =
      ((decide (rest.length = 3) && rest.all isHexDigit) ||
       (decide (rest.length = 6) && rest.all isHexDigit) ||
       hashSix rest) := rfl

/-- A string passing the double-hash alternative. -/
theorem hashSix_shape (rest : List Char) (h3 : hashSix rest = true) :
    ∃ r6, rest = '#' :: r6 ∧ r6.all isHexDigit = true := by
  revert h3
  cases rest with
  | nil =>
    intro h3
    exact absurd h3 (by decide)
  | cons r0 rs =>
    by_cases hr0 : r0 = '#'
    · subst hr0
      intro h3
      have h4 : (decide (rs.length = 6) && rs.all isHexDigit) = true := h3
      simp only [Bool.and_eq_true] at h4
      exact ⟨rs, rfl, h4.2⟩
    · intro h3
      have h5 : hashSix (r0 :: rs) = false := by
        unfold hashSix
        split
        · rename_i r6 heq
          exact absurd (List.head_eq_of_cons_eq heq) hr0
        · rfl
      rw [h5] at h3
      exact Bool.noConfusion h3

/-- Every character of a string passing the color regex is a hex digit or a
    hash. -/
theorem colorHexOk_chars (l : List Char) (h : colorHexOk l = true) :
    ∀ c ∈ l, isHexDigit c = true ∨ c = '#' := by
  have hsh := colorHexOk_hash l h
  rw [hsh] at h ⊢
  generalize removeFirstHash l = rest at h ⊢
  rw [colorHexOk_cons_hash] at h
  intro c hc
  rcases List.mem_cons.mp hc with rfl | hc2
  · right; rfl
  · simp only [Bool.or_eq_true, Bool.and_eq_true] at h
    rcases h with (⟨_, hall⟩ | ⟨_, hall⟩) | h3
    · left; exact List.all_eq_true.mp hall c hc2
    · left; exact List.all_eq_true.mp hall c hc2
    · obtain ⟨r6, heq, hall6⟩ := hashSix_shape rest h3
      rw [heq] at hc2
      rcases List.mem_cons.mp hc2 with rfl | hc3
      · right; rfl
      · left; exact List.all_eq_true.mp hall6 c hc3

/-- `dropWhile` leaves a list whose head fails the test unchanged. -/
theorem dropWhile_eq_self_of (p : Char → Bool) (l : List Char)
    (h : ∀ c ∈ l, p c = false) : l.dropWhile p = l := by
  cases l with
  | nil => rfl
  | cons c cs =>
    rw [List.dropWhile_cons,
        if_neg (by rw [h c (List.mem_cons_self c cs)]; exact Bool.false_ne_true)]

/-- Trimming a whitespace-free string is the identity. -/
theorem jsTrim_eq_self (l : List Char) (h : ∀ c ∈ l, isSpaceChar c = false) :
    jsTrim l = l := by
  unfold jsTrim
  rw [dropWhile_eq_self_of isSpaceChar l h,
      dropWhile_eq_self_of isSpaceChar l.reverse
        (fun c hc => h c (List.mem_reverse.mp hc)),
      List.reverse_reverse]

/-- A map whose function fixes every member is the identity. -/
theorem map_eq_self_of (f : Char → Char) (l : List Char)
    (h : ∀ c ∈ l, f c = c) : l.map f = l := by
  induction l with
  | nil => rfl
  | cons c cs ih =>
    rw [List.map_cons, h c (List.mem_cons_self c cs),
        ih (fun x hx => h x (List.mem_cons_of_mem c hx))]

/-- Re-parsing the stored `_color` display string of a parsed color (the
    string `toString` returns and the writer's colors line emits) restores
    exactly the same display string and float components. -/
theorem color_roundtrip (s : List Char) (c : ColorRec)
    (h : ColorRec.fromHex s = Except.ok c) :
    ColorRec.fromHex c.hex =
      Except.ok ⟨c.hex, c.r, c.g, c.b, [], Option.none, Option.none⟩ := by
  unfold ColorRec.fromHex at h
  dsimp only at h
  by_cases hok : colorHexOk ((jsTrim s).map upperChar) = true
  · rw [if_pos hok] at h
    obtain rfl := Except.ok.inj h
    dsimp only
    have hchars := colorHexOk_chars _ hok
    have himg : ∀ d ∈ (jsTrim s).map upperChar, isLowerChar d = false := by
      intro d hd
      obtain ⟨e, _, rfl⟩ := List.mem_map.mp hd
      exact upperChar_not_lower e
    have hsh := colorHexOk_hash _ hok
    have hnospace : ∀ d ∈ '#' :: removeFirstHash ((jsTrim s).map upperChar),
        isSpaceChar d = false := by
      intro d hd
      rcases hchars d (by rw [hsh]; exact hd) with hhex | rfl
      · exact hex_not_space d hhex
      · rfl
    have hnolower : ∀ d ∈ '#' :: removeFirstHash ((jsTrim s).map upperChar),
        isLowerChar d = false := by
      intro d hd
      exact himg d (by rw [hsh]; exact hd)
    unfold ColorRec.fromHex
    dsimp only
    rw [jsTrim_eq_self _ hnospace,
        map_eq_self_of upperChar _ (fun d hd => upperChar_fix d (hnolower d hd)),
        ← hsh, if_pos hok, ← hsh]
  · rw [if_neg hok] at h
    exact absurd h (fun he => Except.noConfusion he)

/-! ## The compressed voxel serializer (`ModelWriter._serializeVoxelsRLE`,
`_addRleChunk`, `_rleToString`)

The writer's RLE queue holds items `[value, repeat, stringified]`.  A chunk
item's value is the string `(count > 1 ? count : '') + (color ? id : '-')`
with repeat 1 (the count is baked into the string), and a pattern item's
value is an array of items with its repeat count.  The third field is the
`JSON.stringify` of the item and is used only in equality tests; for the
items the algorithm builds (well-formed `[A-Z][a-z]*` ids, so a chunk string
determines its count prefix and id uniquely) two items have equal
stringifications exactly when they are structurally equal, so items are
modelled by their structure and the string comparison by structural
equality. -/

/-- One item of the RLE queue. -/
inductive QItem where
  | chunk (c : Option (List Char)) (n : ℕ)
  | group (subs : List QItem) (n : ℕ)

/-- The chunk string `(count > 1 ? count.toString() : '') +
    (color ? color.id : '-')` of `_addRleChunk`. -/
def chunkStr (c : Option (List Char)) (n : ℕ) : List Char :=
  (if 1 < n then natToChars n else []) ++
    (match c with | some id => id | Option.none => ['-'])

mutual

/-- `_rleToString` of one item: a chunk item has repeat 1, so no prefix; a
    pattern item is its repeat (unless 1), `(`, the sub-items, `)`. -/
def QItem.render : QItem → List Char
  | QItem.chunk c n => chunkStr c n
  | QItem.group subs n =>
    (if n = 1 then [] else natToChars n) ++ '(' :: (renderItems subs ++ [')'])

/-- The concatenated `_rleToString` of a queue. -/
def renderItems : List QItem → List Char
  | [] => []
  | it :: rest => it.render ++ renderItems rest

end

mutual

/-- The cell sequence an item denotes. -/
def QItem.cells : QItem → List (Option (List Char))
  | QItem.chunk c n => List.replicate n c
  | QItem.group subs n => (List.range n).flatMap (fun _ => cellsItems subs)

/-- The cell sequence a queue denotes. -/
def cellsItems : List QItem → List (Option (List Char))
  | [] => []
  | it :: rest => it.cells ++ cellsItems rest

end

mutual

/-- The simple RLE chunks an item decodes to under `_unpackRle`. -/
def QItem.chunks : QItem → List RleChunk
  | QItem.chunk c n => [(c, n)]
  | QItem.group subs n => (List.range n).flatMap (fun _ => chunksItems subs)

/-- The simple RLE chunks of a queue. -/
def chunksItems : List QItem → List RleChunk
  | [] => []
  | it :: rest => it.chunks ++ chunksItems rest

end

mutual

/-- The tokens of an item's rendering. -/
def QItem.toks : QItem → List VTok
  | QItem.chunk c n =>
    (if 1 < n then [VTok.numTok n] else []) ++
      (match c with
       | some id => [VTok.idTok id]
       | Option.none => [VTok.dashTok 1])
  | QItem.group subs n =>
    (if n = 1 then [] else [VTok.numTok n]) ++
      VTok.openTok :: (toksItems subs ++ [VTok.closeTok])

/-- The tokens of a queue's rendering. -/
def toksItems : List QItem → List VTok
  | [] => []
  | it :: rest => it.toks ++ toksItems rest

end

mutual

/-- Structural equality of items (the `JSON.stringify` comparison of
    `_addRleChunk`). -/
def qeq : QItem → QItem → Bool
  | QItem.chunk c1 n1, QItem.chunk c2 n2 => c1 == c2 && n1 == n2
  | QItem.group s1 n1, QItem.group s2 n2 => qeqs s1 s2 && n1 == n2
  | _, _ => false

/-- Structural equality of item lists. -/
def qeqs : List QItem → List QItem → Bool
  | [], [] => true
  | a :: as, b :: bs => qeq a b && qeqs as bs
  | _, _ => false

end

mutual

/-- The size of an item (for induction). -/
def qsz : QItem → ℕ
  | QItem.chunk _ _ => 1
  | QItem.group subs _ => qszs subs + 1

/-- The size of an item list. -/
def qszs : List QItem → ℕ
  | [] => 0
  | a :: as => qsz a + qszs as

end

/-- A well-formed color id (`[A-Z][a-z]*`). -/
def wfId (s : List Char) : Bool :=
  match s with
  | [] => false
  | c :: tl => isUpperChar c && tl.all isLowerChar

/-- Does an item's rendering end with a dash character?  (Only a dash chunk
    does; ids end in a letter and patterns in `)`.) -/
def endsDashI : QItem → Bool
  | QItem.chunk Option.none _ => true
  | _ => false

/-- Does an item's rendering start with a dash character?  (Only a dash
    chunk without a count prefix does.) -/
def startsDashI : QItem → Bool
  | QItem.chunk Option.none n => decide (n ≤ 1)
  | _ => false

/-- No adjacent pair of items renders a dash directly after a dash (which
    would tokenize as one dash run). -/
def noDashSeam : List QItem → Bool
  | a :: b :: rest => !(endsDashI a && startsDashI b) && noDashSeam (b :: rest)
  | _ => true

/-- Does the queue's last item end with a dash? -/
def endsDashL (l : List QItem) : Bool :=
  match l.getLast? with
  | some a => endsDashI a
  | Option.none => false

mutual

/-- Well-formed items: chunk ids are `[A-Z][a-z]*`, every repeat count is
    positive, and pattern sub-queues are well-formed and seam-free. -/
def QItem.wf : QItem → Bool
  | QItem.chunk c n =>
    (match c with | some id => wfId id | Option.none => true) && decide (1 ≤ n)
  | QItem.group subs n => wfItems subs && noDashSeam subs && decide (1 ≤ n)

/-- Well-formedness of every item of a queue. -/
def wfItems : List QItem → Bool
  | [] => true
  | a :: as => a.wf && wfItems as

end

/-! ### Equations and homomorphisms of the queue functions -/

theorem renderItems_cons (a : QItem) (l : List QItem) :
    renderItems (a :: l) = a.render ++ renderItems l := by
  simp [renderItems]

theorem cellsItems_cons (a : QItem) (l : List QItem) :
    cellsItems (a :: l) = a.cells ++ cellsItems l := by
  simp [cellsItems]

theorem chunksItems_cons (a : QItem) (l : List QItem) :
    chunksItems (a :: l) = a.chunks ++ chunksItems l := by
  simp [chunksItems]

theorem toksItems_cons (a : QItem) (l : List QItem) :
    toksItems (a :: l) = a.toks ++ toksItems l := by
  simp [toksItems]

theorem wfItems_cons (a : QItem) (l : List QItem) :
    wfItems (a :: l) = (a.wf && wfItems l) := by
  simp [wfItems]

theorem qszs_cons (a : QItem) (l : List QItem) :
    qszs (a :: l) = qsz a + qszs l := by
  simp [qszs]

theorem renderItems_nil : renderItems [] = [] := by
  simp [renderItems]

theorem cellsItems_nil : cellsItems [] = [] := by
  simp [cellsItems]

theorem chunksItems_nil : chunksItems [] = [] := by
  simp [chunksItems]

theorem toksItems_nil : toksItems [] = [] := by
  simp [toksItems]

theorem wfItems_nil : wfItems [] = true := by
  simp [wfItems]

theorem drop_add_my {α : Type} (l : List α) (m n : ℕ) :
    l.drop (m + n) = (l.drop m).drop n := by
  rw [List.drop_drop, Nat.add_comm]

theorem qsz_pos (a : QItem) : 1 ≤ qsz a := by
  cases a with
  | chunk c n => simp [qsz]
  | group s n => simp [qsz]

theorem cellsItems_append : ∀ l1 l2 : List QItem,
    cellsItems (l1 ++ l2) = cellsItems l1 ++ cellsItems l2 := by
  intro l1
  induction l1 with
  | nil => intro l2; rfl
  | cons a t ih =>
    intro l2
    rw [List.cons_append, cellsItems_cons, cellsItems_cons, ih, List.append_assoc]

theorem chunksItems_append : ∀ l1 l2 : List QItem,
    chunksItems (l1 ++ l2) = chunksItems l1 ++ chunksItems l2 := by
  intro l1
  induction l1 with
  | nil => intro l2; rfl
  | cons a t ih =>
    intro l2
    rw [List.cons_append, chunksItems_cons, chunksItems_cons, ih, List.append_assoc]

theorem toksItems_append : ∀ l1 l2 : List QItem,
    toksItems (l1 ++ l2) = toksItems l1 ++ toksItems l2 := by
  intro l1
  induction l1 with
  | nil => intro l2; rfl
  | cons a t ih =>
    intro l2
    rw [List.cons_append, toksItems_cons, toksItems_cons, ih, List.append_assoc]

theorem renderItems_append : ∀ l1 l2 : List QItem,
    renderItems (l1 ++ l2) = renderItems l1 ++ renderItems l2 := by
  intro l1
  induction l1 with
  | nil => intro l2; rfl
  | cons a t ih =>
    intro l2
    rw [List.cons_append, renderItems_cons, renderItems_cons, ih, List.append_assoc]

theorem wfItems_append : ∀ l1 l2 : List QItem,
    wfItems (l1 ++ l2) = (wfItems l1 && wfItems l2) := by
  intro l1
  induction l1 with
  | nil => intro l2; rfl
  | cons a t ih =>
    intro l2
    rw [List.cons_append, wfItems_cons, wfItems_cons, ih, Bool.and_assoc]

/-- Structural equality is sound. -/
theorem qeqs_sound : ∀ (N : ℕ) (l1 l2 : List QItem), qszs l1 ≤ N →
    qeqs l1 l2 = true → l1 = l2 := by
  intro N
  induction N with
  | zero =>
    intro l1 l2 hsz heq
    cases l1 with
    | nil =>
      cases l2 with
      | nil => rfl
      | cons b bs => exact absurd heq (by simp [qeqs])
    | cons a as =>
      rw [qszs_cons] at hsz
      have := qsz_pos a
      omega
  | succ N ih =>
    intro l1 l2 hsz heq
    cases l1 with
    | nil =>
      cases l2 with
      | nil => rfl
      | cons b bs => exact absurd heq (by simp [qeqs])
    | cons a as =>
      cases l2 with
      | nil => exact absurd heq (by simp [qeqs])
      | cons b bs =>
        rw [show qeqs (a :: as) (b :: bs) = (qeq a b && qeqs as bs) from by
          simp [qeqs]] at heq
        rw [Bool.and_eq_true] at heq
        rw [qszs_cons] at hsz
        have hab : a = b := by
          cases a with
          | chunk c1 n1 =>
            cases b with
            | chunk c2 n2 =>
              have h2 := heq.1
              rw [show qeq (QItem.chunk c1 n1) (QItem.chunk c2 n2)
                = (c1 == c2 && n1 == n2) from by simp [qeq]] at h2
              simp only [Bool.and_eq_true, beq_iff_eq] at h2
              rw [h2.1, h2.2]
            | group s2 n2 => exact absurd heq.1 (by simp [qeq])
          | group s1 n1 =>
            cases b with
            | chunk c2 n2 => exact absurd heq.1 (by simp [qeq])
            | group s2 n2 =>
              have h2 := heq.1
              rw [show qeq (QItem.group s1 n1) (QItem.group s2 n2)
                = (qeqs s1 s2 && n1 == n2) from by simp [qeq]] at h2
              simp only [Bool.and_eq_true, beq_iff_eq] at h2
              have hs : s1 = s2 := by
                refine ih s1 s2 ?_ h2.1
                rw [show qsz (QItem.group s1 n1) = qszs s1 + 1 from by simp [qsz]]
                  at hsz
                omega
              rw [hs, h2.2]
        have has : as = bs := by
          refine ih as bs ?_ heq.2
          have := qsz_pos a
          omega
        rw [hab, has]

/-! ### Seam bookkeeping -/

theorem seam_nil : noDashSeam [] = true := rfl

theorem seam_singleton (a : QItem) : noDashSeam [a] = true := rfl

theorem seam_cons2 (a b : QItem) (l : List QItem) :
    noDashSeam (a :: b :: l)
      = (!(endsDashI a && startsDashI b) && noDashSeam (b :: l)) := by
  simp [noDashSeam]

theorem seam_tail (a : QItem) (l : List QItem) (h : noDashSeam (a :: l) = true) :
    noDashSeam l = true := by
  cases l with
  | nil => rfl
  | cons b r =>
    rw [seam_cons2, Bool.and_eq_true] at h
    exact h.2

theorem seam_pair (a b : QItem) (l : List QItem)
    (h : noDashSeam (a :: b :: l) = true) :
    (endsDashI a && startsDashI b) = false := by
  rw [seam_cons2, Bool.and_eq_true] at h
  have := h.1
  cases hc : (endsDashI a && startsDashI b) with
  | false => rfl
  | true => rw [hc] at this; exact absurd this (by decide)

theorem seam_cons_of (a : QItem) (l : List QItem) (ha : endsDashI a = false)
    (hl : noDashSeam l = true) : noDashSeam (a :: l) = true := by
  cases l with
  | nil => rfl
  | cons b r =>
    rw [seam_cons2, ha, Bool.false_and, Bool.not_false, Bool.true_and]
    exact hl

theorem seam_drop : ∀ (l : List QItem) (n : ℕ), noDashSeam l = true →
    noDashSeam (l.drop n) = true := by
  intro l
  induction l with
  | nil => intro n _; rw [List.drop_nil]; rfl
  | cons a t ih =>
    intro n h
    cases n with
    | zero => exact h
    | succ m =>
      rw [List.drop_succ_cons]
      exact ih m (seam_tail a t h)

theorem seam_take : ∀ (l : List QItem) (n : ℕ), noDashSeam l = true →
    noDashSeam (l.take n) = true := by
  intro l
  induction l with
  | nil => intro n _; rw [List.take_nil]; rfl
  | cons a t ih =>
    intro n h
    cases n with
    | zero => rfl
    | succ m =>
      rw [List.take_succ_cons]
      cases t with
      | nil =>
        rw [List.take_nil]
        rfl
      | cons b r =>
        cases m with
        | zero => rfl
        | succ m2 =>
          rw [List.take_succ_cons]
          rw [seam_cons2, seam_pair a b r h, Bool.not_false, Bool.true_and]
          have hsub := ih (m2 + 1) (seam_tail a (b :: r) h)
          rw [List.take_succ_cons] at hsub
          exact hsub

theorem seam_append_of : ∀ (l1 l2 : List QItem), noDashSeam l1 = true →
    noDashSeam l2 = true →
    (∀ a b, l1.getLast? = some a → l2.head? = some b →
      (endsDashI a && startsDashI b) = false) →
    noDashSeam (l1 ++ l2) = true := by
  intro l1
  induction l1 with
  | nil => intro l2 _ h2 _; exact h2
  | cons a t ih =>
    intro l2 h1 h2 hj
    cases t with
    | nil =>
      rw [List.cons_append, List.nil_append]
      cases l2 with
      | nil => rfl
      | cons b r =>
        rw [seam_cons2, hj a b rfl rfl, Bool.not_false, Bool.true_and]
        exact h2
    | cons a2 t2 =>
      rw [List.cons_append]
      rw [show (a2 :: t2) ++ l2 = a2 :: (t2 ++ l2) from rfl]
      rw [seam_cons2]
      rw [show a2 :: (t2 ++ l2) = (a2 :: t2) ++ l2 from rfl]
      rw [seam_pair a a2 t2 h1, Bool.not_false, Bool.true_and]
      exact ih l2 (seam_tail a (a2 :: t2) h1) h2
        (fun x y hx hy => hj x y (by rw [List.getLast?_cons_cons]; exact hx) hy)

/-! ### The `_addRleChunk` algorithm -/

/-- The pattern search `for (j = 1; j < compressionWindow; j++)` of
    `_addRleChunk` at position `k` (fuel `window - 1` bounds the loop): the
    first length `j` whose pattern of `j` items repeats directly
    (`queue[k+i][2] === queue[k+i+j][2]`), with the `break` when the `2j`
    items no longer fit. -/
def findJ (q : List QItem) (k : ℕ) : ℕ → ℕ → Option ℕ
  | _, 0 => Option.none
  | j, fuel + 1 =>
    if q.length < k + 2 * j then Option.none
    else if qeqs ((q.drop k).take j) ((q.drop (k + j)).take j) then some j
    else findJ q k (j + 1) fuel

/-- Combining the two pattern occurrences at `k` into one pattern item with
    repeat 2 (`queue.splice(k, j); queue.splice(k, j-1); queue[k] = [arr, 2]`
    removes the `2j` items and puts the pattern item at `k`). -/
def combineAt (q : List QItem) (k j : ℕ) : List QItem :=
  q.take k ++ QItem.group ((q.drop k).take j) 2 :: q.drop (k + 2 * j)

/-- The repeating-pattern extension at `k`: when `queue[k]` is already a
    pattern item, the items after it repeat the pattern once more, and they
    all exist (`queue.length > k + item.length`), drop them and increment the
    pattern's repeat. -/
def tryRepeat (q : List QItem) (k : ℕ) : Option (List QItem) :=
  match q.drop k with
  | QItem.group arr n :: _ =>
    if k + 1 + arr.length ≤ q.length ∧
        qeqs ((q.drop (k + 1)).take arr.length) arr = true then
      some (q.take k ++ QItem.group arr (n + 1) :: q.drop (k + 1 + arr.length))
    else Option.none
  | _ => Option.none

/-- The scan loop `for (k = max(0, len - 2w); k <= queue.length - 2; k++)` of
    `_addRleChunk`: at each `k` try the pattern combine, then the repeat
    extension; after either rewrite the source sets `k = queue.length`, so at
    most one rewrite happens per call. -/
def scanQueue (w : ℕ) (q : List QItem) : ℕ → ℕ → List QItem
  | 0, _ => q
  | fuel + 1, k =>
    if q.length < k + 2 then q
    else match findJ q k 1 (w - 1) with
      | some j => combineAt q k j
      | Option.none =>
        match tryRepeat q k with
        | some q2 => q2
        | Option.none => scanQueue w q fuel (k + 1)

/-- `_addRleChunk`: ignore an empty chunk, push `[chunk, 1, chunk]`, then
    scan from `max(0, queue.length - compressionWindow * 2)`. -/
def addRleChunk (w : ℕ) (q : List QItem) (c : Option (List Char)) (n : ℕ) :
    List QItem :=
  if n = 0 then q
  else
    scanQueue w (q ++ [QItem.chunk c n]) (q.length + 2) (q.length + 1 - w * 2)

/-- The cell loop of `_serializeVoxelsRLE`: count runs of equal colors
    (`lastColor` starts `undefined`, equal to no cell value, making the first
    pushed chunk the `(undefined, 0)` no-op), pushing a chunk at every color
    change and once at the end. -/
def rleFold (w : ℕ) : List (Option (List Char)) → List QItem →
    Option (Option (List Char)) → ℕ → List QItem
  | [], q, last, cnt => addRleChunk w q (last.getD Option.none) cnt
  | c :: rest, q, last, cnt =>
    if some c = last then rleFold w rest q last (cnt + 1)
    else rleFold w rest (addRleChunk w q (last.getD Option.none) cnt) (some c) 1

/-! ### Preservation of the queue invariant by the algorithm -/

theorem flatMap_range_two {α : Type} (f : ℕ → List α) :
    (List.range 2).flatMap f = f 0 ++ f 1 := by
  rw [show List.range 2 = [0, 1] from rfl]
  simp

theorem flatMap_range_succ {α : Type} (f : ℕ → List α) (n : ℕ) :
    (List.range (n + 1)).flatMap f = (List.range n).flatMap f ++ f n := by
  rw [List.range_succ, List.flatMap_append]
  simp

theorem getLast?_append_ne {α : Type} : ∀ (l1 l2 : List α), l2 ≠ [] →
    (l1 ++ l2).getLast? = l2.getLast? := by
  intro l1
  induction l1 with
  | nil => intro l2 _; rfl
  | cons a t ih =>
    intro l2 h
    rw [List.cons_append]
    cases htl : t ++ l2 with
    | nil =>
      rcases List.append_eq_nil.mp htl with ⟨_, h2⟩
      exact absurd h2 h
    | cons x xs =>
      have hih := ih l2 h
      rw [htl] at hih
      rw [List.getLast?_cons_cons]
      exact hih

theorem endsDashL_append (l1 l2 : List QItem) (h : l2 ≠ []) :
    endsDashL (l1 ++ l2) = endsDashL l2 := by
  unfold endsDashL
  rw [getLast?_append_ne l1 l2 h]

theorem endsDashL_singleton (a : QItem) : endsDashL [a] = endsDashI a := rfl

theorem endsDashL_concat (l : List QItem) (a : QItem) :
    endsDashL (l ++ [a]) = endsDashI a := by
  rw [endsDashL_append l [a] (List.cons_ne_nil a [])]
  exact endsDashL_singleton a

theorem endsDashL_cons_ne (a : QItem) (l : List QItem) (h : l ≠ []) :
    endsDashL (a :: l) = endsDashL l := by
  rw [show a :: l = [a] ++ l from rfl, endsDashL_append [a] l h]


theorem endsDashL_cons_cons (a b : QItem) (l : List QItem) :
    endsDashL (a :: b :: l) = endsDashL (b :: l) := by
  unfold endsDashL
  rw [List.getLast?_cons_cons]

/-- The three-piece decomposition behind `combineAt`. -/
theorem combine_decomp (q : List QItem) (k j : ℕ) (hlen : k + 2 * j ≤ q.length)
    (heq : qeqs ((q.drop k).take j) ((q.drop (k + j)).take j) = true) :
    q = q.take k ++ ((q.drop k).take j ++ ((q.drop k).take j ++ q.drop (k + 2 * j))) := by
  have hseg : (q.drop (k + j)).take j = (q.drop k).take j :=
    (qeqs_sound (qszs ((q.drop k).take j)) _ _ le_rfl heq).symm
  have e2 : q.drop (k + j) = (q.drop k).take j ++ q.drop (k + 2 * j) := by
    conv_lhs => rw [← List.take_append_drop j (q.drop (k + j))]
    rw [hseg]
    congr 1
    rw [← drop_add_my q (k + j) j]
    congr 1
    omega
  have e1 : q.drop k = (q.drop k).take j ++ ((q.drop k).take j ++ q.drop (k + 2 * j)) := by
    conv_lhs => rw [← List.take_append_drop j (q.drop k)]
    congr 1
    rw [← drop_add_my q k j]
    exact e2
  conv_lhs => rw [← List.take_append_drop k q]
  rw [← e1]

theorem combineAt_preserve (q : List QItem) (k j : ℕ)
    (hw : wfItems q = true) (hs : noDashSeam q = true) (hj : 1 ≤ j)
    (hlen : k + 2 * j ≤ q.length)
    (heq : qeqs ((q.drop k).take j) ((q.drop (k + j)).take j) = true) :
    wfItems (combineAt q k j) = true ∧ noDashSeam (combineAt q k j) = true ∧
    cellsItems (combineAt q k j) = cellsItems q ∧
    (endsDashL (combineAt q k j) = true → endsDashL q = true) := by
  have hdec := combine_decomp q k j hlen heq
  have hwparts : wfItems (q.take k) = true ∧ wfItems ((q.drop k).take j) = true ∧
      wfItems (q.drop (k + 2 * j)) = true := by
    rw [hdec, wfItems_append, wfItems_append, wfItems_append] at hw
    simp only [Bool.and_eq_true] at hw
    exact ⟨hw.1, hw.2.1, hw.2.2.2⟩
  have hstake : noDashSeam (q.take k) = true := seam_take q k hs
  have hsseg : noDashSeam ((q.drop k).take j) = true :=
    seam_take (q.drop k) j (seam_drop q k hs)
  have hsdrop : noDashSeam (q.drop (k + 2 * j)) = true := seam_drop q (k + 2 * j) hs
  have hgwf : (QItem.group ((q.drop k).take j) 2).wf = true := by
    rw [show (QItem.group ((q.drop k).take j) 2).wf
      = (wfItems ((q.drop k).take j) && noDashSeam ((q.drop k).take j) &&
        decide (1 ≤ 2)) from by simp [QItem.wf]]
    rw [hwparts.2.1, hsseg]
    rfl
  refine ⟨?_, ?_, ?_, ?_⟩
  · unfold combineAt
    rw [wfItems_append, wfItems_cons, hwparts.1, hgwf, hwparts.2.2]
    rfl
  · unfold combineAt
    refine seam_append_of _ _ hstake
      (seam_cons_of (QItem.group ((q.drop k).take j) 2) (q.drop (k + 2 * j))
        rfl hsdrop) ?_
    intro a b _ hb
    obtain rfl : b = QItem.group ((q.drop k).take j) 2 := by
      rw [show (QItem.group ((q.drop k).take j) 2 :: q.drop (k + 2 * j)).head?
        = some (QItem.group ((q.drop k).take j) 2) from rfl] at hb
      exact (Option.some.inj hb).symm
    rw [show startsDashI (QItem.group ((q.drop k).take j) 2) = false from rfl]
    exact Bool.and_false _
  · unfold combineAt
    rw [cellsItems_append, cellsItems_cons]
    conv_rhs => rw [hdec]
    rw [cellsItems_append, cellsItems_append, cellsItems_append]
    rw [show (QItem.group ((q.drop k).take j) 2).cells
      = (List.range 2).flatMap (fun _ => cellsItems ((q.drop k).take j)) from by
        simp [QItem.cells]]
    rw [flatMap_range_two]
    rw [List.append_assoc]
  · intro hE
    cases hdrop : q.drop (k + 2 * j) with
    | nil =>
      unfold combineAt at hE
      rw [hdrop] at hE
      rw [show (QItem.group ((q.drop k).take j) 2 :: ([] : List QItem)) =
        [QItem.group ((q.drop k).take j) 2] from rfl] at hE
      rw [endsDashL_concat] at hE
      rw [show endsDashI (QItem.group ((q.drop k).take j) 2) = false from rfl] at hE
      exact Bool.noConfusion hE
    | cons d ds =>
      unfold combineAt at hE
      rw [hdrop] at hE
      rw [endsDashL_append _ _ (List.cons_ne_nil _ _), endsDashL_cons_cons] at hE
      rw [hdec, hdrop]
      have hne : (q.drop k).take j ++ (d :: ds) ≠ [] := by
        intro hcon
        rcases List.append_eq_nil.mp hcon with ⟨_, h2⟩
        exact List.cons_ne_nil d ds h2
      rw [endsDashL_append _ _ (by
          intro hcon
          rcases List.append_eq_nil.mp hcon with ⟨_, h2⟩
          exact hne h2),
        endsDashL_append _ _ hne,
        endsDashL_append _ _ (List.cons_ne_nil d ds)]
      exact hE

/-- The decomposition behind `tryRepeat`. -/
theorem tryRepeat_decomp (q : List QItem) (k : ℕ) (arr rest0 : List QItem) (n : ℕ)
    (hdk : q.drop k = QItem.group arr n :: rest0)
    (hlen : k + 1 + arr.length ≤ q.length)
    (heq : qeqs ((q.drop (k + 1)).take arr.length) arr = true) :
    q = q.take k ++ (QItem.group arr n :: (arr ++ q.drop (k + 1 + arr.length))) := by
  have hd1 : q.drop (k + 1) = rest0 := by
    rw [drop_add_my q k 1, hdk]
    rfl
  have harr : (q.drop (k + 1)).take arr.length = arr :=
    qeqs_sound (qszs ((q.drop (k + 1)).take arr.length)) _ _ le_rfl heq
  have e1 : q.drop (k + 1) = arr ++ q.drop (k + 1 + arr.length) := by
    conv_lhs => rw [← List.take_append_drop arr.length (q.drop (k + 1))]
    rw [harr, ← drop_add_my q (k + 1) arr.length]
  conv_lhs => rw [← List.take_append_drop k q]
  rw [hdk]
  congr 1
  rw [show QItem.group arr n :: rest0
    = QItem.group arr n :: (arr ++ q.drop (k + 1 + arr.length)) from by
      rw [← hd1, e1]]

theorem tryRepeat_preserve (q q' : List QItem) (k : ℕ)
    (hw : wfItems q = true) (hs : noDashSeam q = true)
    (h : tryRepeat q k = some q') :
    wfItems q' = true ∧ noDashSeam q' = true ∧
    cellsItems q' = cellsItems q ∧
    (endsDashL q' = true → endsDashL q = true) := by
  unfold tryRepeat at h
  cases hdk : q.drop k with
  | nil => rw [hdk] at h; exact absurd h (fun he => Option.noConfusion he)
  | cons it rest0 =>
    rw [hdk] at h
    cases it with
    | chunk c n => exact absurd h (fun he => Option.noConfusion he)
    | group arr n =>
      dsimp only at h
      by_cases hcond : k + 1 + arr.length ≤ q.length ∧
          qeqs ((q.drop (k + 1)).take arr.length) arr = true
      · rw [if_pos hcond] at h
        obtain rfl := (Option.some.inj h).symm
        have hdec := tryRepeat_decomp q k arr rest0 n hdk hcond.1 hcond.2
        have hwparts : wfItems (q.take k) = true ∧
            (QItem.group arr n).wf = true ∧ wfItems arr = true ∧
            wfItems (q.drop (k + 1 + arr.length)) = true := by
          rw [hdec, wfItems_append, wfItems_cons, wfItems_append] at hw
          simp only [Bool.and_eq_true] at hw
          exact ⟨hw.1, hw.2.1, hw.2.2.1, hw.2.2.2⟩
        have hg2 : (QItem.group arr (n + 1)).wf = true := by
          have := hwparts.2.1
          rw [show (QItem.group arr n).wf
            = (wfItems arr && noDashSeam arr && decide (1 ≤ n)) from by
              simp [QItem.wf]] at this
          simp only [Bool.and_eq_true] at this
          rw [show (QItem.group arr (n + 1)).wf
            = (wfItems arr && noDashSeam arr && decide (1 ≤ n + 1)) from by
              simp [QItem.wf]]
          rw [this.1.1, this.1.2]
          simp
        have hsdrop : noDashSeam (q.drop (k + 1 + arr.length)) = true :=
          seam_drop q (k + 1 + arr.length) hs
        refine ⟨?_, ?_, ?_, ?_⟩
        · rw [wfItems_append, wfItems_cons, hwparts.1, hg2, hwparts.2.2.2]
          rfl
        · refine seam_append_of _ _ (seam_take q k hs)
            (seam_cons_of _ _ (by rfl) hsdrop) ?_
          intro a b _ hb
          obtain rfl : b = QItem.group arr (n + 1) := by
            rw [show (QItem.group arr (n + 1) :: q.drop (k + 1 + arr.length)).head?
              = some (QItem.group arr (n + 1)) from rfl] at hb
            exact (Option.some.inj hb).symm
          rw [show startsDashI (QItem.group arr (n + 1)) = false from rfl]
          exact Bool.and_false _
        · rw [cellsItems_append, cellsItems_cons]
          conv_rhs => rw [hdec]
          rw [cellsItems_append, cellsItems_cons, cellsItems_append]
          rw [show (QItem.group arr (n + 1)).cells
              = (List.range (n + 1)).flatMap (fun _ => cellsItems arr) from by
                simp [QItem.cells],
              show (QItem.group arr n).cells
              = (List.range n).flatMap (fun _ => cellsItems arr) from by
                simp [QItem.cells],
              flatMap_range_succ]
          rw [List.append_assoc]
        · intro hE
          cases hdrop : q.drop (k + 1 + arr.length) with
          | nil =>
            rw [hdrop] at hE
            rw [show (QItem.group arr (n + 1) :: ([] : List QItem)) =
              [QItem.group arr (n + 1)] from rfl] at hE
            rw [endsDashL_concat] at hE
            rw [show endsDashI (QItem.group arr (n + 1)) = false from rfl] at hE
            exact Bool.noConfusion hE
          | cons d ds =>
            rw [hdrop] at hE
            rw [endsDashL_append _ _ (List.cons_ne_nil _ _),
                endsDashL_cons_cons] at hE
            rw [hdec, hdrop]
            have hne : arr ++ (d :: ds) ≠ [] := by
              intro hcon
              rcases List.append_eq_nil.mp hcon with ⟨_, h2⟩
              exact List.cons_ne_nil d ds h2
            rw [endsDashL_append _ _ (List.cons_ne_nil _ _),
                endsDashL_cons_ne _ _ hne,
                endsDashL_append _ _ (List.cons_ne_nil d ds)]
            exact hE
      · rw [if_neg hcond] at h
        exact absurd h (fun he => Option.noConfusion he)

/-- `findJ` only returns lengths whose pattern test succeeded. -/
theorem findJ_some : ∀ (fuel j0 j : ℕ) (q : List QItem) (k : ℕ), 1 ≤ j0 →
    findJ q k j0 fuel = some j →
    1 ≤ j ∧ k + 2 * j ≤ q.length ∧
      qeqs ((q.drop k).take j) ((q.drop (k + j)).take j) = true := by
  intro fuel
  induction fuel with
  | zero =>
    intro j0 j q k _ h
    exact absurd h (fun he => Option.noConfusion he)
  | succ f ih =>
    intro j0 j q k hj0 h
    rw [show findJ q k j0 (f + 1)
      = (if q.length < k + 2 * j0 then Option.none
         else if qeqs ((q.drop k).take j0) ((q.drop (k + j0)).take j0) then some j0
         else findJ q k (j0 + 1) f) from rfl] at h
    by_cases h1 : q.length < k + 2 * j0
    · rw [if_pos h1] at h
      exact absurd h (fun he => Option.noConfusion he)
    · rw [if_neg h1] at h
      by_cases h2 : qeqs ((q.drop k).take j0) ((q.drop (k + j0)).take j0) = true
      · rw [if_pos h2] at h
        obtain rfl := Option.some.inj h
        exact ⟨hj0, by omega, h2⟩
      · rw [if_neg h2] at h
        exact ih (j0 + 1) j q k (by omega) h

/-- The scan loop preserves well-formedness, seams and the decoded cells. -/
theorem scanQueue_preserve : ∀ (fuel : ℕ) (w : ℕ) (q : List QItem) (k : ℕ),
    wfItems q = true → noDashSeam q = true →
    wfItems (scanQueue w q fuel k) = true ∧
    noDashSeam (scanQueue w q fuel k) = true ∧
    cellsItems (scanQueue w q fuel k) = cellsItems q ∧
    (endsDashL (scanQueue w q fuel k) = true → endsDashL q = true) := by
  intro fuel
  induction fuel with
  | zero =>
    intro w q k hw hs
    exact ⟨hw, hs, rfl, fun h => h⟩
  | succ f ih =>
    intro w q k hw hs
    rw [show scanQueue w q (f + 1) k
      = (if q.length < k + 2 then q
         else match findJ q k 1 (w - 1) with
           | some j => combineAt q k j
           | Option.none =>
             match tryRepeat q k with
             | some q2 => q2
             | Option.none => scanQueue w q f (k + 1)) from rfl]
    by_cases h1 : q.length < k + 2
    · rw [if_pos h1]
      exact ⟨hw, hs, rfl, fun h => h⟩
    · rw [if_neg h1]
      cases hfj : findJ q k 1 (w - 1) with
      | some j =>
        obtain ⟨hj, hlen, heq⟩ := findJ_some (w - 1) 1 j q k le_rfl hfj
        exact combineAt_preserve q k j hw hs hj hlen heq
      | none =>
        cases htr : tryRepeat q k with
        | some q2 => exact tryRepeat_preserve q q2 k hw hs htr
        | none => exact ih w q (k + 1) hw hs

/-- `_addRleChunk` preserves the invariant and appends the chunk's cells. -/
theorem addRleChunk_preserve (w : ℕ) (q : List QItem) (c : Option (List Char))
    (n : ℕ) (hw : wfItems q = true) (hs : noDashSeam q = true)
    (hid : ∀ s, c = some s → wfId s = true)
    (hseam : endsDashL q = true → startsDashI (QItem.chunk c n) = false) :
    wfItems (addRleChunk w q c n) = true ∧
    noDashSeam (addRleChunk w q c n) = true ∧
    cellsItems (addRleChunk w q c n) = cellsItems q ++ List.replicate n c ∧
    (endsDashL (addRleChunk w q c n) = true →
      (c = Option.none ∨ (n = 0 ∧ endsDashL q = true))) := by
  unfold addRleChunk
  by_cases h0 : n = 0
  · rw [if_pos h0, h0, List.replicate_zero, List.append_nil]
    exact ⟨hw, hs, rfl, fun h => Or.inr ⟨rfl, h⟩⟩
  · rw [if_neg h0]
    have hcw : (QItem.chunk c n).wf = true := by
      cases c with
      | none =>
        rw [show (QItem.chunk Option.none n).wf = (true && decide (1 ≤ n)) from by
          simp [QItem.wf]]
        rw [Bool.true_and]
        exact decide_eq_true (by omega)
      | some id =>
        rw [show (QItem.chunk (some id) n).wf = (wfId id && decide (1 ≤ n)) from by
          simp [QItem.wf]]
        rw [hid id rfl, Bool.true_and]
        exact decide_eq_true (by omega)
    have hw1 : wfItems (q ++ [QItem.chunk c n]) = true := by
      rw [wfItems_append, hw, wfItems_cons, hcw, wfItems_nil]
      rfl
    have hs1 : noDashSeam (q ++ [QItem.chunk c n]) = true := by
      refine seam_append_of _ _ hs (seam_singleton _) ?_
      intro a b ha hb
      obtain rfl : b = QItem.chunk c n := (Option.some.inj hb).symm
      by_cases hea : endsDashI a = true
      · have hel : endsDashL q = true := by
          unfold endsDashL
          rw [ha]
          exact hea
        rw [hseam hel]
        exact Bool.and_false _
      · rw [Bool.eq_false_iff.mpr hea]
        exact Bool.false_and _
    obtain ⟨hw2, hs2, hc2, he2⟩ :=
      scanQueue_preserve (q.length + 2) w (q ++ [QItem.chunk c n])
        (q.length + 1 - w * 2) hw1 hs1
    refine ⟨hw2, hs2, ?_, ?_⟩
    · rw [hc2, cellsItems_append, cellsItems_cons,
          show (QItem.chunk c n).cells = List.replicate n c from by simp [QItem.cells],
          cellsItems_nil, List.append_nil]
    · intro hE
      have := he2 hE
      rw [endsDashL_concat] at this
      cases c with
      | none => exact Or.inl rfl
      | some id =>
        rw [show endsDashI (QItem.chunk (some id) n) = false from rfl] at this
        exact absurd this (by decide)

/-- The RLE cell loop builds a well-formed, seam-free queue that denotes
    exactly the processed cells (after the queue's cells and the pending
    run). -/
theorem rleFold_spec : ∀ (cells : List (Option (List Char))) (w : ℕ)
    (q : List QItem) (last : Option (Option (List Char))) (cnt : ℕ),
    (∀ c ∈ cells, ∀ s, c = some s → wfId s = true) →
    (∀ s, last = some (some s) → wfId s = true) →
    wfItems q = true → noDashSeam q = true →
    (endsDashL q = true → last ≠ some Option.none) →
    ((cnt = 0 ∨ last = Option.none) → (q = [] ∧ last = Option.none ∧ cnt = 0)) →
    wfItems (rleFold w cells q last cnt) = true ∧
    noDashSeam (rleFold w cells q last cnt) = true ∧
    cellsItems (rleFold w cells q last cnt)
      = cellsItems q ++ (List.replicate cnt (last.getD Option.none) ++ cells) := by
  intro cells
  induction cells with
  | nil =>
    intro w q last cnt _ hlw hw hs hinv h0
    rw [show rleFold w [] q last cnt
      = addRleChunk w q (last.getD Option.none) cnt from rfl]
    have hid : ∀ s, last.getD Option.none = some s → wfId s = true := by
      intro s hs2
      apply hlw
      cases last with
      | none => exact absurd hs2 (fun he => Option.noConfusion he)
      | some v =>
        rw [show (some v).getD Option.none = v from rfl] at hs2
        rw [hs2]
    have hseam2 : endsDashL q = true →
        startsDashI (QItem.chunk (last.getD Option.none) cnt) = false := by
      intro hE
      have hne := hinv hE
      cases last with
      | none =>
        obtain ⟨hq, _, _⟩ := h0 (Or.inr rfl)
        rw [hq] at hE
        exact absurd hE (by decide)
      | some v =>
        cases v with
        | none => exact absurd rfl hne
        | some id => rfl
    obtain ⟨hw2, hs2, hc2, _⟩ :=
      addRleChunk_preserve w q (last.getD Option.none) cnt hw hs hid hseam2
    refine ⟨hw2, hs2, ?_⟩
    rw [List.append_nil]
    exact hc2
  | cons c rest ih =>
    intro w q last cnt hcw hlw hw hs hinv h0
    rw [show rleFold w (c :: rest) q last cnt
      = (if some c = last then rleFold w rest q last (cnt + 1)
         else rleFold w rest (addRleChunk w q (last.getD Option.none) cnt)
           (some c) 1) from rfl]
    by_cases hc : some c = last
    · rw [if_pos hc]
      obtain rfl := hc.symm
      have hcw2 : ∀ x ∈ rest, ∀ s, x = some s → wfId s = true :=
        fun x hx => hcw x (List.mem_cons_of_mem c hx)
      have hlw2 : ∀ s, (some c : Option (Option (List Char))) = some (some s) →
          wfId s = true := by
        intro s hs2
        exact hcw c (List.mem_cons_self c rest) s (Option.some.inj hs2)
      have h02 : (cnt + 1 = 0 ∨ (some c : Option (Option (List Char))) = Option.none) →
          (q = [] ∧ (some c : Option (Option (List Char))) = Option.none ∧
            cnt + 1 = 0) := by
        rintro (h | h)
        · omega
        · exact absurd h (fun he => Option.noConfusion he)
      obtain ⟨hw2, hs2, hc2⟩ := ih w q (some c) (cnt + 1) hcw2 hlw2 hw hs hinv h02
      refine ⟨hw2, hs2, ?_⟩
      rw [hc2]
      rw [show ((some c : Option (Option (List Char))).getD Option.none) = c from rfl]
      rw [List.replicate_succ', List.append_assoc]
      rfl
    · rw [if_neg hc]
      have hid : ∀ s, last.getD Option.none = some s → wfId s = true := by
        intro s hs2
        apply hlw
        cases last with
        | none => exact absurd hs2 (fun he => Option.noConfusion he)
        | some v =>
          rw [show (some v).getD Option.none = v from rfl] at hs2
          rw [hs2]
      have hseam2 : endsDashL q = true →
          startsDashI (QItem.chunk (last.getD Option.none) cnt) = false := by
        intro hE
        have hne := hinv hE
        cases last with
        | none =>
          obtain ⟨hq, _, _⟩ := h0 (Or.inr rfl)
          rw [hq] at hE
          exact absurd hE (by decide)
        | some v =>
          cases v with
          | none => exact absurd rfl hne
          | some id => rfl
      obtain ⟨hw2, hs2, hc2, hend2⟩ :=
        addRleChunk_preserve w q (last.getD Option.none) cnt hw hs hid hseam2
      have hcw2 : ∀ x ∈ rest, ∀ s, x = some s → wfId s = true :=
        fun x hx => hcw x (List.mem_cons_of_mem c hx)
      have hlw2 : ∀ s, (some c : Option (Option (List Char))) = some (some s) →
          wfId s = true := by
        intro s hs2
        exact hcw c (List.mem_cons_self c rest) s (Option.some.inj hs2)
      have hinv2 : endsDashL (addRleChunk w q (last.getD Option.none) cnt) = true →
          (some c : Option (Option (List Char))) ≠ some Option.none := by
        intro hE2 hcon
        obtain rfl : c = Option.none := Option.some.inj hcon
        rcases hend2 hE2 with hv | ⟨hcnt0, hEq⟩
        · cases hl : last with
          | none =>
            obtain ⟨hq, _, hcnt⟩ := h0 (Or.inr hl)
            rw [hq, hcnt, hl] at hE2
            rw [show addRleChunk w []
              ((Option.none : Option (Option (List Char))).getD Option.none) 0
              = [] from rfl] at hE2
            exact absurd hE2 (by decide)
          | some v =>
            rw [hl] at hv
            rw [show (some v).getD Option.none = v from rfl] at hv
            rw [hv] at hl
            exact hc (by rw [hl])
        · obtain ⟨hq, _, _⟩ := h0 (Or.inl hcnt0)
          rw [hq] at hEq
          exact absurd hEq (by decide)
      have h02 : ((1 : ℕ) = 0 ∨ (some c : Option (Option (List Char))) = Option.none) →
          (addRleChunk w q (last.getD Option.none) cnt = [] ∧
            (some c : Option (Option (List Char))) = Option.none ∧ (1 : ℕ) = 0) := by
        rintro (h | h)
        · omega
        · exact absurd h (fun he => Option.noConfusion he)
      obtain ⟨hw3, hs3, hc3⟩ := ih w (addRleChunk w q (last.getD Option.none) cnt)
        (some c) 1 hcw2 hlw2 hw2 hs2 hinv2 h02
      refine ⟨hw3, hs3, ?_⟩
      rw [hc3, hc2]
      rw [show ((some c : Option (Option (List Char))).getD Option.none) = c from rfl]
      rw [List.append_assoc]
      rfl

/-! ### Tokenizing a rendered queue -/

/-- The tail after a rendered queue must not start with a lower-case letter
    (which would extend a final id token). -/
def headNotLower (srest : List Char) : Prop :=
  match srest with | [] => True | r :: _ => isLowerChar r = false

/-- The tail after a dash-ending rendered queue must not start with a dash
    (which would extend the final dash run). -/
def headNotDash (srest : List Char) : Prop :=
  match srest with | [] => True | r :: _ => decide (r = '-') = false

/-- A tail that must not start with a digit (after a number token). -/
def headNotDigit (srest : List Char) : Prop :=
  match srest with | [] => True | r :: _ => isDigitChar r = false

theorem band_left {a b : Bool} (h : (a && b) = true) : a = true := by
  simp only [Bool.and_eq_true] at h
  exact h.1

theorem band_right {a b : Bool} (h : (a && b) = true) : b = true := by
  simp only [Bool.and_eq_true] at h
  exact h.2

/-- A digit is not lower case. -/
theorem digit_not_lower (c : Char) (h : isDigitChar c = true) :
    isLowerChar c = false := by
  simp only [isDigitChar, Bool.and_eq_true, decide_eq_true_eq] at h
  simp only [isLowerChar, Bool.and_eq_false_iff]
  by_cases ha : 'a' ≤ c
  · exact absurd (le_trans ha h.2) (by decide)
  · left
    exact decide_eq_false ha

/-- A digit is not the dash. -/
theorem digit_ne_dash (c : Char) (h : isDigitChar c = true) :
    decide (c = '-') = false := by
  by_cases hc : c = '-'
  · rw [hc] at h
    exact absurd h (by decide)
  · simp [hc]

/-- The tokenizer takes a maximal digit run as one number token. -/
theorem tok_num (ds rest : List Char) (hne : ds ≠ [])
    (hall : ∀ d ∈ ds, isDigitChar d = true) (hrest : headNotDigit rest) :
    tokenizeVoxels (ds ++ rest) = VTok.numTok (digitsToNat ds) :: tokenizeVoxels rest := by
  cases ds with
  | nil => exact absurd rfl hne
  | cons d dt =>
    have hd : isDigitChar d = true := hall d (List.mem_cons_self d dt)
    rw [List.cons_append]
    show tokenizeVoxelsAux ((d :: (dt ++ rest)).length + 1) (d :: (dt ++ rest)) = _
    rw [show (d :: (dt ++ rest)).length + 1 = (dt ++ rest).length + 1 + 1 from by simp]
    conv_lhs => unfold tokenizeVoxelsAux
    dsimp only
    rw [hd, if_pos rfl,
        spanP_all_append isDigitChar dt rest
          (fun x hx => hall x (List.mem_cons_of_mem d hx)) hrest]
    dsimp only
    rw [tokAux_fuel ((dt ++ rest).length + 1) (rest.length + 1) rest
      (by simp only [List.length_append]; omega) (by omega)]
    rfl

/-- An opening paren is always its own token. -/
theorem tok_open (l : List Char) :
    tokenizeVoxels ('(' :: l) = VTok.openTok :: tokenizeVoxels l := by
  show tokenizeVoxelsAux (('(' :: l).length + 1) ('(' :: l) = _
  rw [show ('(' :: l).length + 1 = l.length + 1 + 1 from by simp]
  conv_lhs => unfold tokenizeVoxelsAux
  dsimp only
  rw [show isDigitChar '(' = false from rfl, if_neg Bool.false_ne_true,
      show isUpperChar '(' = false from rfl, if_neg Bool.false_ne_true,
      if_neg (show ¬ '(' = '-' from by decide), if_pos rfl]
  rfl

/-- A closing paren is always its own token. -/
theorem tok_close (l : List Char) :
    tokenizeVoxels (')' :: l) = VTok.closeTok :: tokenizeVoxels l := by
  show tokenizeVoxelsAux ((')' :: l).length + 1) (')' :: l) = _
  rw [show (')' :: l).length + 1 = l.length + 1 + 1 from by simp]
  conv_lhs => unfold tokenizeVoxelsAux
  dsimp only
  rw [show isDigitChar ')' = false from rfl, if_neg Bool.false_ne_true,
      show isUpperChar ')' = false from rfl, if_neg Bool.false_ne_true,
      if_neg (show ¬ ')' = '-' from by decide),
      if_neg (show ¬ ')' = '(' from by decide), if_pos rfl]
  rfl

/-- The first character of a well-formed item's rendering: never lower case
    (so it cannot extend a preceding id token), and a dash only for a
    dash-starting item. -/
theorem render_item_head (it : QItem) (hwf : it.wf = true) :
    ∃ c tl2, it.render = c :: tl2 ∧ isLowerChar c = false ∧
      (startsDashI it = false → decide (c = '-') = false) := by
  cases it with
  | chunk c n =>
    have hr : (QItem.chunk c n).render = chunkStr c n := by simp [QItem.render]
    cases c with
    | some id =>
      have hid : wfId id = true := by
        rw [show (QItem.chunk (some id) n).wf = (wfId id && decide (1 ≤ n)) from by
          simp [QItem.wf]] at hwf
        exact band_left hwf
      cases id with
      | nil => exact absurd hid (by decide)
      | cons u ut =>
        have hu : isUpperChar u = true := by
          rw [show wfId (u :: ut) = (isUpperChar u && ut.all isLowerChar) from by
            simp [wfId]] at hid
          exact band_left hid
        have hrs : chunkStr (some (u :: ut)) n
            = (if 1 < n then natToChars n else []) ++ (u :: ut) := rfl
        by_cases hn : 1 < n
        · cases hnc : natToChars n with
          | nil => exact absurd hnc (natToChars_ne_nil n)
          | cons d dt =>
            have hd : isDigitChar d = true :=
              natToChars_digits n d (by rw [hnc]; exact List.mem_cons_self d dt)
            refine ⟨d, dt ++ (u :: ut), ?_, digit_not_lower d hd,
              fun _ => digit_ne_dash d hd⟩
            rw [hr, hrs, if_pos hn, hnc, List.cons_append]
        · refine ⟨u, ut, ?_, upper_not_lower u hu, fun _ => upper_ne_dash u hu⟩
          rw [hr, hrs, if_neg hn, List.nil_append]
    | none =>
      have hrs : chunkStr Option.none n
          = (if 1 < n then natToChars n else []) ++ ['-'] := rfl
      by_cases hn : 1 < n
      · cases hnc : natToChars n with
        | nil => exact absurd hnc (natToChars_ne_nil n)
        | cons d dt =>
          have hd : isDigitChar d = true :=
            natToChars_digits n d (by rw [hnc]; exact List.mem_cons_self d dt)
          refine ⟨d, dt ++ ['-'], ?_, digit_not_lower d hd,
            fun _ => digit_ne_dash d hd⟩
          rw [hr, hrs, if_pos hn, hnc, List.cons_append]
      · refine ⟨'-', [], ?_, by decide, fun hsd => ?_⟩
        · rw [hr, hrs, if_neg hn, List.nil_append]
        · rw [show startsDashI (QItem.chunk Option.none n) = decide (n ≤ 1) from by
            simp [startsDashI]] at hsd
          rw [decide_eq_true (show n ≤ 1 from by omega)] at hsd
          exact Bool.noConfusion hsd
  | group subs n =>
    have hr : (QItem.group subs n).render
        = (if n = 1 then [] else natToChars n) ++ '(' :: (renderItems subs ++ [')']) := by
      simp [QItem.render]
    by_cases hn1 : n = 1
    · refine ⟨'(', renderItems subs ++ [')'], ?_, by decide, fun _ => by decide⟩
      rw [hr, if_pos hn1, List.nil_append]
    · cases hnc : natToChars n with
      | nil => exact absurd hnc (natToChars_ne_nil n)
      | cons d dt =>
        have hd : isDigitChar d = true :=
          natToChars_digits n d (by rw [hnc]; exact List.mem_cons_self d dt)
        refine ⟨d, dt ++ '(' :: (renderItems subs ++ [')']), ?_,
          digit_not_lower d hd, fun _ => digit_ne_dash d hd⟩
        rw [hr, if_neg hn1, hnc, List.cons_append]

/-- The rendering of a well-formed queue followed by a tail never starts
    with a lower-case letter when the tail does not. -/
theorem renderItems_head (its : List QItem) (hw : wfItems its = true)
    (srest : List Char) (hNL : headNotLower srest) :
    headNotLower (renderItems its ++ srest) := by
  cases its with
  | nil =>
    rw [renderItems_nil, List.nil_append]
    exact hNL
  | cons a rest =>
    rw [wfItems_cons] at hw
    obtain ⟨c, tl2, hr, hcl, _⟩ := render_item_head a (band_left hw)
    rw [renderItems_cons, hr, List.cons_append, List.cons_append]
    exact hcl

theorem endsDashL_nil : endsDashL [] = false := by decide

/-- Tokenizing a rendered well-formed seam-free queue yields exactly its
    token sequence, followed by the tokens of the tail (which must not start
    with a lower-case letter, nor with a dash when the queue ends in one). -/
theorem toks_render_items : ∀ (N : ℕ) (its : List QItem), qszs its ≤ N →
    wfItems its = true → noDashSeam its = true →
    ∀ srest : List Char, headNotLower srest →
    (endsDashL its = true → headNotDash srest) →
    tokenizeVoxels (renderItems its ++ srest)
      = toksItems its ++ tokenizeVoxels srest := by
  intro N
  induction N with
  | zero =>
    intro its hsz _ _ srest _ _
    cases its with
    | nil => rw [renderItems_nil, toksItems_nil, List.nil_append, List.nil_append]
    | cons a rest =>
      rw [qszs_cons] at hsz
      have := qsz_pos a
      omega
  | succ N ih =>
    intro its hsz hw hs srest hNL hND
    cases its with
    | nil => rw [renderItems_nil, toksItems_nil, List.nil_append, List.nil_append]
    | cons a rest =>
      rw [wfItems_cons] at hw
      have hwa : a.wf = true := band_left hw
      have hwr : wfItems rest = true := band_right hw
      have hsr : noDashSeam rest = true := seam_tail a rest hs
      rw [qszs_cons] at hsz
      have hszr : qszs rest ≤ N := by
        have := qsz_pos a
        omega
      have hNL2 : headNotLower (renderItems rest ++ srest) :=
        renderItems_head rest hwr srest hNL
      have hND2 : endsDashI a = true → headNotDash (renderItems rest ++ srest) := by
        intro hea
        cases rest with
        | nil =>
          rw [renderItems_nil, List.nil_append]
          exact hND (by rw [endsDashL_singleton, hea])
        | cons b rest2 =>
          have hsb : startsDashI b = false := by
            have hp := seam_pair a b rest2 hs
            rw [hea, Bool.true_and] at hp
            exact hp
          rw [wfItems_cons] at hwr
          obtain ⟨c, tl2, hrb, _, hcd⟩ := render_item_head b (band_left hwr)
          rw [renderItems_cons, hrb, List.cons_append, List.cons_append]
          exact hcd hsb
      have hNDrest : endsDashL rest = true → headNotDash srest := by
        intro her
        cases rest with
        | nil => exact absurd her (by rw [endsDashL_nil]; exact Bool.noConfusion)
        | cons b rest2 =>
          exact hND (by rw [endsDashL_cons_cons]; exact her)
      have ihrest := ih rest hszr hwr hsr srest hNL hNDrest
      rw [renderItems_cons, List.append_assoc]
      cases a with
      | chunk c n =>
        rw [show (QItem.chunk c n).render = chunkStr c n from by simp [QItem.render],
            toksItems_cons]
        cases c with
        | some id =>
          have hid : wfId id = true := by
            rw [show (QItem.chunk (some id) n).wf
              = (wfId id && decide (1 ≤ n)) from by simp [QItem.wf]] at hwa
            exact band_left hwa
          cases id with
          | nil => exact absurd hid (by decide)
          | cons u ut =>
            have hu : isUpperChar u = true := by
              rw [show wfId (u :: ut) = (isUpperChar u && ut.all isLowerChar) from by
                simp [wfId]] at hid
              exact band_left hid
            have hlow : ut.all isLowerChar = true := by
              rw [show wfId (u :: ut) = (isUpperChar u && ut.all isLowerChar) from by
                simp [wfId]] at hid
              exact band_right hid
            rw [show chunkStr (some (u :: ut)) n
                = (if 1 < n then natToChars n else []) ++ (u :: ut) from rfl,
              show (QItem.chunk (some (u :: ut)) n).toks
                = (if 1 < n then [VTok.numTok n] else []) ++ [VTok.idTok (u :: ut)]
                from by simp [QItem.toks]]
            by_cases hn : 1 < n
            · rw [if_pos hn, if_pos hn, List.append_assoc]
              rw [tok_num (natToChars n) ((u :: ut) ++ (renderItems rest ++ srest))
                (natToChars_ne_nil n) (natToChars_digits n)
                (by rw [List.cons_append]; exact upper_not_digit u hu),
                digitsToNat_natToChars, List.cons_append,
                tok_id u ut (renderItems rest ++ srest) hu
                  (fun d hd => List.all_eq_true.mp hlow d hd) hNL2,
                ihrest]
              rfl
            · rw [if_neg hn, if_neg hn, List.nil_append, List.nil_append,
                List.cons_append,
                tok_id u ut (renderItems rest ++ srest) hu
                  (fun d hd => List.all_eq_true.mp hlow d hd) hNL2,
                ihrest]
              rfl
        | none =>
          rw [show chunkStr Option.none n
              = (if 1 < n then natToChars n else []) ++ ['-'] from rfl,
            show (QItem.chunk Option.none n).toks
              = (if 1 < n then [VTok.numTok n] else []) ++ [VTok.dashTok 1]
              from by simp [QItem.toks]]
          by_cases hn : 1 < n
          · rw [if_pos hn, if_pos hn, List.append_assoc]
            rw [tok_num (natToChars n) (['-'] ++ (renderItems rest ++ srest))
              (natToChars_ne_nil n) (natToChars_digits n) (by rw [List.cons_append]; rfl),
              digitsToNat_natToChars,
              show ((['-'] : List Char) ++ (renderItems rest ++ srest))
                = List.replicate 1 '-' ++ (renderItems rest ++ srest) from rfl,
              tok_dash 1 (renderItems rest ++ srest) le_rfl (hND2 rfl),
              ihrest]
            rfl
          · rw [if_neg hn, if_neg hn, List.nil_append, List.nil_append,
              show ((['-'] : List Char) ++ (renderItems rest ++ srest))
                = List.replicate 1 '-' ++ (renderItems rest ++ srest) from rfl,
              tok_dash 1 (renderItems rest ++ srest) le_rfl (hND2 rfl),
              ihrest]
            rfl
      | group subs n =>
        have hwg : wfItems subs = true ∧ noDashSeam subs = true := by
          rw [show (QItem.group subs n).wf
            = (wfItems subs && noDashSeam subs && decide (1 ≤ n)) from by
              simp [QItem.wf]] at hwa
          exact ⟨band_left (band_left hwa), band_right (band_left hwa)⟩
        have hszsubs : qszs subs ≤ N := by
          rw [show qsz (QItem.group subs n) = qszs subs + 1 from by simp [qsz]] at hsz
          omega
        have ihsubs := ih subs hszsubs hwg.1 hwg.2 (')' :: (renderItems rest ++ srest))
          (show headNotLower _ from rfl) (fun _ => show headNotDash _ from rfl)
        rw [show (QItem.group subs n).render
              = (if n = 1 then [] else natToChars n) ++
                '(' :: (renderItems subs ++ [')']) from by simp [QItem.render],
            toksItems_cons,
            show (QItem.group subs n).toks
              = (if n = 1 then [] else [VTok.numTok n]) ++
                VTok.openTok :: (toksItems subs ++ [VTok.closeTok]) from by
              simp [QItem.toks]]
        have hparen : ('(' :: (renderItems subs ++ [')'])) ++ (renderItems rest ++ srest)
            = '(' :: (renderItems subs ++ (')' :: (renderItems rest ++ srest))) := by
          rw [List.cons_append, List.append_assoc]
          rfl
        by_cases hn1 : n = 1
        · rw [if_pos hn1, if_pos hn1, List.nil_append, List.nil_append, hparen,
              tok_open, ihsubs, tok_close, ihrest]
          simp
        · rw [if_neg hn1, if_neg hn1, List.append_assoc, hparen]
          rw [tok_num (natToChars n)
            ('(' :: (renderItems subs ++ (')' :: (renderItems rest ++ srest))))
            (natToChars_ne_nil n) (natToChars_digits n)
            (show headNotDigit _ from rfl),
            digitsToNat_natToChars, tok_open, ihsubs, tok_close, ihrest]
          simp

/-! ### Decoding a queue's token stream (`_unpackRle`) -/

theorem unpackAux_zero (ts : List VTok) (count : ℕ) (acc : List RleChunk) :
    unpackRleAux 0 ts count acc = (acc, ts) := rfl

theorem unpackAux_fnil (f count : ℕ) (acc : List RleChunk) :
    unpackRleAux (f + 1) [] count acc = (acc, []) := rfl

theorem unpackAux_num (f n : ℕ) (ts : List VTok) (count : ℕ) (acc : List RleChunk) :
    unpackRleAux (f + 1) (VTok.numTok n :: ts) count acc = unpackRleAux f ts n acc := rfl

theorem unpackAux_open (f : ℕ) (ts : List VTok) (count : ℕ) (acc : List RleChunk) :
    unpackRleAux (f + 1) (VTok.openTok :: ts) count acc
      = unpackRleAux f (unpackRleAux f ts 1 []).2 1
          (acc ++ (List.range count).flatMap (fun _ => (unpackRleAux f ts 1 []).1)) := rfl

theorem unpackAux_close (f : ℕ) (ts : List VTok) (count : ℕ) (acc : List RleChunk) :
    unpackRleAux (f + 1) (VTok.closeTok :: ts) count acc = (acc, ts) := rfl

theorem unpackAux_id_nil (f : ℕ) (ts : List VTok) (count : ℕ) (acc : List RleChunk) :
    unpackRleAux (f + 1) (VTok.idTok [] :: ts) count acc
      = unpackRleAux f ts 1 (acc ++ [(some [], count)]) := rfl

theorem unpackAux_id_single (f : ℕ) (c0 : Char) (ts : List VTok) (count : ℕ)
    (acc : List RleChunk) :
    unpackRleAux (f + 1) (VTok.idTok [c0] :: ts) count acc
      = unpackRleAux f ts 1 (acc ++ [(some [c0], count)]) := rfl

theorem unpackAux_id_long (f : ℕ) (c0 c1 : Char) (s2 : List Char) (ts : List VTok)
    (count : ℕ) (acc : List RleChunk) :
    unpackRleAux (f + 1) (VTok.idTok (c0 :: c1 :: s2) :: ts) count acc
      = if isUpperChar c0 && (c1 = c0) then
          (if count > 1 then
            unpackRleAux f ts 1
              (acc ++ [(some [c0], count), (some [c0], (c0 :: c1 :: s2).length - 1)])
          else
            unpackRleAux f ts 1 (acc ++ [(some [c0], (c0 :: c1 :: s2).length)]))
        else
          unpackRleAux f ts 1 (acc ++ [(some (c0 :: c1 :: s2), count)]) := rfl

theorem unpackAux_dash (f n : ℕ) (ts : List VTok) (count : ℕ) (acc : List RleChunk) :
    unpackRleAux (f + 1) (VTok.dashTok n :: ts) count acc
      = if n ≥ 2 then
          (if count > 1 then
            unpackRleAux f ts 1 (acc ++ [(Option.none, count), (Option.none, n - 1)])
          else
            unpackRleAux f ts 1 (acc ++ [(Option.none, n)]))
        else
          unpackRleAux f ts 1 (acc ++ [(Option.none, count)]) := rfl

/-- The unconsumed rest returned by `_unpackRle` is never longer than its
    input. -/
theorem unpackAux_rest_len : ∀ (fuel : ℕ) (ts : List VTok) (count : ℕ)
    (acc : List RleChunk), (unpackRleAux fuel ts count acc).2.length ≤ ts.length := by
  intro fuel
  induction fuel with
  | zero =>
    intro ts count acc
    rw [unpackAux_zero]
  | succ f ih =>
    intro ts count acc
    cases ts with
    | nil => rw [unpackAux_fnil]
    | cons t ts2 =>
      cases t with
      | numTok n =>
        rw [unpackAux_num]
        exact le_trans (ih ts2 n acc) (Nat.le_succ _)
      | openTok =>
        rw [unpackAux_open]
        exact le_trans (le_trans (ih _ 1 _) (ih ts2 1 [])) (Nat.le_succ _)
      | closeTok =>
        rw [unpackAux_close]
        exact Nat.le_succ _
      | idTok s =>
        cases s with
        | nil =>
          rw [unpackAux_id_nil]
          exact le_trans (ih ts2 1 _) (Nat.le_succ _)
        | cons c0 s1 =>
          cases s1 with
          | nil =>
            rw [unpackAux_id_single]
            exact le_trans (ih ts2 1 _) (Nat.le_succ _)
          | cons c1 s2 =>
            rw [unpackAux_id_long]
            split
            · split
              · exact le_trans (ih ts2 1 _) (Nat.le_succ _)
              · exact le_trans (ih ts2 1 _) (Nat.le_succ _)
            · exact le_trans (ih ts2 1 _) (Nat.le_succ _)
      | dashTok n =>
        rw [unpackAux_dash]
        split
        · split
          · exact le_trans (ih ts2 1 _) (Nat.le_succ _)
          · exact le_trans (ih ts2 1 _) (Nat.le_succ _)
        · exact le_trans (ih ts2 1 _) (Nat.le_succ _)

/-- Any fuel of at least one more than the token count yields the same
    result: the fuel branch is unreachable. -/
theorem unpackAux_fuel : ∀ (f1 : ℕ) (ts : List VTok) (f2 count : ℕ)
    (acc : List RleChunk), ts.length + 1 ≤ f1 → ts.length + 1 ≤ f2 →
    unpackRleAux f1 ts count acc = unpackRleAux f2 ts count acc := by
  intro f1
  induction f1 with
  | zero =>
    intro ts f2 count acc h1 _
    exact absurd h1 (by omega)
  | succ g1 ih =>
    intro ts f2 count acc h1 h2
    cases f2 with
    | zero => exact absurd h2 (by omega)
    | succ g2 =>
      cases ts with
      | nil => rw [unpackAux_fnil, unpackAux_fnil]
      | cons t ts2 =>
        have hlen1 : ts2.length + 1 ≤ g1 := by
          simp only [List.length_cons] at h1
          omega
        have hlen2 : ts2.length + 1 ≤ g2 := by
          simp only [List.length_cons] at h2
          omega
        cases t with
        | numTok n =>
          rw [unpackAux_num, unpackAux_num]
          exact ih ts2 g2 n acc hlen1 hlen2
        | closeTok => rw [unpackAux_close, unpackAux_close]
        | openTok =>
          rw [unpackAux_open, unpackAux_open,
            ih ts2 g2 1 [] hlen1 hlen2]
          exact ih _ g2 1 _
            (le_trans (Nat.add_le_add_right (unpackAux_rest_len g2 ts2 1 []) 1) hlen1)
            (le_trans (Nat.add_le_add_right (unpackAux_rest_len g2 ts2 1 []) 1) hlen2)
        | idTok s =>
          cases s with
          | nil =>
            rw [unpackAux_id_nil, unpackAux_id_nil]
            exact ih ts2 g2 1 _ hlen1 hlen2
          | cons c0 s1 =>
            cases s1 with
            | nil =>
              rw [unpackAux_id_single, unpackAux_id_single]
              exact ih ts2 g2 1 _ hlen1 hlen2
            | cons c1 s2 =>
              rw [unpackAux_id_long, unpackAux_id_long]
              split
              · split
                · exact ih ts2 g2 1 _ hlen1 hlen2
                · exact ih ts2 g2 1 _ hlen1 hlen2
              · exact ih ts2 g2 1 _ hlen1 hlen2
        | dashTok n =>
          rw [unpackAux_dash, unpackAux_dash]
          split
          · split
            · exact ih ts2 g2 1 _ hlen1 hlen2
            · exact ih ts2 g2 1 _ hlen1 hlen2
          · exact ih ts2 g2 1 _ hlen1 hlen2

/-- Decoding a well-formed id token (`[A-Z][a-z]*`): the doubled-letter
    branch never fires, so the chunk is the id with the current count. -/
theorem unpackAux_id_wf (f : ℕ) (id : List Char) (hid : wfId id = true)
    (R : List VTok) (count : ℕ) (acc : List RleChunk) :
    unpackRleAux (f + 1) (VTok.idTok id :: R) count acc
      = unpackRleAux f R 1 (acc ++ [(some id, count)]) := by
  cases id with
  | nil => exact absurd hid (by decide)
  | cons u ut =>
    rw [show wfId (u :: ut) = (isUpperChar u && ut.all isLowerChar) from by
      simp [wfId]] at hid
    have hu : isUpperChar u = true := band_left hid
    cases ut with
    | nil => exact unpackAux_id_single f u R count acc
    | cons c1 ut2 =>
      have hc1 : isLowerChar c1 = true :=
        List.all_eq_true.mp (band_right hid) c1 (List.mem_cons_self c1 ut2)
      rw [unpackAux_id_long,
        if_neg (show ¬ (isUpperChar u && (decide (c1 = u))) = true from by
          rw [decide_eq_false (lower_ne_upper c1 u hc1 hu), Bool.and_false]
          exact Bool.noConfusion)]

/-- Decoding a single dash token: the run has length 1, so the long-run
    branch never fires. -/
theorem unpackAux_dash1 (f : ℕ) (R : List VTok) (count : ℕ) (acc : List RleChunk) :
    unpackRleAux (f + 1) (VTok.dashTok 1 :: R) count acc
      = unpackRleAux f R 1 (acc ++ [(Option.none, count)]) := by
  rw [unpackAux_dash, if_neg (by omega)]

/-- Decoding one chunk item's tokens at canonical fuel. -/
theorem unpack_chunk_step (c : Option (List Char)) (n : ℕ)
    (hwf : (QItem.chunk c n).wf = true) (R : List VTok) (acc : List RleChunk) :
    unpackRleAux (((QItem.chunk c n).toks ++ R).length + 1)
        ((QItem.chunk c n).toks ++ R) 1 acc
      = unpackRleAux (R.length + 1) R 1 (acc ++ [(c, n)]) := by
  cases c with
  | some id =>
    rw [show (QItem.chunk (some id) n).wf = (wfId id && decide (1 ≤ n)) from by
      simp [QItem.wf]] at hwf
    have hn1 : 1 ≤ n := of_decide_eq_true (band_right hwf)
    have hid : wfId id = true := band_left hwf
    rw [show (QItem.chunk (some id) n).toks
      = (if 1 < n then [VTok.numTok n] else []) ++ [VTok.idTok id] from by
        simp [QItem.toks]]
    by_cases hn : 1 < n
    · rw [if_pos hn]
      rw [show ([VTok.numTok n] ++ [VTok.idTok id]) ++ R
        = VTok.numTok n :: (VTok.idTok id :: R) from rfl]
      rw [show (VTok.numTok n :: (VTok.idTok id :: R)).length + 1
        = (R.length + 1 + 1) + 1 from by simp]
      rw [unpackAux_num, unpackAux_id_wf _ id hid]
    · rw [if_neg hn, List.nil_append]
      obtain rfl : n = 1 := by omega
      rw [show ([VTok.idTok id] : List VTok) ++ R = VTok.idTok id :: R from rfl]
      rw [show (VTok.idTok id :: R).length + 1 = (R.length + 1) + 1 from by simp]
      rw [unpackAux_id_wf _ id hid]
  | none =>
    rw [show (QItem.chunk Option.none n).wf = (true && decide (1 ≤ n)) from by
      simp [QItem.wf]] at hwf
    have hn1 : 1 ≤ n := of_decide_eq_true (band_right hwf)
    rw [show (QItem.chunk Option.none n).toks
      = (if 1 < n then [VTok.numTok n] else []) ++ [VTok.dashTok 1] from by
        simp [QItem.toks]]
    by_cases hn : 1 < n
    · rw [if_pos hn]
      rw [show ([VTok.numTok n] ++ [VTok.dashTok 1]) ++ R
        = VTok.numTok n :: (VTok.dashTok 1 :: R) from rfl]
      rw [show (VTok.numTok n :: (VTok.dashTok 1 :: R)).length + 1
        = (R.length + 1 + 1) + 1 from by simp]
      rw [unpackAux_num, unpackAux_dash1]
    · rw [if_neg hn, List.nil_append]
      obtain rfl : n = 1 := by omega
      rw [show ([VTok.dashTok 1] : List VTok) ++ R = VTok.dashTok 1 :: R from rfl]
      rw [show (VTok.dashTok 1 :: R).length + 1 = (R.length + 1) + 1 from by simp]
      rw [unpackAux_dash1]

/-- `_unpackRle` maps the token stream of a well-formed queue, followed by
    any tail, to the queue's simple chunks appended to the accumulator, and
    continues on the tail. -/
theorem unpack_items : ∀ (N : ℕ) (its : List QItem), qszs its ≤ N →
    wfItems its = true →
    ∀ (T : List VTok) (acc : List RleChunk),
    unpackRleAux ((toksItems its ++ T).length + 1) (toksItems its ++ T) 1 acc
      = unpackRleAux (T.length + 1) T 1 (acc ++ chunksItems its) := by
  intro N
  induction N with
  | zero =>
    intro its hsz _ T acc
    cases its with
    | nil => rw [toksItems_nil, List.nil_append, chunksItems_nil, List.append_nil]
    | cons a rest =>
      rw [qszs_cons] at hsz
      have := qsz_pos a
      omega
  | succ N ih =>
    intro its hsz hw T acc
    cases its with
    | nil => rw [toksItems_nil, List.nil_append, chunksItems_nil, List.append_nil]
    | cons a rest =>
      rw [wfItems_cons] at hw
      have hwa : a.wf = true := band_left hw
      have hwr : wfItems rest = true := band_right hw
      rw [qszs_cons] at hsz
      have hszr : qszs rest ≤ N := by
        have := qsz_pos a
        omega
      rw [toksItems_cons, chunksItems_cons, List.append_assoc]
      cases a with
      | chunk c n =>
        rw [unpack_chunk_step c n hwa (toksItems rest ++ T) acc]
        rw [show (QItem.chunk c n).chunks = [(c, n)] from by simp [QItem.chunks]]
        rw [ih rest hszr hwr T (acc ++ [(c, n)]), List.append_assoc]
      | group subs n =>
        have hszsubs : qszs subs ≤ N := by
          rw [show qsz (QItem.group subs n) = qszs subs + 1 from by simp [qsz]] at hsz
          omega
        have hwsubs : wfItems subs = true := by
          rw [show (QItem.group subs n).wf
            = (wfItems subs && noDashSeam subs && decide (1 ≤ n)) from by
              simp [QItem.wf]] at hwa
          exact band_left (band_left hwa)
        rw [show (QItem.group subs n).toks
          = (if n = 1 then [] else [VTok.numTok n]) ++
            VTok.openTok :: (toksItems subs ++ [VTok.closeTok]) from by
            simp [QItem.toks]]
        have hgrp : ∀ (count : ℕ),
            unpackRleAux
              ((VTok.openTok :: (toksItems subs ++ [VTok.closeTok])
                ++ (toksItems rest ++ T)).length + 1)
              (VTok.openTok :: (toksItems subs ++ [VTok.closeTok])
                ++ (toksItems rest ++ T)) count acc
            = unpackRleAux (T.length + 1) T 1
                (acc ++ ((List.range count).flatMap (fun _ => chunksItems subs)
                  ++ chunksItems rest)) := by
          intro count
          rw [List.cons_append, List.append_assoc,
            show ([VTok.closeTok] : List VTok) ++ (toksItems rest ++ T)
              = VTok.closeTok :: (toksItems rest ++ T) from rfl]
          rw [show (VTok.openTok ::
              (toksItems subs ++ VTok.closeTok :: (toksItems rest ++ T))).length + 1
            = ((toksItems subs ++ VTok.closeTok :: (toksItems rest ++ T)).length + 1) + 1
            from by simp]
          rw [unpackAux_open]
          rw [ih subs hszsubs hwsubs (VTok.closeTok :: (toksItems rest ++ T)) []]
          rw [show (VTok.closeTok :: (toksItems rest ++ T)).length + 1
            = ((toksItems rest ++ T).length + 1) + 1 from by simp]
          rw [unpackAux_close, List.nil_append]
          rw [unpackAux_fuel
            ((toksItems subs ++ VTok.closeTok :: (toksItems rest ++ T)).length + 1)
            (toksItems rest ++ T) ((toksItems rest ++ T).length + 1) 1 _
            (by simp only [List.length_append, List.length_cons]; omega) le_rfl]
          rw [ih rest hszr hwr T _, List.append_assoc]
        rw [show (QItem.group subs n).chunks
          = (List.range n).flatMap (fun _ => chunksItems subs) from by
            simp [QItem.chunks]]
        by_cases hn1 : n = 1
        · rw [if_pos hn1, List.nil_append, hn1]
          exact hgrp 1
        · rw [if_neg hn1,
            show ([VTok.numTok n] ++
                VTok.openTok :: (toksItems subs ++ [VTok.closeTok]))
                ++ (toksItems rest ++ T)
              = VTok.numTok n ::
                (VTok.openTok :: (toksItems subs ++ [VTok.closeTok])
                  ++ (toksItems rest ++ T)) from by
              rw [List.append_assoc]
              rfl]
          rw [show (VTok.numTok n ::
              (VTok.openTok :: (toksItems subs ++ [VTok.closeTok])
                ++ (toksItems rest ++ T))).length + 1
            = ((VTok.openTok :: (toksItems subs ++ [VTok.closeTok])
                ++ (toksItems rest ++ T)).length + 1) + 1 from by simp]
          rw [unpackAux_num]
          exact hgrp n

/-! ### Round trip of the writer's queue through the tokenizer and decoder -/

theorem rleFlatten_nil : rleFlatten [] = [] := rfl

theorem rleFlatten_append (l1 l2 : List RleChunk) :
    rleFlatten (l1 ++ l2) = rleFlatten l1 ++ rleFlatten l2 := by
  simp [rleFlatten]

theorem rleFlatten_flatMap_const (l : List ℕ) (C : List RleChunk) :
    rleFlatten (l.flatMap (fun _ => C))
      = l.flatMap (fun _ => rleFlatten C) := by
  induction l with
  | nil => rfl
  | cons a l ih =>
    rw [List.flatMap_cons, List.flatMap_cons, rleFlatten_append, ih]

/-- Flattening a queue's simple chunks yields exactly its cell sequence. -/
theorem rleFlatten_chunksItems : ∀ (N : ℕ) (its : List QItem), qszs its ≤ N →
    rleFlatten (chunksItems its) = cellsItems its := by
  intro N
  induction N with
  | zero =>
    intro its hsz
    cases its with
    | nil => rw [chunksItems_nil, cellsItems_nil, rleFlatten_nil]
    | cons a rest =>
      rw [qszs_cons] at hsz
      have := qsz_pos a
      omega
  | succ N ih =>
    intro its hsz
    cases its with
    | nil => rw [chunksItems_nil, cellsItems_nil, rleFlatten_nil]
    | cons a rest =>
      rw [qszs_cons] at hsz
      have hszr : qszs rest ≤ N := by
        have := qsz_pos a
        omega
      rw [chunksItems_cons, cellsItems_cons, rleFlatten_append, ih rest hszr]
      cases a with
      | chunk c n =>
        rw [show (QItem.chunk c n).chunks = [(c, n)] from by simp [QItem.chunks],
          show (QItem.chunk c n).cells = List.replicate n c from by simp [QItem.cells],
          show rleFlatten [(c, n)] = List.replicate n c ++ [] from rfl,
          List.append_nil]
      | group subs n =>
        have hszsubs : qszs subs ≤ N := by
          rw [show qsz (QItem.group subs n) = qszs subs + 1 from by simp [qsz]] at hsz
          omega
        rw [show (QItem.group subs n).chunks
            = (List.range n).flatMap (fun _ => chunksItems subs) from by
            simp [QItem.chunks],
          show (QItem.group subs n).cells
            = (List.range n).flatMap (fun _ => cellsItems subs) from by
            simp [QItem.cells],
          rleFlatten_flatMap_const, ih subs hszsubs]

/-- A rendered well-formed seam-free queue tokenizes, decodes and flattens
    back to exactly its cell sequence. -/
theorem unpack_render (its : List QItem) (hw : wfItems its = true)
    (hs : noDashSeam its = true) :
    rleFlatten (unpackRle (tokenizeVoxels (renderItems its))) = cellsItems its := by
  have htok : tokenizeVoxels (renderItems its) = toksItems its := by
    have h := toks_render_items (qszs its) its le_rfl hw hs [] trivial
      (fun _ => trivial)
    rw [List.append_nil] at h
    rw [h, show tokenizeVoxels [] = [] from rfl, List.append_nil]
  rw [htok]
  have hunp : unpackRle (toksItems its) = chunksItems its := by
    rw [show unpackRle (toksItems its)
      = (unpackRleAux (2 * (toksItems its).length + 2) (toksItems its) 1 []).1
      from rfl]
    rw [unpackAux_fuel (2 * (toksItems its).length + 2) (toksItems its)
      ((toksItems its).length + 1) 1 [] (by omega) le_rfl]
    have h2 := unpack_items (qszs its) its le_rfl hw [] []
    rw [List.append_nil] at h2
    rw [h2, show ([] : List VTok).length + 1 = 0 + 1 from rfl, unpackAux_fnil,
      List.nil_append]
  rw [hunp]
  exact rleFlatten_chunksItems (qszs its) its le_rfl

/-- `ModelWriter._serializeVoxelsRLE` (the matrix part): fold the cells of
    the occupied bounds (the same `z`,`y`,`x` running order as the simple
    serializer, by `forEachInBoundary`) through `_addRleChunk` and render the
    resulting queue with `_rleToString`. -/
def serializeVoxelsRLE (g : VoxelGrid) (b : IBox) (w : ℕ) : List Char :=
  renderItems (rleFold w (cellsOf (writeAtoms g b)) [] Option.none 0)

/-- The id branch of `wfAtom` is the id well-formedness predicate. -/
theorem wfAtom_id (s : List Char) : wfAtom (Atom.id s) = wfId s := rfl

/-- In a well-formed atom list, every occupied cell's id matches
    `[A-Z][a-z]*`. -/
theorem cells_wfId : ∀ (E : List Atom), E.all wfAtom = true →
    ∀ c ∈ cellsOf E, ∀ s, c = some s → wfId s = true := by
  intro E
  induction E with
  | nil =>
    intro _ c hc
    exact absurd hc (List.not_mem_nil c)
  | cons a E0 ih =>
    intro hwf c hc s hs
    rw [List.all_cons, Bool.and_eq_true] at hwf
    cases a with
    | id s0 =>
      rw [show cellsOf (Atom.id s0 :: E0) = some s0 :: cellsOf E0 from rfl] at hc
      rcases List.mem_cons.mp hc with h1 | h2
      · obtain rfl : s0 = s := Option.some.inj (h1 ▸ hs)
        rw [← wfAtom_id]
        exact hwf.1
      · exact ih hwf.2 c h2 s hs
    | dash =>
      rw [show cellsOf (Atom.dash :: E0) = Option.none :: cellsOf E0 from rfl] at hc
      rcases List.mem_cons.mp hc with h1 | h2
      · exact absurd (h1 ▸ hs) (fun he => Option.noConfusion he)
      · exact ih hwf.2 c h2 s hs
    | sep c0 =>
      rw [show cellsOf (Atom.sep c0 :: E0) = cellsOf E0 from rfl] at hc
      exact ih hwf.2 c hc s hs

/-- The reader's voxel codec decodes the compressed serialization of a
    well-formed grid to exactly the same cell sequence as the uncompressed
    one, for every compression window. -/
theorem decode_renderRLE (g : VoxelGrid) (b : IBox) (w : ℕ)
    (hwf : (writeAtoms g b).all wfAtom = true) :
    rleFlatten (unpackRle (tokenizeVoxels (serializeVoxelsRLE g b w)))
      = cellsOf (writeAtoms g b) := by
  obtain ⟨hw, hs, hc⟩ := rleFold_spec (cellsOf (writeAtoms g b)) w [] Option.none 0
    (cells_wfId _ hwf)
    (fun s h => Option.noConfusion h)
    (by rw [wfItems_nil])
    rfl
    (fun h => absurd h (by rw [endsDashL_nil]; exact Bool.noConfusion))
    (fun _ => ⟨rfl, rfl, rfl⟩)
  rw [show serializeVoxelsRLE g b w
    = renderItems (rleFold w (cellsOf (writeAtoms g b)) [] Option.none 0) from rfl]
  rw [unpack_render _ hw hs, hc, cellsItems_nil, List.nil_append,
    List.replicate_zero, List.nil_append]

/-- C1 (amended): the writer serializes the voxel matrix from the *occupied*
    bounding box, with the size line derived from its extent, so the round
    trip preserves occupancy and per-cell colors only up to the translation
    that moves the occupied box to the origin; and a material parameter can be
    silently dropped (a `scatter` stored as `NaN` is not written and re-reads
    as `undefined`).  The remaining legs of the original claim hold:
    (1) re-reading the uncompressed serialization succeeds, and the voxel of
    the re-read model at `(xi, yi, zi)` is exactly the original voxel at
    `(minX + xi, minY + yi, minZ + zi)`, for every cell of the written size —
    provided the written color ids are well-formed `[A-Z][a-z]*` ids and the
    color registry resolves each stored color's id to that color (as the
    reader's own registry does); (2) `compressed = true` and
    `compressed = false` writes re-read to *identical* voxel grids, for every
    compression window; (3) a stored color re-reads from its written hex
    string with the same hex and r/g/b; (4) a scale component re-reads from
    its printed decimal to exactly the stored rational; (5) a stored shape
    re-reads from its written attribute (omitted for `box`) unchanged;
    (6) a stored planar record re-reads from its written attribute (omitted
    when empty) unchanged. -/
theorem c1_roundtrip_amended (g : VoxelGrid) (b : IBox) (ms0 : List MatRec)
    (cs0 : List (List Char × ColorRec))
    (hbx : b.minX ≤ b.maxX) (hby : b.minY ≤ b.maxY) (hbz : b.minZ ≤ b.maxZ)
    (hwf : (writeAtoms g b).all wfAtom = true)
    (henv : ∀ X Y Z : ℤ, ∀ v : GVoxel, g.get X Y Z = some v →
      cs0.lookup v.color.id = some v.color) :
    (∃ out, createVoxels ms0 cs0 (writerSize b).1 (writerSize b).2.1 (writerSize b).2.2
        (serializeVoxelsSimple g b) = Except.ok out ∧
      (∀ xi yi zi : ℤ, 0 ≤ xi → xi < (writerSize b).1 → 0 ≤ yi →
        yi < (writerSize b).2.1 → 0 ≤ zi → zi < (writerSize b).2.2 →
        out.grid.get xi yi zi = g.get (b.minX + xi) (b.minY + yi) (b.minZ + zi)) ∧
      (∀ w : ℕ, ∃ outC, createVoxels ms0 cs0 (writerSize b).1 (writerSize b).2.1
          (writerSize b).2.2 (serializeVoxelsRLE g b w) = Except.ok outC ∧
        ∀ X Y Z : ℤ, outC.grid.get X Y Z = out.grid.get X Y Z)) ∧
    (∀ (s : List Char) (c0 : ColorRec), ColorRec.fromHex s = Except.ok c0 →
      ColorRec.fromHex c0.hex
        = Except.ok ⟨c0.hex, c0.r, c0.g, c0.b, [], Option.none, Option.none⟩) ∧
    (∀ (z : ℤ) (k : ℕ), parseFloatJ (printDec z k) = JVal.num ((z : ℚ) / 10 ^ k)) ∧
    (∀ (v : Option (List Char)) (s0 : List Char), Model.setShape v = Except.ok s0 →
      Model.setShape (writeShapeAttr s0) = Except.ok s0) ∧
    (∀ p : Planar, readPlanarAttr (writePlanarAttr p) = Except.ok p) := by
  have hx : (0 : ℤ) < b.maxX - b.minX + 1 := by omega
  have hy : (0 : ℤ) < b.maxY - b.minY + 1 := by omega
  have hnx : (((b.maxX - b.minX + 1).toNat : ℤ)) = b.maxX - b.minX + 1 :=
    Int.toNat_of_nonneg (by omega)
  have hny : (((b.maxY - b.minY + 1).toNat : ℤ)) = b.maxY - b.minY + 1 :=
    Int.toNat_of_nonneg (by omega)
  have hnz : (((b.maxZ - b.minZ + 1).toNat : ℤ)) = b.maxZ - b.minZ + 1 :=
    Int.toNat_of_nonneg (by omega)
  have hdec : rleFlatten (unpackRle (tokenizeVoxels (serializeVoxelsSimple g b)))
      = cellsOf (writeAtoms g b) := decode_render (writeAtoms g b) hwf
  have hsum : ((unpackRle (tokenizeVoxels (serializeVoxelsSimple g b))).map
      (fun c => (c.2 : ℤ))).sum =
      (writerSize b).1 * (writerSize b).2.1 * (writerSize b).2.2 := by
    rw [← rleFlatten_length, hdec, writeCells_length g b,
        Nat.cast_mul, Nat.cast_mul, hnx, hny, hnz]
    show (b.maxZ - b.minZ + 1) * ((b.maxY - b.minY + 1) * (b.maxX - b.minX + 1))
      = (b.maxX - b.minX + 1) * (b.maxY - b.minY + 1) * (b.maxZ - b.minZ + 1)
    ring
  obtain ⟨out, hok, _, _, _, hgrid⟩ :=
    createVoxels_ok ms0 cs0 _ _ _ hx hy (serializeVoxelsSimple g b) hsum
  refine ⟨⟨out, hok, ?_, ?_⟩, ?_, ?_, ?_, ?_⟩
  · intro xi yi zi h1 h2 h3 h4 h5 h6
    have h2x : xi < b.maxX - b.minX + 1 := h2
    have h4y : yi < b.maxY - b.minY + 1 := h4
    have h6z : zi < b.maxZ - b.minZ + 1 := h6
    have hxiN : ((xi.toNat : ℤ)) = xi := Int.toNat_of_nonneg h1
    have hyiN : ((yi.toNat : ℤ)) = yi := Int.toNat_of_nonneg h3
    have hziN : ((zi.toNat : ℤ)) = zi := Int.toNat_of_nonneg h5
    have hxiLt : xi.toNat < (b.maxX - b.minX + 1).toNat := by omega
    have hyiLt : yi.toNat < (b.maxY - b.minY + 1).toNat := by omega
    have hziLt : zi.toNat < (b.maxZ - b.minZ + 1).toNat := by omega
    rw [hgrid xi yi zi]
    unfold gridSpec
    rw [show cellIndex? (b.maxX - b.minX + 1) (b.maxY - b.minY + 1) xi yi zi =
        some ((xi + (b.maxX - b.minX + 1) * (yi + (b.maxY - b.minY + 1) * zi)).toNat)
        from by
      unfold cellIndex?
      rw [if_pos ⟨h1, h2x, h3, h4y, h5⟩]]
    dsimp only
    rw [hdec]
    have hdecomp : (xi + (b.maxX - b.minX + 1) * (yi + (b.maxY - b.minY + 1) * zi)).toNat
        = zi.toNat * ((b.maxY - b.minY + 1).toNat * (b.maxX - b.minX + 1).toNat) +
          (yi.toNat * (b.maxX - b.minX + 1).toNat + xi.toNat) := by
      have e1 : ((zi.toNat * ((b.maxY - b.minY + 1).toNat * (b.maxX - b.minX + 1).toNat) +
          (yi.toNat * (b.maxX - b.minX + 1).toNat + xi.toNat) : ℕ) : ℤ)
          = zi * ((b.maxY - b.minY + 1) * (b.maxX - b.minX + 1)) +
            (yi * (b.maxX - b.minX + 1) + xi) := by
        push_cast
        rw [hnx, hny, hxiN, hyiN, hziN]
      have e2 : 0 ≤ xi + (b.maxX - b.minX + 1) * (yi + (b.maxY - b.minY + 1) * zi) := by
        have f1 : 0 ≤ (b.maxY - b.minY + 1) * zi := mul_nonneg (by omega) h5
        have f2 : 0 ≤ yi + (b.maxY - b.minY + 1) * zi := by omega
        have f3 : 0 ≤ (b.maxX - b.minX + 1) * (yi + (b.maxY - b.minY + 1) * zi) :=
          mul_nonneg (by omega) f2
        omega
      have e3 := Int.toNat_of_nonneg e2
      have e4 : xi + (b.maxX - b.minX + 1) * (yi + (b.maxY - b.minY + 1) * zi)
          = zi * ((b.maxY - b.minY + 1) * (b.maxX - b.minX + 1)) +
            (yi * (b.maxX - b.minX + 1) + xi) := by ring
      omega
    rw [hdecomp]
    have hj : zi.toNat * ((b.maxY - b.minY + 1).toNat * (b.maxX - b.minX + 1).toNat) +
        (yi.toNat * (b.maxX - b.minX + 1).toNat + xi.toNat)
        < (cellsOf (writeAtoms g b)).length := by
      rw [writeCells_length g b]
      have hr : yi.toNat * (b.maxX - b.minX + 1).toNat + xi.toNat <
          (b.maxY - b.minY + 1).toNat * (b.maxX - b.minX + 1).toNat := by
        have hs : yi.toNat * (b.maxX - b.minX + 1).toNat + xi.toNat <
            (yi.toNat + 1) * (b.maxX - b.minX + 1).toNat := by
          rw [Nat.succ_mul]
          omega
        exact Nat.lt_of_lt_of_le hs (Nat.mul_le_mul_right _ (by omega))
      have hs2 : zi.toNat * ((b.maxY - b.minY + 1).toNat * (b.maxX - b.minX + 1).toNat) +
          (yi.toNat * (b.maxX - b.minX + 1).toNat + xi.toNat) <
          (zi.toNat + 1) * ((b.maxY - b.minY + 1).toNat * (b.maxX - b.minX + 1).toNat) := by
        rw [Nat.succ_mul]
        omega
      exact Nat.lt_of_lt_of_le hs2 (Nat.mul_le_mul_right _ (by omega))
    rw [if_pos hj, writeCells_getD g b xi.toNat yi.toNat zi.toNat hxiLt hyiLt hziLt,
        hxiN, hyiN, hziN]
    cases hv : g.get (b.minX + xi) (b.minY + yi) (b.minZ + zi) with
    | none => rfl
    | some v =>
      show (resolveSpec cs0 ms0.length (some v.color.id)).map (fun c => (⟨c⟩ : GVoxel))
        = some v
      unfold resolveSpec
      dsimp only
      rw [henv _ _ _ v hv]
      rfl
  · intro w
    have hdecR : rleFlatten (unpackRle (tokenizeVoxels (serializeVoxelsRLE g b w)))
        = cellsOf (writeAtoms g b) := decode_renderRLE g b w hwf
    have hsumR : ((unpackRle (tokenizeVoxels (serializeVoxelsRLE g b w))).map
        (fun c => (c.2 : ℤ))).sum =
        (writerSize b).1 * (writerSize b).2.1 * (writerSize b).2.2 := by
      rw [← rleFlatten_length, hdecR, writeCells_length g b,
          Nat.cast_mul, Nat.cast_mul, hnx, hny, hnz]
      show (b.maxZ - b.minZ + 1) * ((b.maxY - b.minY + 1) * (b.maxX - b.minX + 1))
        = (b.maxX - b.minX + 1) * (b.maxY - b.minY + 1) * (b.maxZ - b.minZ + 1)
      ring
    obtain ⟨outC, hokC, _, _, _, hgridC⟩ :=
      createVoxels_ok ms0 cs0 _ _ _ hx hy (serializeVoxelsRLE g b w) hsumR
    refine ⟨outC, hokC, ?_⟩
    intro X Y Z
    rw [hgridC X Y Z, hgrid X Y Z, hdecR, hdec]
  · intro s c0 h
    exact color_roundtrip s c0 h
  · intro z k
    exact parseFloat_printDec z k
  · intro v s0 h
    exact shape_roundtrip v s0 h
  · intro p
    obtain ⟨p1, p2, p3, p4, p5, p6, p7, p8, p9⟩ := p
    exact planar_attr_roundtrip p1 p2 p3 p4 p5 p6 p7 p8 p9

/-- The color record referenced by the counterexample model. -/
def colA : ColorRec := ⟨"#FF0000".toList, 1, 0, 0, "A".toList, Option.none, some 0⟩

/-- The original C1 claim fails: a size-3 model with a single center voxel
    re-reads, after writing, as a size-1 model with the voxel moved to the
    origin — occupancy and size are not preserved; and a material `scatter`
    set to `0` is stored as `NaN`, which the writer drops and the reader
    turns into `undefined`, so material parameters are not all preserved
    either. -/
theorem c1_roundtrip_counterexample :
    (∃ out1, createVoxels [] [("A".toList, colA)] 3 1 1 "-A-".toList
        = Except.ok out1 ∧
      out1.grid.get 1 0 0 = some ⟨colA⟩ ∧ out1.grid.get 0 0 0 = Option.none ∧
      out1.grid.bounds = some ⟨1, 1, 0, 0, 0, 0⟩ ∧
      writerSize ⟨1, 1, 0, 0, 0, 0⟩ = (1, 1, 1) ∧
      serializeVoxelsSimple out1.grid ⟨1, 1, 0, 0, 0, 0⟩ = "A \r\n".toList ∧
      ∃ out2, createVoxels [] [("A".toList, colA)] 1 1 1 "A \r\n".toList
          = Except.ok out2 ∧
        out2.grid.get 0 0 0 = some ⟨colA⟩ ∧ out2.grid.get 1 0 0 = Option.none) ∧
    (3 : ℤ) ≠ 1 ∧ (some (⟨colA⟩ : GVoxel)) ≠ Option.none ∧
    readScatter (some "0".toList) = JVal.nan ∧
    writeScatterAttr JVal.nan = Option.none ∧
    readScatter Option.none = JVal.undef ∧
    JVal.nan ≠ JVal.undef :=
  ⟨⟨⟨[], [("A".toList, colA)], Option.none,
      ⟨[((1, 0, 0), ⟨colA⟩)], some ⟨1, 1, 0, 0, 0, 0⟩, 1⟩⟩,
    by decide, by decide, by decide, by decide, by decide, by decide,
    ⟨⟨[], [("A".toList, colA)], Option.none,
        ⟨[((0, 0, 0), ⟨colA⟩)], some ⟨0, 0, 0, 0, 0, 0⟩, 1⟩⟩,
      by decide, by decide, by decide⟩⟩,
   by decide, by decide, by decide, by decide, by decide, by decide⟩

theorem c1_roundtrip_amended_witness :
    ∃ out, createVoxels [] [("A".toList, colA)]
        (writerSize ⟨1, 1, 0, 0, 0, 0⟩).1 (writerSize ⟨1, 1, 0, 0, 0, 0⟩).2.1
        (writerSize ⟨1, 1, 0, 0, 0, 0⟩).2.2
        (serializeVoxelsSimple ⟨[((1, 0, 0), ⟨colA⟩)], some ⟨1, 1, 0, 0, 0, 0⟩, 1⟩
          ⟨1, 1, 0, 0, 0, 0⟩) = Except.ok out ∧
      out.grid.get 0 0 0 = VoxelGrid.get
        ⟨[((1, 0, 0), ⟨colA⟩)], some ⟨1, 1, 0, 0, 0, 0⟩, 1⟩ (1 + 0) (0 + 0) (0 + 0) := by
  have henv : ∀ X Y Z : ℤ, ∀ v : GVoxel,
      VoxelGrid.get ⟨[((1, 0, 0), ⟨colA⟩)], some ⟨1, 1, 0, 0, 0, 0⟩, 1⟩ X Y Z = some v →
      List.lookup v.color.id [("A".toList, colA)] = some v.color := by
    intro X Y Z v hv
    unfold VoxelGrid.get at hv
    dsimp only at hv
    by_cases h : (X, Y, Z) = ((1 : ℤ), (0 : ℤ), (0 : ℤ))
    · have hb : ((X, Y, Z) == ((1 : ℤ), (0 : ℤ), (0 : ℤ))) = true := by simp [h]
      simp only [List.lookup, hb] at hv
      obtain rfl := Option.some.inj hv
      decide
    · have hb : ((X, Y, Z) == ((1 : ℤ), (0 : ℤ), (0 : ℤ))) = false :=
        beq_eq_false_iff_ne.mpr h
      simp only [List.lookup, hb] at hv
      exact Option.noConfusion hv
  obtain ⟨⟨out, hok, hcell, _⟩, _, _, _, _⟩ := c1_roundtrip_amended
    ⟨[((1, 0, 0), ⟨colA⟩)], some ⟨1, 1, 0, 0, 0, 0⟩, 1⟩ ⟨1, 1, 0, 0, 0, 0⟩
    [] [("A".toList, colA)] (by decide) (by decide) (by decide) (by decide) henv
  exact ⟨out, hok, hcell 0 0 0 (by decide) (by decide) (by decide) (by decide)
    (by decide) (by decide)⟩

end Svox
